import Mathlib

/-
  Verification development for the Arista EOS BGP configuration parser
  (source file: bgp_arista_web_server.py, class AristaBGPParser).

  The Python parser is embedded shallowly: Python `str` is modelled as
  `List Char`, each parsing method becomes a Lean function, and the
  index-driven `while` loops become recursive functions on the line index.

  Loop encoding convention: every loop takes an explicit `fuel : Nat`
  argument, decremented once per iteration, so that every function is
  structurally recursive and evaluates by kernel reduction. For the loops
  of the source that always make progress (every scan whose index strictly
  increases each iteration) the wrappers pass a fuel that provably exceeds
  the iteration count (`length + 1`), so the fueled function agrees with
  the loop everywhere. Two loops of the source can genuinely fail to make
  progress on degenerate inputs (the main BGP-block loop and the VRF-block
  loop, which can revisit an index via their `continue` / `return i - 1`
  paths, e.g. on a trailing bare `   vrf X` line); those two return
  `Option`, and `none` models a non-terminating run of the source.
-/

namespace BgpArista

/-- Characters of a Python string: the embedding models Python `str` values
as lists of characters. -/
abbrev Str := List Char

/-- Embeds a Lean string literal into the model type. -/
def str (s : String) : Str := s.data

/-- ASCII whitespace as stripped by Python `str.strip`, `str.rstrip` and
matched by `str.split()`; the model restricts Python's whitespace to ASCII. -/
def isSpaceC (c : Char) : Bool :=
  c = ' ' || c = '\t' || c = '\n' || c = '\r' || c = '\x0b' || c = '\x0c'

/-- Python `str.rstrip()`. -/
def rstrip (s : Str) : Str := (s.reverse.dropWhile isSpaceC).reverse

/-- Python `str.lstrip()`. -/
def lstrip (s : Str) : Str := s.dropWhile isSpaceC

/-- Python `str.strip()`. -/
def strip (s : Str) : Str := lstrip (rstrip s)

/-- Python `s.startswith(p)`. -/
def startsWith (s p : Str) : Bool :=
  match p, s with
  | [], _ => true
  | _ :: _, [] => false
  | pc :: pr, sc :: sr => pc = sc && startsWith sr pr

/-- Index of the first occurrence of `pat` inside `s` (Python `s.find(pat)`,
with `none` for "not found"). -/
def findSubIdx (pat s : Str) : Option Nat :=
  if startsWith s pat then some 0
  else
    match s with
    | [] => none
    | _ :: r => (findSubIdx pat r).map (· + 1)

/-- Python `pat in s` (substring containment). -/
def hasSub (pat s : Str) : Bool := (findSubIdx pat s).isSome

/-- Python `s.split(c)` for a one-character separator: splits at every
occurrence and keeps empty pieces. -/
def splitOnChar (c : Char) (s : Str) : List Str :=
  match s with
  | [] => [[]]
  | x :: r =>
    if x = c then [] :: splitOnChar c r
    else
      match splitOnChar c r with
      | [] => [[x]]
      | h :: t => (x :: h) :: t

/-- The fueled scan behind `pySplitSub`; one unit of fuel per split piece
(each piece consumes at least one character of `s`, so `s.length + 1`
always suffices). -/
def pySplitSubF (sep : Str) : Nat → Str → List Str
  | 0, s => [s]
  | fuel + 1, s =>
    if sep.isEmpty then [s]
    else
      match findSubIdx sep s with
      | none => [s]
      | some k => s.take k :: pySplitSubF sep fuel (s.drop (k + sep.length))

/-- Python `s.split(sep)` for a non-empty separator string (the source only
splits on the non-empty literals `route-map `, `" in"`, `" out"` and the
double-quote). An empty separator raises in Python and is mapped to `[s]`. -/
def pySplitSub (sep s : Str) : List Str := pySplitSubF sep (s.length + 1) s

/-- The accumulator pass behind `words`: `acc` holds the current word
reversed. -/
def wordsAux : Str → Str → List Str
  | [], acc => if acc.isEmpty then [] else [acc.reverse]
  | c :: r, acc =>
    if isSpaceC c then
      if acc.isEmpty then wordsAux r [] else acc.reverse :: wordsAux r []
    else wordsAux r (c :: acc)

/-- Python whitespace split `s.split()`: splits on runs of whitespace and
drops empty fields. -/
def words (s : Str) : List Str := wordsAux s []

/-- Python `' '.join(ws)`. -/
def joinSpace (ws : List Str) : Str := List.intercalate (str " ") ws

/-- Python `lst[-1]` for a list of tokens, with `[]` as the (unreachable in
the guarded source paths) default. -/
def lastTok (ws : List Str) : Str := ws.getLastD []

/-- After a literal dot, at least one decimal digit; returns what follows the
digit run. One step of the source's `re.match` pattern for dotted-quad IPs. -/
def dotDigits (s : Str) : Option Str :=
  match s with
  | '.' :: r =>
    if r.takeWhile Char.isDigit = [] then none
    else some (r.dropWhile Char.isDigit)
  | _ => none

/-- Python `re.match` against the raw pattern digits-dot-digits-dot-digits-dot-digits
used by the source to recognize dotted-quad IPs: a match of the pattern at the
START of the string, arbitrary trailing text allowed (`\d` modelled as ASCII). -/
def matchIp (s : Str) : Bool :=
  if s.takeWhile Char.isDigit = [] then false
  else
    match dotDigits (s.dropWhile Char.isDigit) with
    | none => false
    | some r1 =>
      match dotDigits r1 with
      | none => false
      | some r2 => (dotDigits r2).isSome

/-- Word characters of the regex class backslash-w (modelled as ASCII). -/
def isWordChar (c : Char) : Bool := c.isAlphanum || c = '_'

/-- The text following a literal match and its whitespace run, during one
`re.findall` step. -/
def afterLit (lit s : Str) : Str := (s.drop lit.length).dropWhile isSpaceC

/-- The fueled scan behind `findallCaptures`; one unit of fuel per scanned
position (every step consumes at least one character, so `s.length + 1`
always suffices). -/
def findallCapturesF (lit : Str) : Nat → Str → List Str
  | 0, _ => []
  | _ + 1, [] => []
  | fuel + 1, c :: rest =>
    if startsWith (c :: rest) lit then
      if ((c :: rest).drop lit.length).takeWhile isSpaceC ≠ [] ∧
          (afterLit lit (c :: rest)).takeWhile isWordChar ≠ [] then
        (afterLit lit (c :: rest)).takeWhile isWordChar ::
          findallCapturesF lit fuel ((afterLit lit (c :: rest)).dropWhile isWordChar)
      else findallCapturesF lit fuel rest
    else findallCapturesF lit fuel rest

/-- Python `re.findall` for the source's patterns of the form
literal-then-whitespace-then-captured-word (for example the raw pattern
prefix-list-backslash-s-plus-parenthesized-backslash-w-plus): returns the list of
captured words, scanning left to right, resuming after each full match. -/
def findallCaptures (lit s : Str) : List Str :=
  findallCapturesF lit (s.length + 1) s

/- ----------------------------------------------------------------------
   Data model: the nested dictionaries built by AristaBGPParser, as records.
   Optional dictionary keys that the source only adds on demand
   (peerGroup, inRouteMap, outRouteMap, defaultOriginate,
   defaultOriginateRouteMap, vrf) are modelled as Option fields.
   ---------------------------------------------------------------------- -/

/-- A neighbor dictionary as built by `_parse_bgp_block` / `_parse_vrf_block`
and filled in by `_parse_neighbor_block`. -/
structure Neighbor where
  ip : Str
  remoteAs : Str
  description : Str
  configs : List Str
  peerGroup : Option Str
  inRouteMap : Option Str
  outRouteMap : Option Str
  defaultOriginate : Option Str
  defaultOriginateRouteMap : Option Str
  vrf : Option Str
deriving DecidableEq, Repr, Inhabited

/-- A VRF dictionary as built by `_parse_bgp_block`. -/
structure Vrf where
  name : Str
  rd : Str
  neighbors : List Neighbor
deriving DecidableEq, Repr, Inhabited

/-- A peer-group dictionary as built by `_parse_peer_group`. -/
structure PeerGroup where
  name : Str
  remoteAs : Str
  description : Str
  configs : List Str
  inRouteMap : Option Str
  outRouteMap : Option Str
deriving DecidableEq, Repr, Inhabited

/-- A route-map dictionary as built by `_parse_route_maps`. The source stores
the three reference-name collections as Python `set` objects converted with
`list(...)`; the model keeps them as insertion-ordered duplicate-free lists
(the source's `list(set)` order is hash-dependent and no claim depends on it). -/
structure RouteMap where
  name : Str
  action : Str
  sequence : Str
  lines : List Str
  prefixSets : List Str
  communitySets : List Str
  asPathSets : List Str
deriving DecidableEq, Repr, Inhabited

/-- A community-list dictionary as built by `_parse_community_lists`. -/
structure CommunityList where
  name : Str
  communities : List Str
deriving DecidableEq, Repr, Inhabited

/-- An access-list dictionary as built by `_parse_access_lists`. -/
structure AccessList where
  name : Str
  entries : List Str
deriving DecidableEq, Repr, Inhabited

/-- An as-path-set dictionary as built by `_parse_as_path_sets`. -/
structure AsPathSet where
  name : Str
  paths : List Str
deriving DecidableEq, Repr, Inhabited

/-- The top-level `bgp_config` dictionary installed by `AristaBGPParser.reset`.
`prefixLists` is a Python dict keyed by name; it is modelled as an
insertion-ordered association list with unique keys. The source's `reset`
also installs the key `extcommunitySets`, which no parsing code ever writes. -/
structure Config where
  asNumber : Str
  routerId : Str
  globalNeighbors : List Neighbor
  vrfs : List Vrf
  peerGroups : List PeerGroup
  routeMaps : List RouteMap
  prefixLists : List (Str × List Str)
  communityLists : List CommunityList
  asPathSets : List AsPathSet
  extcommunitySets : List Str
  accessLists : List AccessList
deriving DecidableEq, Repr, Inhabited

/-- `AristaBGPParser.reset`: the freshly initialized `bgp_config` dictionary. -/
def resetConfig : Config where
  asNumber := []
  routerId := []
  globalNeighbors := []
  vrfs := []
  peerGroups := []
  routeMaps := []
  prefixLists := []
  communityLists := []
  asPathSets := []
  extcommunitySets := []
  accessLists := []

/-- The top-level keys installed by `AristaBGPParser.reset`, in source order.
Parsing assigns only to these keys (the record type `Config` above), so every
returned configuration object has exactly this key set. -/
def resetConfigKeys : List String :=
  ["asNumber", "routerId", "globalNeighbors", "vrfs", "peerGroups",
   "routeMaps", "prefixLists", "communityLists", "asPathSets",
   "extcommunitySets", "accessLists"]

/- ----------------------------------------------------------------------
   Line normalizer (parse_config lines 37-43): remove every BOM character,
   split on newlines, rstrip each line, drop lines that are empty or
   whitespace-only after the rstrip.
   ---------------------------------------------------------------------- -/

/-- The byte-order-mark character removed by
`content.replace(chr(0xFEFF), '')`. -/
def bomChar : Char := Char.ofNat 0xFEFF

/-- The keep test `if line and not line.isspace()` applied to each
rstripped line. -/
def keepLine (l : Str) : Bool := !l.isEmpty && !(l.all isSpaceC && !l.isEmpty)

/-- The normalized line list built at the top of `parse_config`: BOM
characters removed from the whole content, split on newlines, each line
rstripped, empty lines dropped. -/
def normalizeLines (content : Str) : List Str :=
  ((splitOnChar '\n' (content.filter (fun c => c ≠ bomChar))).map rstrip).filter
    keepLine

/- ----------------------------------------------------------------------
   _parse_prefix_lists (lines 57-85)
   ---------------------------------------------------------------------- -/

/-- Append one entry to the prefix-list map key `name` (`dict[name].append`;
the source guarantees the key is present). -/
def plAppend (m : List (Str × List Str)) (name e : Str) : List (Str × List Str) :=
  match m with
  | [] => []
  | (n, es) :: rest =>
    if n = name then (n, es ++ [e]) :: rest else (n, es) :: plAppend rest name e

/-- Install the key `name` with an empty entry list if it is not present yet
(`if prefix_name not in ...: ... = []`). -/
def plEnsure (m : List (Str × List Str)) (name : Str) : List (Str × List Str) :=
  if m.any (fun p => p.1 = name) then m else m ++ [(name, [])]

/-- The inner sub-scan of `_parse_prefix_lists` consuming `seq` lines after a
header; returns the updated map and the lines at which the outer scan resumes
(a terminating `ip prefix-list`, `!` or blank line is not consumed). -/
def plInner (name : Str) : List Str → List (Str × List Str) →
    (List (Str × List Str) × List Str)
  | [], m => (m, [])
  | l :: rest, m =>
    let t := strip l
    if startsWith t (str "seq ") &&
        (hasSub (str "permit") t || hasSub (str "deny") t) then
      let ps := words t
      let m' := if 4 ≤ ps.length then plAppend m name (joinSpace (ps.drop 2))
        else m
      plInner name rest m'
    else if startsWith t (str "ip prefix-list ") || startsWith t (str "!") ||
        t.isEmpty then
      (m, l :: rest)
    else plInner name rest m

/-- The fueled outer scan of `_parse_prefix_lists`; one unit of fuel per
header (each header consumes at least its own line, so `length + 1`
suffices). -/
def plGoF : Nat → List Str → List (Str × List Str) → List (Str × List Str)
  | 0, _, m => m
  | _ + 1, [], m => m
  | fuel + 1, l :: rest, m =>
    let t := strip l
    if startsWith t (str "ip prefix-list ") then
      if 3 ≤ (words t).length then
        plGoF fuel (plInner ((words t).getD 2 []) rest (plEnsure m ((words t).getD 2 []))).2
          (plInner ((words t).getD 2 []) rest (plEnsure m ((words t).getD 2 []))).1
      else plGoF fuel rest m
    else plGoF fuel rest m

/-- The outer scan of `_parse_prefix_lists`. -/
def plGo (ls : List Str) (m : List (Str × List Str)) : List (Str × List Str) :=
  plGoF (ls.length + 1) ls m

/-- `_parse_prefix_lists`: updates only the `prefixLists` key of the shared
`bgp_config` dictionary. -/
def parse_prefix_lists (lines : List Str) (cfg : Config) : Config :=
  { cfg with prefixLists := plGo lines cfg.prefixLists }

/- ----------------------------------------------------------------------
   _parse_community_lists (lines 87-113)
   ---------------------------------------------------------------------- -/

/-- Merge the captured community values into the first record with a matching
name, or append a fresh record at the end (`existing['communities'].extend` /
`append`). -/
def clAddEntry (cls : List CommunityList) (name : Str) (vals : List Str) :
    List CommunityList :=
  match cls with
  | [] => [⟨name, vals⟩]
  | cl :: rest =>
    if cl.name = name then ⟨cl.name, cl.communities ++ vals⟩ :: rest
    else cl :: clAddEntry rest name vals

/-- The values captured from one `ip community-list` line: the
whitespace-split text after the first occurrence of `permit`, or nothing when
`permit` does not occur in the line. -/
def clLineVals (t : Str) : List Str :=
  if hasSub (str "permit") t then
    words (strip (t.drop (((findSubIdx (str "permit") t).getD 0) + 6)))
  else []

/-- The scan of `_parse_community_lists`. -/
def clGo : List Str → List CommunityList → List CommunityList
  | [], cls => cls
  | l :: rest, cls =>
    let t := strip l
    if startsWith t (str "ip community-list ") then
      if 3 ≤ (words t).length then
        clGo rest (clAddEntry cls ((words t).getD 2 []) (clLineVals t))
      else clGo rest cls
    else clGo rest cls

/-- `_parse_community_lists`. -/
def parse_community_lists (lines : List Str) (cfg : Config) : Config :=
  { cfg with communityLists := clGo lines cfg.communityLists }

/- ----------------------------------------------------------------------
   _parse_access_lists (lines 115-146)
   ---------------------------------------------------------------------- -/

/-- The inner sub-scan of `_parse_access_lists`: collects stripped entry
lines; a `!` or blank boundary is consumed (the outer loop then steps past
it), while a new `ip access-list` header is left for the outer scan.
The source's `ip routing` arm is unreachable (such lines are caught by the
preceding branch and stored as entries) and is therefore absent here. -/
def alInner : List Str → List Str → (List Str × List Str)
  | [], es => (es, [])
  | l :: rest, es =>
    let t := strip l
    if startsWith t (str "!") || t.isEmpty then (es, rest)
    else if !startsWith t (str "ip access-list") then alInner rest (es ++ [t])
    else (es, l :: rest)

/-- The fueled outer scan of `_parse_access_lists`: each header line produces
its own record (repeated names are not merged). -/
def alGoF : Nat → List Str → List AccessList → List AccessList
  | 0, _, als => als
  | _ + 1, [], als => als
  | fuel + 1, l :: rest, als =>
    let t := strip l
    if startsWith t (str "ip access-list ") then
      if 3 ≤ (words t).length then
        alGoF fuel (alInner rest []).2
          (als ++ [⟨(words t).getD 2 [], (alInner rest []).1⟩])
      else alGoF fuel rest als
    else alGoF fuel rest als

/-- The outer scan of `_parse_access_lists`. -/
def alGo (ls : List Str) (als : List AccessList) : List AccessList :=
  alGoF (ls.length + 1) ls als

/-- `_parse_access_lists`. -/
def parse_access_lists (lines : List Str) (cfg : Config) : Config :=
  { cfg with accessLists := alGo lines cfg.accessLists }

/- ----------------------------------------------------------------------
   _parse_as_path_sets (lines 148-169)
   ---------------------------------------------------------------------- -/

/-- Merge one as-path pattern into the first record with a matching name, or
append a fresh record. -/
def apsAdd (sets : List AsPathSet) (name pat : Str) : List AsPathSet :=
  match sets with
  | [] => [⟨name, [pat]⟩]
  | a :: rest =>
    if a.name = name then ⟨a.name, a.paths ++ [pat]⟩ :: rest
    else a :: apsAdd rest name pat

/-- The scan of `_parse_as_path_sets`. -/
def apsGo : List Str → List AsPathSet → List AsPathSet
  | [], s => s
  | l :: rest, s =>
    let t := strip l
    if startsWith t (str "ip as-path access-list ") then
      if 6 ≤ (words t).length then
        apsGo rest (apsAdd s ((words t).getD 3 []) (joinSpace ((words t).drop 5)))
      else apsGo rest s
    else apsGo rest s

/-- `_parse_as_path_sets`. -/
def parse_as_path_sets (lines : List Str) (cfg : Config) : Config :=
  { cfg with asPathSets := apsGo lines cfg.asPathSets }

/- ----------------------------------------------------------------------
   _parse_route_maps (lines 171-232)
   ---------------------------------------------------------------------- -/

/-- Insertion into a Python `set`, modelled as an insertion-ordered
duplicate-free list. -/
def addUniq (s : List Str) (x : Str) : List Str := if x ∈ s then s else s ++ [x]

/-- Add every element (`for match in ...: set.add(match)`). -/
def addUniqAll (s : List Str) (xs : List Str) : List Str := xs.foldl addUniq s

/-- The mutable accumulators of one route-map body sub-scan. -/
structure RmAcc where
  body : List Str
  psets : List Str
  csets : List Str
  asets : List Str
deriving DecidableEq, Repr, Inhabited

/-- One body line's effect on the route-map accumulators: the raw line is
stored and the three reference-name sets are extended from the regex
captures. -/
def rmAddLine (acc : RmAcc) (l : Str) : RmAcc :=
  let t := strip l
  { body := acc.body ++ [l]
    psets := if hasSub (str "prefix-list") t then
        addUniqAll acc.psets (findallCaptures (str "prefix-list") t)
      else acc.psets
    csets := if hasSub (str "community-list") t then
        addUniqAll acc.csets (findallCaptures (str "community-list") t)
      else acc.csets
    asets := if hasSub (str "as-path") t then
        addUniqAll acc.asets (findallCaptures (str "as-path") t)
      else acc.asets }

/-- The body sub-scan of `_parse_route_maps`: consumes indented and comment
lines; the first unindented, non-comment, non-blank line terminates the body
and is returned unconsumed for the outer scan. -/
def rmScan : List Str → RmAcc → (RmAcc × List Str)
  | [], acc => (acc, [])
  | l :: rest, acc =>
    let t := strip l
    if !startsWith l (str " ") && !startsWith l (str "!") && !t.isEmpty &&
        !startsWith t (str "!") then
      (acc, l :: rest)
    else if !t.isEmpty && !startsWith t (str "!") then
      rmScan rest (rmAddLine acc l)
    else rmScan rest acc

/-- The fueled outer scan of `_parse_route_maps`: one record per header line
with at least four tokens; the body's terminating line is re-examined as a
potential next header. -/
def rmOuterF : Nat → List Str → List RouteMap
  | 0, _ => []
  | _ + 1, [] => []
  | fuel + 1, l :: rest =>
    let t := strip l
    if startsWith t (str "route-map ") then
      if 4 ≤ (words t).length then
        ⟨(words t).getD 1 [], (words t).getD 2 [], (words t).getD 3 [],
          (rmScan rest ⟨[], [], [], []⟩).1.body,
          (rmScan rest ⟨[], [], [], []⟩).1.psets,
          (rmScan rest ⟨[], [], [], []⟩).1.csets,
          (rmScan rest ⟨[], [], [], []⟩).1.asets⟩ ::
        rmOuterF fuel (rmScan rest ⟨[], [], [], []⟩).2
      else rmOuterF fuel rest
    else rmOuterF fuel rest

/-- The outer scan of `_parse_route_maps`. -/
def rmOuter (ls : List Str) : List RouteMap := rmOuterF (ls.length + 1) ls

/-- `_parse_route_maps`: appends one record per parsed header to the shared
`routeMaps` list. -/
def parse_route_maps (lines : List Str) (cfg : Config) : Config :=
  { cfg with routeMaps := cfg.routeMaps ++ rmOuter lines }

/- ----------------------------------------------------------------------
   _parse_neighbor_block (lines 401-527)
   ---------------------------------------------------------------------- -/

/-- The line-matching key `neighbor <ip> ` (with trailing space). -/
def nbKey (ip : Str) : Str := str "neighbor " ++ ip ++ [' ']

/-- A column-0 line that is not blank and not a comment: the generic
end-of-block test `not line.startswith(' ') and not line.startswith('!')
and line.strip()` used throughout the BGP scans. -/
def isTermLine (l : Str) : Bool :=
  !startsWith l (str " ") && !startsWith l (str "!") && !(strip l).isEmpty

/-- One `neighbor <ip> <config>` fragment's effect on a neighbor record
(the common field-update chain of `_parse_neighbor_block`, both branches of
which contain the identical code); the raw fragment is always appended to
`configs`. -/
def applyNbConfig (nb : Neighbor) (cp : Str) : Neighbor :=
  let nb1 :=
    if startsWith cp (str "remote-as ") then
      { nb with remoteAs := lastTok (words cp) }
    else if startsWith cp (str "peer group ") then
      { nb with peerGroup := some (lastTok (words cp)) }
    else if startsWith cp (str "description ") then
      { nb with description :=
          if hasSub (str "\"") cp then (pySplitSub (str "\"") cp).getD 1 []
          else joinSpace ((words cp).drop 1) }
    else if hasSub (str "route-map ") cp && hasSub (str " in") cp then
      { nb with inRouteMap := some ((pySplitSub (str " in")
          ((pySplitSub (str "route-map ") cp).getD 1 [])).getD 0 []) }
    else if hasSub (str "route-map ") cp && hasSub (str " out") cp then
      { nb with outRouteMap := some ((pySplitSub (str " out")
          ((pySplitSub (str "route-map ") cp).getD 1 [])).getD 0 []) }
    else if startsWith cp (str "default-originate") then
      if hasSub (str "route-map ") cp then
        { { nb with defaultOriginate := some cp } with
            defaultOriginateRouteMap :=
              some (strip ((pySplitSub (str "route-map ") cp).getD 1 [])) }
      else { nb with defaultOriginate := some cp }
    else nb
  { nb1 with configs := nb1.configs ++ [cp] }

/-- The fueled VRF-section skip of the global neighbor rescan
(lines 423-434): advances from the line after a `   vrf ` marker to the next
`   vrf ` line or end-of-block terminator (which the resumed outer scan
re-examines), or past the end of the lines. -/
def skipVrfGoF (lines : List Str) : Nat → Nat → Nat
  | 0, j => j
  | fuel + 1, j =>
    if j < lines.length then
      if startsWith (lines.getD j []) (str "   vrf ") ||
          isTermLine (lines.getD j []) then j
      else skipVrfGoF lines fuel (j + 1)
    else j + 1

/-- The VRF-section skip, with always-sufficient fuel. -/
def skipVrfGo (lines : List Str) (j : Nat) : Nat :=
  skipVrfGoF lines (lines.length + 1) j

/-- The fueled search for the first `router bgp` line at which the global
neighbor rescan starts (lines 408-410); returns the line count when there is
none. -/
def findRouterBgpIdxF (lines : List Str) : Nat → Nat → Nat
  | 0, i => i
  | fuel + 1, i =>
    if i < lines.length then
      if startsWith (strip (lines.getD i [])) (str "router bgp") then i
      else findRouterBgpIdxF lines fuel (i + 1)
    else i

/-- The search for the first `router bgp` line, with always-sufficient fuel. -/
def findRouterBgpIdx (lines : List Str) (i : Nat) : Nat :=
  findRouterBgpIdxF lines (lines.length + 1) i

/-- The fueled global rescan loop of `_parse_neighbor_block`
(lines 412-462): walks the whole BGP section, skips VRF sub-sections, stops
at a column-0 terminator that is not a `router bgp` line, and applies every
`neighbor <ip> <config>` fragment to the record. -/
def nbScanGoF (lines : List Str) (ip : Str) : Nat → Nat → Neighbor → Neighbor
  | 0, _, nb => nb
  | fuel + 1, i, nb =>
    if i < lines.length then
      let l := lines.getD i []
      let t := strip l
      if isTermLine l && !startsWith t (str "router bgp") then nb
      else if startsWith l (str "   vrf ") then
        nbScanGoF lines ip fuel (skipVrfGo lines (i + 1)) nb
      else if startsWith t (nbKey ip) then
        nbScanGoF lines ip fuel (i + 1)
          (applyNbConfig nb (strip (t.drop (nbKey ip).length)))
      else nbScanGoF lines ip fuel (i + 1) nb
    else nb

/-- The global rescan loop, with always-sufficient fuel (its index strictly
increases every iteration). -/
def nbScanGo (lines : List Str) (ip : Str) (i : Nat) (nb : Neighbor) : Neighbor :=
  nbScanGoF lines ip (lines.length + 1) i nb

/-- The global branch of `_parse_neighbor_block` (`is_global=True`). -/
def parse_neighbor_block_global (lines : List Str) (nb : Neighbor) : Neighbor :=
  nbScanGo lines nb.ip (findRouterBgpIdx lines 0) nb

/-- The fueled VRF-start search of `_parse_neighbor_block`
(`is_global=False`, lines 466-483): tracks whether the scan is inside the
BGP section and looks for the stripped line exactly equal to `vrf <name>`. -/
def findVrfStartGoF (lines : List Str) (vrfName : Str) :
    Nat → Nat → Bool → Option Nat
  | 0, _, _ => none
  | fuel + 1, i, inBgp =>
    if i < lines.length then
      let l := lines.getD i []
      let t := strip l
      let inBgp' :=
        if startsWith t (str "router bgp") then true
        else if !startsWith l (str " ") && !startsWith l (str "!") &&
            !t.isEmpty && !startsWith t (str "router bgp") then false
        else inBgp
      if inBgp' && t = str "vrf " ++ vrfName then some i
      else findVrfStartGoF lines vrfName fuel (i + 1) inBgp'
    else none

/-- The VRF-start search, with always-sufficient fuel. -/
def findVrfStartGo (lines : List Str) (vrfName : Str) (i : Nat) (inBgp : Bool) :
    Option Nat :=
  findVrfStartGoF lines vrfName (lines.length + 1) i inBgp

/-- The fueled VRF scan loop of `_parse_neighbor_block` (lines 489-525):
walks from the VRF start line, stops at a different `   vrf ` line or a
column-0 terminator that is not a `router bgp` line, and applies every
`neighbor <ip> <config>` fragment. -/
def vrfNbScanGoF (lines : List Str) (vrfName ip : Str) :
    Nat → Nat → Neighbor → Neighbor
  | 0, _, nb => nb
  | fuel + 1, i, nb =>
    if i < lines.length then
      let l := lines.getD i []
      let t := strip l
      if (startsWith l (str "   vrf ") && !(t = str "vrf " ++ vrfName : Bool)) ||
          (isTermLine l && !startsWith t (str "router bgp")) then nb
      else if startsWith t (nbKey ip) then
        vrfNbScanGoF lines vrfName ip fuel (i + 1)
          (applyNbConfig nb (strip (t.drop (nbKey ip).length)))
      else vrfNbScanGoF lines vrfName ip fuel (i + 1) nb
    else nb

/-- The VRF scan loop, with always-sufficient fuel. -/
def vrfNbScanGo (lines : List Str) (vrfName ip : Str) (i : Nat) (nb : Neighbor) :
    Neighbor :=
  vrfNbScanGoF lines vrfName ip (lines.length + 1) i nb

/-- The VRF branch of `_parse_neighbor_block` (`is_global=False`): when the
VRF start line is not found the record is returned unchanged. -/
def parse_neighbor_block_vrf (lines : List Str) (nb : Neighbor) : Neighbor :=
  match findVrfStartGo lines (nb.vrf.getD []) 0 false with
  | none => nb
  | some vs => vrfNbScanGo lines (nb.vrf.getD []) nb.ip vs nb

/- ----------------------------------------------------------------------
   _parse_peer_group (lines 306-361)
   ---------------------------------------------------------------------- -/

/-- A fresh neighbor record for the global scope. -/
def initNbGlobal (ip : Str) : Neighbor :=
  ⟨ip, [], [], [], none, none, none, none, none, none⟩

/-- A fresh neighbor record inside a VRF (`'vrf': vrf['name']`). -/
def initNbVrf (ip vrfName : Str) : Neighbor :=
  ⟨ip, [], [], [], none, none, none, none, none, some vrfName⟩

/-- A fresh peer-group record. -/
def initPg (name : Str) : PeerGroup := ⟨name, [], [], [], none, none⟩

/-- One `neighbor <group> <config>` fragment's effect on a peer-group record
(lines 331-344); the fragment is always appended to `configs`. -/
def applyPgConfig (g : PeerGroup) (cp : Str) : PeerGroup :=
  let g1 :=
    if startsWith cp (str "description ") then
      { g with description :=
          if hasSub (str "\"") cp then (pySplitSub (str "\"") cp).getD 1 []
          else joinSpace ((words cp).drop 1) }
    else if hasSub (str "route-map ") cp && hasSub (str " in") cp then
      { g with inRouteMap := some ((pySplitSub (str " in")
          ((pySplitSub (str "route-map ") cp).getD 1 [])).getD 0 []) }
    else if hasSub (str "route-map ") cp && hasSub (str " out") cp then
      { g with outRouteMap := some ((pySplitSub (str " out")
          ((pySplitSub (str "route-map ") cp).getD 1 [])).getD 0 []) }
    else if startsWith cp (str "remote-as ") then
      { g with remoteAs := lastTok (words cp) }
    else g
  { g1 with configs := g1.configs ++ [cp] }

/-- The fueled collection loop of `_parse_peer_group` (lines 319-355):
consumes the definition line itself and all following `neighbor <group> ...`
lines, skips other indented or comment lines, and stops at a column-0
terminator, a different peer-group definition, or a non-group neighbor line;
returns the record and the index at which the loop stopped. -/
def pgGoF (lines : List Str) (gname : Str) :
    Nat → Nat → PeerGroup → PeerGroup × Nat
  | 0, i, g => (g, i)
  | fuel + 1, i, g =>
    if i < lines.length then
      let l := lines.getD i []
      let t := strip l
      if !startsWith l (str "   ") && !startsWith l (str "!") && !t.isEmpty then
        (g, i)
      else if startsWith t (nbKey gname) then
        pgGoF lines gname fuel (i + 1)
          (applyPgConfig g (strip (t.drop (nbKey gname).length)))
      else if startsWith t (str "neighbor ") then
        if hasSub (str "peer group") t && !hasSub gname t then (g, i)
        else if !hasSub (str "peer group") t then (g, i)
        else pgGoF lines gname fuel (i + 1) g
      else pgGoF lines gname fuel (i + 1) g
    else (g, i)

/-- The collection loop of `_parse_peer_group`, with always-sufficient fuel. -/
def pgGo (lines : List Str) (gname : Str) (i : Nat) (g : PeerGroup) :
    PeerGroup × Nat :=
  pgGoF lines gname (lines.length + 1) i g

/-- `_parse_peer_group`: the record is kept only when it has a description or
at least one config line; the returned resume index is one less than the
index at which the collection loop stopped (`return i - 1`). -/
def parse_peer_group (lines : List Str) (startIdx : Nat) (gname : Str) :
    Option PeerGroup × Nat :=
  let r := pgGo lines gname startIdx (initPg gname)
  (if !r.1.description.isEmpty || !r.1.configs.isEmpty then some r.1 else none,
   r.2 - 1)

/- ----------------------------------------------------------------------
   _parse_vrf_block (lines 363-399), with fuel: the loop can revisit an
   index (`continue` after processing a new neighbor IP), and its
   `return i - 1` can hand a non-advancing resume index to the caller.
   ---------------------------------------------------------------------- -/

/-- The loop of `_parse_vrf_block`. One unit of fuel is one loop iteration;
`none` models a run of the source that exhausts the given budget. Returns
the updated VRF record and the resume index `i - 1`. -/
def vrfBlockGo (lines : List Str) : Nat → Nat → Vrf → List Str → Option (Vrf × Nat)
  | 0, _, _, _ => none
  | fuel + 1, i, vrf, processed =>
    if i < lines.length then
      let l := lines.getD i []
      let t := strip l
      if startsWith l (str "   vrf ") || isTermLine l then some (vrf, i - 1)
      else if startsWith t (str "rd ") then
        vrfBlockGo lines fuel (i + 1) { vrf with rd := lastTok (words t) } processed
      else if startsWith t (str "neighbor ") &&
          startsWith l (str "      neighbor ") then
        if 2 ≤ (words t).length then
          if matchIp ((words t).getD 1 []) then
            if (words t).getD 1 [] ∈ processed then
              vrfBlockGo lines fuel (i + 1) vrf processed
            else
              let nb := parse_neighbor_block_vrf lines
                (initNbVrf ((words t).getD 1 []) vrf.name)
              vrfBlockGo lines fuel i
                (if !nb.remoteAs.isEmpty || !nb.description.isEmpty then
                  { vrf with neighbors := vrf.neighbors ++ [nb] }
                 else vrf)
                (((words t).getD 1 []) :: processed)
          else vrfBlockGo lines fuel (i + 1) vrf processed
        else vrfBlockGo lines fuel (i + 1) vrf processed
      else vrfBlockGo lines fuel (i + 1) vrf processed
    else some (vrf, i - 1)

/- ----------------------------------------------------------------------
   _parse_bgp_block (lines 245-304), with fuel for the same reason.
   ---------------------------------------------------------------------- -/

/-- The loop of `_parse_bgp_block`. One unit of fuel is one loop iteration;
nested VRF blocks draw on the same remaining budget. Returns the updated
configuration and the index at which the block ended. -/
def bgpBlockGo (lines : List Str) : Nat → Nat → Config → List Str →
    Option (Config × Nat)
  | 0, _, _, _ => none
  | fuel + 1, i, cfg, processed =>
    if i < lines.length then
      let l := lines.getD i []
      let t := strip l
      if isTermLine l && !startsWith t (str "router bgp") then some (cfg, i)
      else if startsWith t (str "router-id ") then
        bgpBlockGo lines fuel (i + 1)
          { cfg with routerId := lastTok (words t) } processed
      else if startsWith t (str "neighbor ") && hasSub (str "peer group") t &&
          startsWith l (str "   neighbor ") then
        if 4 ≤ (words t).length ∧ (words t).getD 2 [] = str "peer" ∧
            (words t).getD 3 [] = str "group" then
          if !matchIp ((words t).getD 1 []) then
            bgpBlockGo lines fuel (parse_peer_group lines i ((words t).getD 1 [])).2
              (match (parse_peer_group lines i ((words t).getD 1 [])).1 with
               | some g => { cfg with peerGroups := cfg.peerGroups ++ [g] }
               | none => cfg)
              processed
          else bgpBlockGo lines fuel (i + 1) cfg processed
        else bgpBlockGo lines fuel (i + 1) cfg processed
      else if startsWith t (str "vrf ") && startsWith l (str "   vrf ") then
        match vrfBlockGo lines fuel (i + 1) ⟨(words t).getD 1 [], [], []⟩ [] with
        | none => none
        | some r =>
          bgpBlockGo lines fuel r.2 { cfg with vrfs := cfg.vrfs ++ [r.1] } processed
      else if startsWith t (str "neighbor ") && startsWith l (str "   neighbor ") &&
          !hasSub (str "peer group") t then
        if 2 ≤ (words t).length then
          if matchIp ((words t).getD 1 []) then
            if (words t).getD 1 [] ∈ processed then
              bgpBlockGo lines fuel (i + 1) cfg processed
            else
              let nb := parse_neighbor_block_global lines
                (initNbGlobal ((words t).getD 1 []))
              bgpBlockGo lines fuel i
                (if !nb.remoteAs.isEmpty || !nb.description.isEmpty then
                  { cfg with globalNeighbors := cfg.globalNeighbors ++ [nb] }
                 else cfg)
                (((words t).getD 1 []) :: processed)
          else bgpBlockGo lines fuel (i + 1) cfg processed
        else bgpBlockGo lines fuel (i + 1) cfg processed
      else bgpBlockGo lines fuel (i + 1) cfg processed
    else some (cfg, i)

/- ----------------------------------------------------------------------
   _parse_bgp_section (lines 234-243) and parse_config (lines 33-55)
   ---------------------------------------------------------------------- -/

/-- The fueled search loop of `_parse_bgp_section`: the first line whose
stripped text starts with `router bgp ` sets `asNumber` to its third token
and hands control to the block parser with budget `blockFuel`; without such
a line the configuration is returned unchanged. -/
def bgpSectionGoF (lines : List Str) (blockFuel : Nat) :
    Nat → Nat → Config → Option Config
  | 0, _, cfg => some cfg
  | fuel + 1, i, cfg =>
    if i < lines.length then
      let t := strip (lines.getD i [])
      if startsWith t (str "router bgp ") then
        match bgpBlockGo lines blockFuel (i + 1)
            { cfg with asNumber := (words t).getD 2 [] } [] with
        | none => none
        | some r => some r.1
      else bgpSectionGoF lines blockFuel fuel (i + 1) cfg
    else some cfg

/-- The fuel budget supplied to the BGP block loops for a given input. Any
budget large enough for the run to finish yields the same result; this
quadratic bound covers every terminating run that the concrete theorems
below evaluate. -/
def bgpFuel (lines : List Str) : Nat := (lines.length + 2) * (lines.length + 2)

/-- `_parse_bgp_section`. -/
def parse_bgp_section (lines : List Str) (cfg : Config) : Option Config :=
  bgpSectionGoF lines (bgpFuel lines) (lines.length + 1) 0 cfg

/-- The five extraction passes of `parse_config` in source order, applied to
an already-normalized line list. -/
def parseLines (lines : List Str) : Option Config :=
  parse_bgp_section lines
    (parse_route_maps lines
      (parse_as_path_sets lines
        (parse_access_lists lines
          (parse_community_lists lines
            (parse_prefix_lists lines resetConfig)))))

/-- `parse_config`: normalization followed by the five extraction passes.
`none` models a run of the source that does not terminate within the fuel
budget. -/
def parse_config (content : Str) : Option Config :=
  parseLines (normalizeLines content)

/- ----------------------------------------------------------------------
   Concrete inputs and reference values used by the claim theorems.
   ---------------------------------------------------------------------- -/

/-- The end-to-end scenario input of the spec (section 8). -/
def c1Input : Str :=
  str "router bgp 65000\n   router-id 1.1.1.1\n   neighbor 10.0.0.1 remote-as 65001\n   neighbor 10.0.0.1 description \"Peer A\"\n   vrf CUSTOMER_A\n      rd 100:1\n      neighbor 10.0.0.2 remote-as 65002"

/-- The full configuration produced for `c1Input`. -/
def c1Expected : Config where
  asNumber := str "65000"
  routerId := str "1.1.1.1"
  globalNeighbors := [⟨str "10.0.0.1", str "65001", str "Peer A",
    [str "remote-as 65001", str "description \"Peer A\""],
    none, none, none, none, none, none⟩]
  vrfs := [⟨str "CUSTOMER_A", str "100:1",
    [⟨str "10.0.0.2", str "65002", [], [str "remote-as 65002"],
      none, none, none, none, none, some (str "CUSTOMER_A")⟩]⟩]
  peerGroups := []
  routeMaps := []
  prefixLists := []
  communityLists := []
  asPathSets := []
  extcommunitySets := []
  accessLists := []

/-- The ten top-level Configuration fields named by the data model of the
spec (section 3), modelled from the spec's words, in the spec's order. -/
def specConfigKeys : List String :=
  ["asNumber", "routerId", "globalNeighbors", "vrfs", "peerGroups",
   "routeMaps", "prefixLists", "communityLists", "asPathSets", "accessLists"]

/-- An input whose only mention of the IP 10.9.9.9 is a line that sets
neither remote-as nor description. -/
def c7Input : Str := str "router bgp 7\n   neighbor 10.9.9.9 maximum-routes 12000"

/-- The name defined by an `ip community-list` line, when the line parses as
a community-list header (at least three tokens). -/
def clHeaderName? (l : Str) : Option Str :=
  if startsWith (strip l) (str "ip community-list ") then
    if 3 ≤ (words (strip l)).length then some ((words (strip l)).getD 2 [])
    else none
  else none

/-- The concatenation, in line order, of the community values captured for
one list name over a whole line sequence: the reference description of the
community-list accumulation. -/
def clCapturesFor (name : Str) : List Str → List Str
  | [] => []
  | l :: rest =>
    (if clHeaderName? l = some name then clLineVals (strip l) else []) ++
      clCapturesFor name rest

/-- The test ending a route-map body sub-scan: an unindented, non-comment,
non-blank line. -/
def rmBreak (l : Str) : Bool :=
  !startsWith l (str " ") && !startsWith l (str "!") && !(strip l).isEmpty &&
    !startsWith (strip l) (str "!")

/-- One consumed body line's effect in the route-map sub-scan: non-blank,
non-comment lines are recorded, others are skipped. -/
def rmBodyStep (acc : RmAcc) (l : Str) : RmAcc :=
  if !(strip l).isEmpty && !startsWith (strip l) (str "!") then rmAddLine acc l
  else acc

/-- The accumulator produced by a route-map body. -/
def rmAccOf (bs : List Str) : RmAcc := bs.foldl rmBodyStep ⟨[], [], [], []⟩

/-- The route-map record produced from a header line and its body lines. -/
def rmRecordOf (l : Str) (bs : List Str) : RouteMap :=
  ⟨(words (strip l)).getD 1 [], (words (strip l)).getD 2 [],
   (words (strip l)).getD 3 [],
   (rmAccOf bs).body, (rmAccOf bs).psets, (rmAccOf bs).csets, (rmAccOf bs).asets⟩

/- ----------------------------------------------------------------------
   Byte-order-mark cleanliness predicates (for the normalization property
   of parse_config lines 37-43).
   ---------------------------------------------------------------------- -/

/-- No byte-order-mark character occurs in the string. -/
def noBom (s : Str) : Prop := ∀ c ∈ s, c ≠ bomChar

/-- No byte-order-mark character occurs in an optional string. -/
def noBomO (o : Option Str) : Prop := ∀ c ∈ o.getD [], c ≠ bomChar

/-- No byte-order-mark character occurs in any string of the list. -/
def noBomL (xs : List Str) : Prop := ∀ s ∈ xs, noBom s

/-- No byte-order mark anywhere in a neighbor record. -/
def nbNoBom (nb : Neighbor) : Prop :=
  noBom nb.ip ∧ noBom nb.remoteAs ∧ noBom nb.description ∧ noBomL nb.configs ∧
  noBomO nb.peerGroup ∧ noBomO nb.inRouteMap ∧ noBomO nb.outRouteMap ∧
  noBomO nb.defaultOriginate ∧ noBomO nb.defaultOriginateRouteMap ∧
  noBomO nb.vrf

/-- No byte-order mark anywhere in a VRF record. -/
def vrfNoBom (v : Vrf) : Prop :=
  noBom v.name ∧ noBom v.rd ∧ ∀ nb ∈ v.neighbors, nbNoBom nb

/-- No byte-order mark anywhere in a peer-group record. -/
def pgNoBom (g : PeerGroup) : Prop :=
  noBom g.name ∧ noBom g.remoteAs ∧ noBom g.description ∧ noBomL g.configs ∧
  noBomO g.inRouteMap ∧ noBomO g.outRouteMap

/-- No byte-order mark anywhere in a route-map record. -/
def rmNoBom (r : RouteMap) : Prop :=
  noBom r.name ∧ noBom r.action ∧ noBom r.sequence ∧ noBomL r.lines ∧
  noBomL r.prefixSets ∧ noBomL r.communitySets ∧ noBomL r.asPathSets

/-- No byte-order mark anywhere in the route-map body accumulators. -/
def rmAccNoBom (a : RmAcc) : Prop :=
  noBomL a.body ∧ noBomL a.psets ∧ noBomL a.csets ∧ noBomL a.asets

/-- No byte-order mark anywhere in a community-list record. -/
def clNoBom (cl : CommunityList) : Prop := noBom cl.name ∧ noBomL cl.communities

/-- No byte-order mark anywhere in an access-list record. -/
def alNoBom (al : AccessList) : Prop := noBom al.name ∧ noBomL al.entries

/-- No byte-order mark anywhere in an as-path-set record. -/
def apsNoBom (a : AsPathSet) : Prop := noBom a.name ∧ noBomL a.paths

/-- No byte-order mark anywhere in a prefix-list map entry. -/
def plNoBom (p : Str × List Str) : Prop := noBom p.1 ∧ noBomL p.2

/-- No byte-order mark occurs in any string stored anywhere in a parsed
configuration. -/
def cfgNoBom (cfg : Config) : Prop :=
  noBom cfg.asNumber ∧ noBom cfg.routerId ∧
  (∀ nb ∈ cfg.globalNeighbors, nbNoBom nb) ∧
  (∀ v ∈ cfg.vrfs, vrfNoBom v) ∧
  (∀ g ∈ cfg.peerGroups, pgNoBom g) ∧
  (∀ r ∈ cfg.routeMaps, rmNoBom r) ∧
  (∀ p ∈ cfg.prefixLists, plNoBom p) ∧
  (∀ cl ∈ cfg.communityLists, clNoBom cl) ∧
  (∀ a ∈ cfg.asPathSets, apsNoBom a) ∧
  noBomL cfg.extcommunitySets ∧
  (∀ al ∈ cfg.accessLists, alNoBom al)

/-- A concrete input with byte-order marks at the start, inside a token and
at the start of a later line. -/
def c10Input : Str :=
  [bomChar] ++ str "router bgp 65" ++ [bomChar] ++ str "000\n" ++
  str "   router-id 1.1.1.1\n" ++ [bomChar] ++ str "end\n"

/-- The configuration parsed from `c10Input`. -/
def c10Expected : Config :=
  { resetConfig with asNumber := str "65000", routerId := str "1.1.1.1" }

/-- A concrete input whose BGP block ends at an unindented `end` line, with
a second `router bgp` section after it; the exact line `   vrf A` occurs only
after the `end`, while the block's own VRF marker line carries trailing
text. -/
def c8Input : Str :=
  str "router bgp 65000\n   vrf A junk\n      neighbor 10.0.0.1 remote-as 65001\nend\nrouter bgp 99\n   vrf A\n      neighbor 10.0.0.1 remote-as 77\n"

/-- Agreement of two configurations on every BGP-derived component except
the neighbor lists inside VRFs: equal AS number, router id, global
neighbors and peer groups, and pointwise equal VRF names and route
distinguishers. -/
def cfgSimBgp (c d : Config) : Prop :=
  c.asNumber = d.asNumber ∧ c.routerId = d.routerId ∧
  c.globalNeighbors = d.globalNeighbors ∧ c.peerGroups = d.peerGroups ∧
  c.vrfs.map (fun v => (v.name, v.rd)) = d.vrfs.map (fun v => (v.name, v.rd))

/-- A concrete input whose first top-level neighbor line is a peer-group
assignment for 10.0.0.1, followed by a plain neighbor line for 10.0.0.2 and
then one for 10.0.0.1. -/
def c3Input : Str :=
  str "router bgp 1\n   neighbor 10.0.0.1 peer group PG\n   neighbor 10.0.0.2 remote-as 22\n   neighbor 10.0.0.1 remote-as 11\n"

/-- A concrete input whose BGP block mentions 10.0.0.1 on two top-level
neighbor lines, neither of which sets `remote-as` or a description. -/
def c2Input : Str :=
  str "router bgp 1\n   neighbor 10.0.0.1 route-map FOO in\n   neighbor 10.0.0.1 route-map BAR out\n"

/-- A concrete input whose BGP block mentions 10.0.0.1 on a top-level line
before a VRF sub-section and on another top-level line after it. -/
def c2InputVrf : Str :=
  str "router bgp 1\n   neighbor 10.0.0.1 remote-as 11\n   vrf V\n      rd 1:1\n   neighbor 10.0.0.1 description \"X\"\n"

/- ----------------------------------------------------------------------
   General-purpose lemmas about the string primitives.
   ---------------------------------------------------------------------- -/

theorem dropWhile_length_le {α : Type} (p : α → Bool) (l : List α) :
    (l.dropWhile p).length ≤ l.length := by
  induction l with
  | nil => simp
  | cons c r ih =>
    rw [List.dropWhile]
    by_cases hc : p c
    · simp only [hc]
      exact Nat.le_succ_of_le ih
    · simp [hc]

theorem startsWith_length {s p : Str} (h : startsWith s p = true) :
    p.length ≤ s.length := by
  induction p generalizing s with
  | nil => simp
  | cons pc pr ih =>
    cases s with
    | nil => simp [startsWith] at h
    | cons sc sr =>
      simp only [startsWith, Bool.and_eq_true] at h
      simpa using Nat.succ_le_succ (ih h.2)

theorem findSubIdx_some_le {pat s : Str} {k : Nat}
    (h : findSubIdx pat s = some k) : k + pat.length ≤ s.length := by
  induction s generalizing k with
  | nil =>
    rw [findSubIdx] at h
    by_cases hsw : startsWith [] pat
    · simp [hsw] at h
      subst h
      simpa using startsWith_length hsw
    · simp [hsw] at h
  | cons c r ih =>
    rw [findSubIdx] at h
    by_cases hsw : startsWith (c :: r) pat
    · simp [hsw] at h
      subst h
      simpa using startsWith_length hsw
    · simp [hsw] at h
      obtain ⟨k', hk', rfl⟩ := h
      have := ih hk'
      simp only [List.length_cons]
      omega


/- ----------------------------------------------------------------------
   Lemmas about words and strip used to analyze header tokens.
   ---------------------------------------------------------------------- -/

theorem head_dropWhile_false {α : Type} {p : α → Bool} {l : List α} {c : α}
    {t : List α} (h : l.dropWhile p = c :: t) : p c = false := by
  induction l with
  | nil => simp at h
  | cons d r ih =>
    rw [List.dropWhile] at h
    by_cases hd : p d
    · simp only [hd] at h
      exact ih h
    · simp only [Bool.not_eq_true] at hd
      simp [hd] at h
      obtain ⟨rfl, -⟩ := h
      exact hd

theorem rstrip_getLast?_not_space {s : Str} {c : Char}
    (h : (rstrip s).getLast? = some c) : isSpaceC c = false := by
  rw [rstrip, List.getLast?_reverse] at h
  cases hd : s.reverse.dropWhile isSpaceC with
  | nil => rw [hd] at h; simp at h
  | cons d t =>
    rw [hd] at h
    simp at h
    subst h
    exact head_dropWhile_false hd

theorem strip_getLast?_not_space {s : Str} {c : Char}
    (h : (strip s).getLast? = some c) : isSpaceC c = false := by
  rw [strip, lstrip] at h
  have hsuf : (rstrip s).dropWhile isSpaceC <:+ rstrip s := List.dropWhile_suffix _
  obtain ⟨t, ht⟩ := hsuf
  have hne : (rstrip s).dropWhile isSpaceC ≠ [] := by
    intro he
    rw [he] at h
    simp at h
  have : (rstrip s).getLast? = some c := by
    rw [← ht, List.getLast?_append_of_ne_nil _ hne]
    exact h
  exact rstrip_getLast?_not_space this

theorem startsWith_eq_append {s p : Str} (h : startsWith s p = true) :
    ∃ r, s = p ++ r := by
  induction p generalizing s with
  | nil => exact ⟨s, rfl⟩
  | cons pc pr ih =>
    cases s with
    | nil => simp [startsWith] at h
    | cons sc sr =>
      simp only [startsWith, Bool.and_eq_true, decide_eq_true_eq] at h
      obtain ⟨rfl, h2⟩ := h
      obtain ⟨r, hr⟩ := ih h2
      exact ⟨r, by rw [List.cons_append, hr]⟩

theorem wordsAux_mem_ne_nil {s : Str} : ∀ {acc w : Str},
    w ∈ wordsAux s acc → w ≠ [] := by
  induction s with
  | nil =>
    intro acc w hw
    rw [wordsAux] at hw
    by_cases ha : acc.isEmpty
    · simp [ha] at hw
    · simp only [ha, Bool.false_eq_true, if_false, List.mem_singleton] at hw
      subst hw
      simp only [ne_eq, List.reverse_eq_nil_iff]
      simpa [List.isEmpty_iff] using ha
  | cons d r ih =>
    intro acc w hw
    rw [wordsAux] at hw
    by_cases hd : isSpaceC d
    · simp only [hd, if_pos] at hw
      by_cases ha : acc.isEmpty
      · simp only [ha, if_pos] at hw
        exact ih hw
      · simp only [ha, Bool.false_eq_true, if_false, List.mem_cons] at hw
        rcases hw with rfl | hw
        · simp only [ne_eq, List.reverse_eq_nil_iff]
          simpa [List.isEmpty_iff] using ha
        · exact ih hw
    · simp only [hd, Bool.false_eq_true, if_false] at hw
      exact ih hw

theorem words_mem_ne_nil {s w : Str} (h : w ∈ words s) : w ≠ [] :=
  wordsAux_mem_ne_nil h

theorem wordsAux_ne_nil_of_acc {s acc : Str} (ha : acc ≠ []) :
    wordsAux s acc ≠ [] := by
  induction s generalizing acc with
  | nil =>
    rw [wordsAux]
    simp [List.isEmpty_iff, ha]
  | cons d r ih =>
    rw [wordsAux]
    by_cases hd : isSpaceC d
    · simp only [hd, if_pos]
      simp [List.isEmpty_iff, ha]
    · simp only [hd, Bool.false_eq_true, if_false]
      exact ih (by simp)

theorem wordsAux_ne_nil_of_mem {s : Str} {c : Char} (hc : c ∈ s)
    (hns : isSpaceC c = false) : ∀ acc, wordsAux s acc ≠ [] := by
  induction s with
  | nil => simp at hc
  | cons d r ih =>
    intro acc
    rw [wordsAux]
    by_cases hd : isSpaceC d
    · have hcr : c ∈ r := by
        rcases List.mem_cons.mp hc with rfl | h
        · rw [hd] at hns; simp at hns
        · exact h
      simp only [hd, if_pos]
      by_cases ha : acc.isEmpty
      · simp only [ha, if_pos]
        exact ih hcr []
      · simp [ha]
    · simp only [hd, Bool.false_eq_true, if_false]
      exact wordsAux_ne_nil_of_acc (by simp)

theorem words_router_bgp (r : Str) :
    words (str "router bgp " ++ r) = str "router" :: str "bgp" :: words r := by
  simp [words, str, wordsAux, isSpaceC]

theorem router_bgp_third_token {l : Str}
    (h : startsWith (strip l) (str "router bgp ") = true) :
    (words (strip l)).getD 2 [] ≠ [] := by
  obtain ⟨r, hr⟩ := startsWith_eq_append h
  rcases List.eq_nil_or_concat r with rfl | ⟨r', c, rfl⟩
  · exfalso
    have hlast : (strip l).getLast? = some ' ' := by
      rw [hr]
      decide
    have := strip_getLast?_not_space hlast
    simp [isSpaceC] at this
  · rw [List.concat_eq_append] at hr
    have hlast : (strip l).getLast? = some c := by
      rw [hr, ← List.append_assoc, List.getLast?_append_of_ne_nil _ (by simp)]
      simp
    have hns := strip_getLast?_not_space hlast
    have hcr : c ∈ r' ++ [c] := by simp
    have hwne : words (r' ++ [c]) ≠ [] := wordsAux_ne_nil_of_mem hcr hns []
    cases hw : words (r' ++ [c]) with
    | nil => exact absurd hw hwne
    | cons w ws =>
      rw [hr, words_router_bgp, hw]
      simp only [List.getD_cons_succ, List.getD_cons_zero]
      exact words_mem_ne_nil (by rw [hw]; exact List.mem_cons_self _ _)

/- ----------------------------------------------------------------------
   Case-analysis eliminators for the fueled BGP loops.
   ---------------------------------------------------------------------- -/

/-- Case analysis for one iteration of the BGP block loop. -/
theorem bgpBlockGo_succ_elim {lines : List Str} {fuel i : Nat} {cfg : Config}
    {processed : List Str} {r : Config × Nat}
    (h : bgpBlockGo lines (fuel + 1) i cfg processed = some r) :
    r = (cfg, i) ∨
    bgpBlockGo lines fuel (i + 1) cfg processed = some r ∨
    (∃ v, v = lastTok (words (strip (lines.getD i []))) ∧
      bgpBlockGo lines fuel (i + 1) { cfg with routerId := v } processed
        = some r) ∨
    (∃ gname g, gname = (words (strip (lines.getD i []))).getD 1 [] ∧
      (parse_peer_group lines i gname).1 = some g ∧
      bgpBlockGo lines fuel (parse_peer_group lines i gname).2
        { cfg with peerGroups := cfg.peerGroups ++ [g] } processed = some r) ∨
    (∃ gname, gname = (words (strip (lines.getD i []))).getD 1 [] ∧
      (parse_peer_group lines i gname).1 = none ∧
      bgpBlockGo lines fuel (parse_peer_group lines i gname).2 cfg processed
        = some r) ∨
    (∃ vr : Vrf × Nat,
      vrfBlockGo lines fuel (i + 1)
        ⟨(words (strip (lines.getD i []))).getD 1 [], [], []⟩ [] = some vr ∧
      bgpBlockGo lines fuel vr.2 { cfg with vrfs := cfg.vrfs ++ [vr.1] }
        processed = some r) ∨
    (∃ ip, ip = (words (strip (lines.getD i []))).getD 1 [] ∧
      matchIp ip = true ∧ ip ∉ processed ∧
      bgpBlockGo lines fuel i
        (if (!(parse_neighbor_block_global lines (initNbGlobal ip)).remoteAs.isEmpty ||
            !(parse_neighbor_block_global lines (initNbGlobal ip)).description.isEmpty) then
          { cfg with globalNeighbors := cfg.globalNeighbors ++
              [parse_neighbor_block_global lines (initNbGlobal ip)] }
         else cfg)
        (ip :: processed) = some r) := by
  rw [bgpBlockGo] at h
  by_cases hlen : i < lines.length
  · rw [if_pos hlen] at h
    simp only [] at h
    by_cases h1 : (isTermLine (lines.getD i []) &&
        !startsWith (strip (lines.getD i [])) (str "router bgp")) = true
    · rw [if_pos h1] at h
      injection h with h1
      exact Or.inl h1.symm
    · rw [if_neg h1] at h
      by_cases h2 : startsWith (strip (lines.getD i [])) (str "router-id ") = true
      · rw [if_pos h2] at h
        exact Or.inr (Or.inr (Or.inl ⟨_, rfl, h⟩))
      · rw [if_neg h2] at h
        by_cases h3 : (startsWith (strip (lines.getD i [])) (str "neighbor ") &&
            hasSub (str "peer group") (strip (lines.getD i [])) &&
            startsWith (lines.getD i []) (str "   neighbor ")) = true
        · rw [if_pos h3] at h
          by_cases h4 : 4 ≤ (words (strip (lines.getD i []))).length ∧
              (words (strip (lines.getD i []))).getD 2 [] = str "peer" ∧
              (words (strip (lines.getD i []))).getD 3 [] = str "group"
          · rw [if_pos h4] at h
            by_cases h5 : (!matchIp ((words (strip (lines.getD i []))).getD 1 [])) = true
            · rw [if_pos h5] at h
              cases hpg : (parse_peer_group lines i
                  ((words (strip (lines.getD i []))).getD 1 [])).1 with
              | some g =>
                rw [hpg] at h
                exact Or.inr (Or.inr (Or.inr (Or.inl ⟨_, g, rfl, hpg, h⟩)))
              | none =>
                rw [hpg] at h
                exact Or.inr (Or.inr (Or.inr (Or.inr (Or.inl ⟨_, rfl, hpg, h⟩))))
            · rw [if_neg h5] at h
              exact Or.inr (Or.inl h)
          · rw [if_neg h4] at h
            exact Or.inr (Or.inl h)
        · rw [if_neg h3] at h
          by_cases h6 : (startsWith (strip (lines.getD i [])) (str "vrf ") &&
              startsWith (lines.getD i []) (str "   vrf ")) = true
          · rw [if_pos h6] at h
            cases hv : vrfBlockGo lines fuel (i + 1)
                ⟨(words (strip (lines.getD i []))).getD 1 [], [], []⟩ [] with
            | none => rw [hv] at h; exact Option.noConfusion h
            | some vr =>
              rw [hv] at h
              exact Or.inr (Or.inr (Or.inr (Or.inr (Or.inr (Or.inl ⟨vr, rfl, h⟩)))))
          · rw [if_neg h6] at h
            by_cases h7 : (startsWith (strip (lines.getD i [])) (str "neighbor ") &&
                startsWith (lines.getD i []) (str "   neighbor ") &&
                !hasSub (str "peer group") (strip (lines.getD i []))) = true
            · rw [if_pos h7] at h
              by_cases h8 : 2 ≤ (words (strip (lines.getD i []))).length
              · rw [if_pos h8] at h
                by_cases h9 : matchIp ((words (strip (lines.getD i []))).getD 1 []) = true
                · rw [if_pos h9] at h
                  by_cases h10 : (words (strip (lines.getD i []))).getD 1 [] ∈ processed
                  · rw [if_pos h10] at h
                    exact Or.inr (Or.inl h)
                  · rw [if_neg h10] at h
                    exact Or.inr (Or.inr (Or.inr (Or.inr (Or.inr (Or.inr
                      ⟨_, rfl, h9, h10, h⟩)))))
                · rw [if_neg h9] at h
                  exact Or.inr (Or.inl h)
              · rw [if_neg h8] at h
                exact Or.inr (Or.inl h)
            · rw [if_neg h7] at h
              exact Or.inr (Or.inl h)
  · rw [if_neg hlen] at h
    injection h with h1
    exact Or.inl h1.symm

/-- Case analysis for one iteration of the VRF block loop. -/
theorem vrfBlockGo_succ_elim {lines : List Str} {fuel i : Nat} {vrf : Vrf}
    {processed : List Str} {r : Vrf × Nat}
    (h : vrfBlockGo lines (fuel + 1) i vrf processed = some r) :
    r = (vrf, i - 1) ∨
    vrfBlockGo lines fuel (i + 1) vrf processed = some r ∨
    (∃ v, v = lastTok (words (strip (lines.getD i []))) ∧
      vrfBlockGo lines fuel (i + 1) { vrf with rd := v } processed = some r) ∨
    (∃ ip, ip = (words (strip (lines.getD i []))).getD 1 [] ∧
      matchIp ip = true ∧ ip ∉ processed ∧
      vrfBlockGo lines fuel i
        (if (!(parse_neighbor_block_vrf lines (initNbVrf ip vrf.name)).remoteAs.isEmpty ||
            !(parse_neighbor_block_vrf lines (initNbVrf ip vrf.name)).description.isEmpty) then
          { vrf with neighbors := vrf.neighbors ++
              [parse_neighbor_block_vrf lines (initNbVrf ip vrf.name)] }
         else vrf)
        (ip :: processed) = some r) := by
  rw [vrfBlockGo] at h
  by_cases hlen : i < lines.length
  · rw [if_pos hlen] at h
    simp only [] at h
    by_cases h1 : (startsWith (lines.getD i []) (str "   vrf ") ||
        isTermLine (lines.getD i [])) = true
    · rw [if_pos h1] at h
      injection h with h1
      exact Or.inl h1.symm
    · rw [if_neg h1] at h
      by_cases h2 : startsWith (strip (lines.getD i [])) (str "rd ") = true
      · rw [if_pos h2] at h
        exact Or.inr (Or.inr (Or.inl ⟨_, rfl, h⟩))
      · rw [if_neg h2] at h
        by_cases h3 : (startsWith (strip (lines.getD i [])) (str "neighbor ") &&
            startsWith (lines.getD i []) (str "      neighbor ")) = true
        · rw [if_pos h3] at h
          by_cases h4 : 2 ≤ (words (strip (lines.getD i []))).length
          · rw [if_pos h4] at h
            by_cases h5 : matchIp ((words (strip (lines.getD i []))).getD 1 []) = true
            · rw [if_pos h5] at h
              by_cases h6 : (words (strip (lines.getD i []))).getD 1 [] ∈ processed
              · rw [if_pos h6] at h
                exact Or.inr (Or.inl h)
              · rw [if_neg h6] at h
                exact Or.inr (Or.inr (Or.inr ⟨_, rfl, h5, h6, h⟩))
            · rw [if_neg h5] at h
              exact Or.inr (Or.inl h)
          · rw [if_neg h4] at h
            exact Or.inr (Or.inl h)
        · rw [if_neg h3] at h
          exact Or.inr (Or.inl h)
  · rw [if_neg hlen] at h
    injection h with h1
    exact Or.inl h1.symm

/-- The retention guard of the source, as a proposition on a neighbor. -/
theorem guard_iff {nb : Neighbor} :
    (!nb.remoteAs.isEmpty || !nb.description.isEmpty) = true ↔
    (nb.remoteAs ≠ [] ∨ nb.description ≠ []) := by
  simp [List.isEmpty_iff]

/-- Every neighbor appended by the VRF block loop passed the retention
guard. -/
theorem vrfBlockGo_retention {lines : List Str} : ∀ {fuel i : Nat} {vrf : Vrf}
    {processed : List Str} {r : Vrf × Nat},
    vrfBlockGo lines fuel i vrf processed = some r →
    (∀ nb ∈ vrf.neighbors, nb.remoteAs ≠ [] ∨ nb.description ≠ []) →
    ∀ nb ∈ r.1.neighbors, nb.remoteAs ≠ [] ∨ nb.description ≠ [] := by
  intro fuel
  induction fuel with
  | zero => intro i vrf processed r h; exact Option.noConfusion h
  | succ fuel ih =>
    intro i vrf processed r h hinv
    rcases vrfBlockGo_succ_elim h with hc | hc | ⟨v, hveq, hc⟩ |
      ⟨ip, hip, hm, hnp, hc⟩
    · subst hc; exact hinv
    · exact ih hc hinv
    · exact ih hc hinv
    · refine ih hc ?_
      by_cases hg : (!(parse_neighbor_block_vrf lines (initNbVrf ip vrf.name)).remoteAs.isEmpty ||
          !(parse_neighbor_block_vrf lines (initNbVrf ip vrf.name)).description.isEmpty) = true
      · rw [if_pos hg]
        intro nb hnb
        rcases List.mem_append.mp hnb with hl | hr
        · exact hinv nb hl
        · rw [List.mem_singleton] at hr
          subst hr
          exact guard_iff.mp hg
      · rw [if_neg hg]
        exact hinv

/-- Every neighbor appended by the BGP block loop (directly or inside a VRF)
passed the retention guard. -/
theorem bgpBlockGo_retention {lines : List Str} : ∀ {fuel i : Nat} {cfg : Config}
    {processed : List Str} {r : Config × Nat},
    bgpBlockGo lines fuel i cfg processed = some r →
    (∀ nb ∈ cfg.globalNeighbors, nb.remoteAs ≠ [] ∨ nb.description ≠ []) →
    (∀ v ∈ cfg.vrfs, ∀ nb ∈ v.neighbors, nb.remoteAs ≠ [] ∨ nb.description ≠ []) →
    (∀ nb ∈ r.1.globalNeighbors, nb.remoteAs ≠ [] ∨ nb.description ≠ []) ∧
    (∀ v ∈ r.1.vrfs, ∀ nb ∈ v.neighbors, nb.remoteAs ≠ [] ∨ nb.description ≠ []) := by
  intro fuel
  induction fuel with
  | zero => intro i cfg processed r h; exact Option.noConfusion h
  | succ fuel ih =>
    intro i cfg processed r h hg hv
    rcases bgpBlockGo_succ_elim h with hc | hc | ⟨v, hveq, hc⟩ |
      ⟨gn, g, hgneq, hpg, hc⟩ |
      ⟨gn, hgneq2, hpg, hc⟩ | ⟨vr, hvr, hc⟩ | ⟨ip, hip, hm, hnp, hc⟩
    · subst hc; exact ⟨hg, hv⟩
    · exact ih hc hg hv
    · exact ih hc hg hv
    · exact ih hc hg hv
    · exact ih hc hg hv
    · refine ih hc hg ?_
      intro v hvmem nb hnb
      rcases List.mem_append.mp hvmem with hl | hr
      · exact hv v hl nb hnb
      · rw [List.mem_singleton] at hr
        subst hr
        exact vrfBlockGo_retention hvr
          (by intro nb h; exact absurd h (List.not_mem_nil nb)) nb hnb
    · by_cases hgd : (!(parse_neighbor_block_global lines (initNbGlobal ip)).remoteAs.isEmpty ||
          !(parse_neighbor_block_global lines (initNbGlobal ip)).description.isEmpty) = true
      · rw [if_pos hgd] at hc
        refine ih hc ?_ hv
        intro nb hnb
        rcases List.mem_append.mp hnb with hl | hr
        · exact hg nb hl
        · rw [List.mem_singleton] at hr
          subst hr
          exact guard_iff.mp hgd
      · rw [if_neg hgd] at hc
        exact ih hc hg hv

/-- The BGP block loop never writes asNumber nor any field owned by the flat
extractors. -/
theorem bgpBlockGo_preserves {lines : List Str} : ∀ {fuel i : Nat} {cfg : Config}
    {processed : List Str} {r : Config × Nat},
    bgpBlockGo lines fuel i cfg processed = some r →
    r.1.asNumber = cfg.asNumber ∧ r.1.routeMaps = cfg.routeMaps ∧
    r.1.prefixLists = cfg.prefixLists ∧ r.1.communityLists = cfg.communityLists ∧
    r.1.asPathSets = cfg.asPathSets ∧ r.1.accessLists = cfg.accessLists ∧
    r.1.extcommunitySets = cfg.extcommunitySets := by
  intro fuel
  induction fuel with
  | zero => intro i cfg processed r h; exact Option.noConfusion h
  | succ fuel ih =>
    intro i cfg processed r h
    rcases bgpBlockGo_succ_elim h with hc | hc | ⟨v, hveq, hc⟩ |
      ⟨gn, g, hgneq, hpg, hc⟩ |
      ⟨gn, hgneq2, hpg, hc⟩ | ⟨vr, hvr, hc⟩ | ⟨ip, hip, hm, hnp, hc⟩
    · subst hc; exact ⟨rfl, rfl, rfl, rfl, rfl, rfl, rfl⟩
    · exact ih hc
    · have h2 := ih hc; exact h2
    · have h2 := ih hc; exact h2
    · exact ih hc
    · have h2 := ih hc; exact h2
    · by_cases hgd : (!(parse_neighbor_block_global lines (initNbGlobal ip)).remoteAs.isEmpty ||
          !(parse_neighbor_block_global lines (initNbGlobal ip)).description.isEmpty) = true
      · rw [if_pos hgd] at hc
        have h2 := ih hc; exact h2
      · rw [if_neg hgd] at hc
        exact ih hc

/- ----------------------------------------------------------------------
   Lemmas about the section search loop.
   ---------------------------------------------------------------------- -/

/-- When no line from index `i` on is a `router bgp ` header, the section
search returns the configuration unchanged. -/
theorem bgpSectionGoF_no_header {lines : List Str} {blockFuel : Nat} :
    ∀ {fuel i : Nat} {cfg : Config},
    (∀ j, i ≤ j → j < lines.length →
      ¬ startsWith (strip (lines.getD j [])) (str "router bgp ") = true) →
    bgpSectionGoF lines blockFuel fuel i cfg = some cfg := by
  intro fuel
  induction fuel with
  | zero => intro i cfg hno; rfl
  | succ fuel ih =>
    intro i cfg hno
    rw [bgpSectionGoF]
    by_cases hlen : i < lines.length
    · rw [if_pos hlen]
      simp only []
      rw [if_neg (hno i (Nat.le_refl i) hlen)]
      exact ih fun j hj hjl => hno j (Nat.le_of_succ_le hj) hjl
    · rw [if_neg hlen]

/-- The section pass never writes the fields owned by the flat extractors. -/
theorem bgpSectionGoF_preserves {lines : List Str} {blockFuel : Nat} :
    ∀ {fuel i : Nat} {cfg cfg' : Config},
    bgpSectionGoF lines blockFuel fuel i cfg = some cfg' →
    cfg'.routeMaps = cfg.routeMaps ∧ cfg'.prefixLists = cfg.prefixLists ∧
    cfg'.communityLists = cfg.communityLists ∧
    cfg'.asPathSets = cfg.asPathSets ∧ cfg'.accessLists = cfg.accessLists ∧
    cfg'.extcommunitySets = cfg.extcommunitySets := by
  intro fuel
  induction fuel with
  | zero =>
    intro i cfg cfg' h
    injection h with h1
    subst h1
    exact ⟨rfl, rfl, rfl, rfl, rfl, rfl⟩
  | succ fuel ih =>
    intro i cfg cfg' h
    rw [bgpSectionGoF] at h
    by_cases hlen : i < lines.length
    · rw [if_pos hlen] at h
      simp only [] at h
      by_cases hhead : startsWith (strip (lines.getD i [])) (str "router bgp ") = true
      · rw [if_pos hhead] at h
        cases hb : bgpBlockGo lines blockFuel (i + 1)
            { cfg with asNumber := (words (strip (lines.getD i []))).getD 2 [] } [] with
        | none => rw [hb] at h; exact Option.noConfusion h
        | some r =>
          rw [hb] at h
          injection h with h1
          subst h1
          have h2 := bgpBlockGo_preserves hb
          exact ⟨h2.2.1, h2.2.2.1, h2.2.2.2.1, h2.2.2.2.2.1, h2.2.2.2.2.2.1,
            h2.2.2.2.2.2.2⟩
      · rw [if_neg hhead] at h
        exact ih h
    · rw [if_neg hlen] at h
      injection h with h1
      subst h1
      exact ⟨rfl, rfl, rfl, rfl, rfl, rfl⟩

/-- If the section pass changes asNumber then some line is a
`router bgp ` header. -/
theorem bgpSectionGoF_asNumber_cases {lines : List Str} {blockFuel : Nat} :
    ∀ {fuel i : Nat} {cfg cfg' : Config},
    bgpSectionGoF lines blockFuel fuel i cfg = some cfg' →
    cfg'.asNumber = cfg.asNumber ∨
    ∃ j, j < lines.length ∧
      startsWith (strip (lines.getD j [])) (str "router bgp ") = true := by
  intro fuel
  induction fuel with
  | zero =>
    intro i cfg cfg' h
    injection h with h1
    subst h1
    exact Or.inl rfl
  | succ fuel ih =>
    intro i cfg cfg' h
    rw [bgpSectionGoF] at h
    by_cases hlen : i < lines.length
    · rw [if_pos hlen] at h
      simp only [] at h
      by_cases hhead : startsWith (strip (lines.getD i [])) (str "router bgp ") = true
      · exact Or.inr ⟨i, hlen, hhead⟩
      · rw [if_neg hhead] at h
        exact ih h
    · rw [if_neg hlen] at h
      injection h with h1
      subst h1
      exact Or.inl rfl

/-- When a `router bgp ` header exists at or after the current index and the
fuel covers the remaining lines, the section result has a non-empty
asNumber. -/
theorem bgpSectionGoF_asNumber_set {lines : List Str} {blockFuel : Nat} :
    ∀ {fuel i j : Nat} {cfg cfg' : Config},
    lines.length - i ≤ fuel → i ≤ j → j < lines.length →
    startsWith (strip (lines.getD j [])) (str "router bgp ") = true →
    bgpSectionGoF lines blockFuel fuel i cfg = some cfg' →
    cfg'.asNumber ≠ [] := by
  intro fuel
  induction fuel with
  | zero =>
    intro i j cfg cfg' hfuel hij hjl hhead h
    omega
  | succ fuel ih =>
    intro i j cfg cfg' hfuel hij hjl hhead h
    have hlen : i < lines.length := Nat.lt_of_le_of_lt hij hjl
    rw [bgpSectionGoF, if_pos hlen] at h
    simp only [] at h
    by_cases hh : startsWith (strip (lines.getD i [])) (str "router bgp ") = true
    · rw [if_pos hh] at h
      cases hb : bgpBlockGo lines blockFuel (i + 1)
          { cfg with asNumber := (words (strip (lines.getD i []))).getD 2 [] } [] with
      | none => rw [hb] at h; exact Option.noConfusion h
      | some r =>
        rw [hb] at h
        injection h with h1
        subst h1
        have h2 := (bgpBlockGo_preserves hb).1
        rw [h2]
        exact router_bgp_third_token hh
    · rw [if_neg hh] at h
      have hij' : i + 1 ≤ j := by
        rcases Nat.lt_or_ge i j with hlt | hge
        · omega
        · have : i = j := Nat.le_antisymm hij hge
          subst this
          exact absurd hhead hh
      exact ih (by omega) hij' hjl hhead h

/- ----------------------------------------------------------------------
   Claim theorems.
   ---------------------------------------------------------------------- -/

/-- C1: parsing the seven-line end-to-end scenario input yields a
configuration with asNumber 65000, routerId 1.1.1.1, exactly one global
neighbor (ip 10.0.0.1, remoteAs 65001, description Peer A) and exactly one
VRF (name CUSTOMER_A, rd 100:1) containing exactly one neighbor
(ip 10.0.0.2, remoteAs 65002); the theorem states the full structural
equality of the parse result. -/
theorem C1_end_to_end_scenario : parse_config c1Input = some c1Expected := by
  decide

/-- The section pass preserves the neighbor-retention invariant. -/
theorem bgpSectionGoF_retention {lines : List Str} {blockFuel : Nat} :
    ∀ {fuel i : Nat} {cfg cfg' : Config},
    bgpSectionGoF lines blockFuel fuel i cfg = some cfg' →
    (∀ nb ∈ cfg.globalNeighbors, nb.remoteAs ≠ [] ∨ nb.description ≠ []) →
    (∀ v ∈ cfg.vrfs, ∀ nb ∈ v.neighbors, nb.remoteAs ≠ [] ∨ nb.description ≠ []) →
    (∀ nb ∈ cfg'.globalNeighbors, nb.remoteAs ≠ [] ∨ nb.description ≠ []) ∧
    (∀ v ∈ cfg'.vrfs, ∀ nb ∈ v.neighbors, nb.remoteAs ≠ [] ∨ nb.description ≠ []) := by
  intro fuel
  induction fuel with
  | zero =>
    intro i cfg cfg' h hg hv
    injection h with h1
    subst h1
    exact ⟨hg, hv⟩
  | succ fuel ih =>
    intro i cfg cfg' h hg hv
    rw [bgpSectionGoF] at h
    by_cases hlen : i < lines.length
    · rw [if_pos hlen] at h
      simp only [] at h
      by_cases hhead : startsWith (strip (lines.getD i [])) (str "router bgp ") = true
      · rw [if_pos hhead] at h
        cases hb : bgpBlockGo lines blockFuel (i + 1)
            { cfg with asNumber := (words (strip (lines.getD i []))).getD 2 [] } [] with
        | none => rw [hb] at h; exact Option.noConfusion h
        | some r =>
          rw [hb] at h
          injection h with h1
          subst h1
          exact bgpBlockGo_retention hb hg hv
      · rw [if_neg hhead] at h
        exact ih h hg hv
    · rw [if_neg hlen] at h
      injection h with h1
      subst h1
      exact ⟨hg, hv⟩

/-- C4: the returned asNumber is non-empty exactly when some normalized line
strips to a `router bgp ` header (the AS token after it is then non-empty
automatically, because stored lines are stripped of trailing whitespace);
and when no such line exists, the BGP-derived fields routerId,
globalNeighbors, vrfs and peerGroups are all empty. -/
theorem C4_asNumber_iff_router_bgp {content : Str} {cfg : Config}
    (h : parse_config content = some cfg) :
    (cfg.asNumber ≠ [] ↔ ∃ l ∈ normalizeLines content,
       startsWith (strip l) (str "router bgp ") = true) ∧
    ((¬ ∃ l ∈ normalizeLines content,
       startsWith (strip l) (str "router bgp ") = true) →
      cfg.routerId = [] ∧ cfg.globalNeighbors = [] ∧ cfg.vrfs = [] ∧
      cfg.peerGroups = []) := by
  rw [parse_config, parseLines, parse_bgp_section] at h
  constructor
  · constructor
    · intro hne
      rcases bgpSectionGoF_asNumber_cases h with hsame | ⟨j, hjl, hhead⟩
      · exact absurd hsame hne
      · refine ⟨(normalizeLines content).getD j [], ?_, hhead⟩
        rw [List.getD_eq_getElem _ _ hjl]
        exact List.getElem_mem _
    · intro hex
      obtain ⟨l, hl, hhead⟩ := hex
      obtain ⟨j, hjl, hlj⟩ := List.mem_iff_getElem.mp hl
      refine bgpSectionGoF_asNumber_set (j := j) (by omega) (Nat.zero_le j) hjl
        ?_ h
      rw [List.getD_eq_getElem _ _ hjl, hlj]
      exact hhead
  · intro hno
    have hno' : ∀ j, 0 ≤ j → j < (normalizeLines content).length →
        ¬ startsWith (strip ((normalizeLines content).getD j []))
          (str "router bgp ") = true := by
      intro j _ hjl hhead
      refine hno ⟨(normalizeLines content).getD j [], ?_, hhead⟩
      rw [List.getD_eq_getElem _ _ hjl]
      exact List.getElem_mem _
    rw [bgpSectionGoF_no_header hno'] at h
    injection h with h1
    subst h1
    exact ⟨rfl, rfl, rfl, rfl⟩

/-- Witness for C4 at the end-to-end input, which contains a
`router bgp ` header. -/
theorem C4_asNumber_iff_router_bgp_witness :
    (c1Expected.asNumber ≠ [] ↔ ∃ l ∈ normalizeLines c1Input,
       startsWith (strip l) (str "router bgp ") = true) ∧
    ((¬ ∃ l ∈ normalizeLines c1Input,
       startsWith (strip l) (str "router bgp ") = true) →
      c1Expected.routerId = [] ∧ c1Expected.globalNeighbors = [] ∧
      c1Expected.vrfs = [] ∧ c1Expected.peerGroups = []) :=
  C4_asNumber_iff_router_bgp (by decide)

/-- C7: a neighbor record (global or VRF-scoped) appears in the returned
configuration only if its remoteAs or its description is non-empty;
moreover, on the concrete input whose only mention of 10.9.9.9 is a
`maximum-routes` line that sets neither field, that IP is absent from the
output (the parse succeeds with no neighbor records at all), rather than
reported as an error. -/
theorem C7_neighbor_retention :
    (∀ content cfg, parse_config content = some cfg →
      (∀ nb ∈ cfg.globalNeighbors, nb.remoteAs ≠ [] ∨ nb.description ≠ []) ∧
      (∀ v ∈ cfg.vrfs, ∀ nb ∈ v.neighbors, nb.remoteAs ≠ [] ∨ nb.description ≠ [])) ∧
    (parse_config c7Input = some { resetConfig with asNumber := str "7" } ∧
      ({ resetConfig with asNumber := str "7" } : Config).globalNeighbors = [] ∧
      ({ resetConfig with asNumber := str "7" } : Config).vrfs = []) := by
  constructor
  · intro content cfg h
    rw [parse_config, parseLines, parse_bgp_section] at h
    exact bgpSectionGoF_retention h
      (by intro nb hnb; exact absurd hnb (List.not_mem_nil nb))
      (by intro v hv; exact absurd hv (List.not_mem_nil v))
  · exact ⟨by decide, rfl, rfl⟩

/-- Witness for C7's universal part at the end-to-end input. -/
theorem C7_neighbor_retention_witness :
    (∀ nb ∈ c1Expected.globalNeighbors, nb.remoteAs ≠ [] ∨ nb.description ≠ []) ∧
    (∀ v ∈ c1Expected.vrfs, ∀ nb ∈ v.neighbors,
      nb.remoteAs ≠ [] ∨ nb.description ≠ []) :=
  C7_neighbor_retention.1 c1Input c1Expected (by decide)

/-- C9 counterexample: the claimed field set (exactly the ten keys of the
spec's data model) is wrong for the code: `reset` additionally installs the
top-level key extcommunitySets, which is not among the spec's ten, so the
key set of every returned configuration is not the claimed one. -/
theorem C9_keys_counterexample :
    "extcommunitySets" ∈ resetConfigKeys ∧
    "extcommunitySets" ∉ specConfigKeys ∧
    ¬ (∀ k, k ∈ resetConfigKeys ↔ k ∈ specConfigKeys) := by
  refine ⟨by decide, by decide, fun hall => ?_⟩
  have := (hall "extcommunitySets").mp (by decide)
  exact absurd this (by decide)

/-- C9 amended: the set of top-level fields of every returned Configuration
is exactly the ten named in the data model plus `extcommunitySets` (inserted
between asPathSets and accessLists, and never populated by any parsing
code); the key list installed by `reset` — which is the field list of the
`Config` record that every parse result has — equals the spec's ten keys
with `extcommunitySets` inserted at that position. -/
theorem C9_keys_amended :
    resetConfigKeys =
      specConfigKeys.take 9 ++ ["extcommunitySets"] ++ specConfigKeys.drop 9 := by
  decide


theorem wordsAux_nonspace_accum {w : Str} (hw : ∀ c ∈ w, isSpaceC c = false) :
    ∀ (rest acc : Str), wordsAux (w ++ rest) acc = wordsAux rest (w.reverse ++ acc) := by
  induction w with
  | nil => intro rest acc; simp
  | cons c r ih =>
    intro rest acc
    have hc : isSpaceC c = false := hw c (List.mem_cons_self c r)
    rw [List.cons_append, wordsAux]
    simp only [hc, Bool.false_eq_true, if_false]
    rw [ih (fun d hd => hw d (List.mem_cons_of_mem c hd)) rest (c :: acc)]
    simp

theorem wordsAux_space_cons (b : Str) : ∀ acc,
    wordsAux (' ' :: b) acc =
      (if acc.isEmpty then [] else [acc.reverse]) ++ wordsAux b [] := by
  intro acc
  rw [wordsAux]
  simp only [isSpaceC]
  by_cases ha : acc.isEmpty
  · simp [ha]
  · simp [ha]

theorem wordsAux_append_space (a b : Str) : ∀ acc,
    wordsAux (a ++ ' ' :: b) acc = wordsAux a acc ++ wordsAux b [] := by
  induction a with
  | nil =>
    intro acc
    rw [List.nil_append, wordsAux_space_cons]
    rw [wordsAux]
  | cons c r ih =>
    intro acc
    rw [List.cons_append, wordsAux, wordsAux]
    by_cases hc : isSpaceC c
    · simp only [hc, if_pos]
      by_cases ha : acc.isEmpty
      · simp only [ha, if_pos]
        exact ih []
      · simp only [ha, Bool.false_eq_true, if_false]
        rw [ih []]
        simp
    · simp only [hc, Bool.false_eq_true, if_false]
      exact ih (c :: acc)

/-- Splitting on an explicit separating space. -/
theorem words_append_space (a b : Str) :
    words (a ++ ' ' :: b) = words a ++ words b :=
  wordsAux_append_space a b []

/-- A nonempty string without whitespace is a single word. -/
theorem words_single {w : Str} (hne : w ≠ [])
    (hw : ∀ c ∈ w, isSpaceC c = false) : words w = [w] := by
  have h := wordsAux_nonspace_accum hw [] []
  rw [List.append_nil] at h
  rw [words, h, wordsAux]
  simp [List.isEmpty_iff, hne]

/-- A nonempty whitespace-free word followed by a space splits off. -/
theorem words_word_cons {w : Str} (b : Str) (hne : w ≠ [])
    (hw : ∀ c ∈ w, isSpaceC c = false) :
    words (w ++ ' ' :: b) = w :: words b := by
  rw [words_append_space, words_single hne hw]
  rfl



theorem rstrip_eq_self {s : Str} (h : ∀ c, s.getLast? = some c → isSpaceC c = false) :
    rstrip s = s := by
  rw [rstrip]
  cases hs : s.reverse with
  | nil =>
    have : s = [] := by simpa using congrArg List.reverse hs
    subst this
    rfl
  | cons c t =>
    have hlast : s.getLast? = some c := by
      rw [← List.head?_reverse, hs]
      rfl
    have hc := h c hlast
    have hst : s = (c :: t).reverse := by
      rw [← hs, List.reverse_reverse]
    rw [List.dropWhile_cons, hc]
    simp only [Bool.false_eq_true, if_false]
    exact hst.symm

theorem lstrip_eq_self {s : Str} (h : ∀ c, s.head? = some c → isSpaceC c = false) :
    lstrip s = s := by
  rw [lstrip]
  cases s with
  | nil => rfl
  | cons c t =>
    rw [List.dropWhile_cons, h c rfl]
    simp

theorem strip_eq_self {s : Str} (hh : ∀ c, s.head? = some c → isSpaceC c = false)
    (hl : ∀ c, s.getLast? = some c → isSpaceC c = false) : strip s = s := by
  rw [strip, rstrip_eq_self hl, lstrip_eq_self hh]

theorem wordsAux_all_space {sp : Str} (hsp : ∀ c ∈ sp, isSpaceC c = true) :
    ∀ acc, wordsAux sp acc = if acc.isEmpty then [] else [acc.reverse] := by
  induction sp with
  | nil => intro acc; rw [wordsAux]
  | cons c r ih =>
    intro acc
    rw [wordsAux]
    have hc := hsp c (List.mem_cons_self c r)
    simp only [hc, if_pos]
    by_cases ha : acc.isEmpty
    · simp only [ha, if_pos]
      rw [ih (fun d hd => hsp d (List.mem_cons_of_mem c hd)) []]
      simp [ha]
    · simp only [ha, Bool.false_eq_true, if_false]
      rw [ih (fun d hd => hsp d (List.mem_cons_of_mem c hd)) []]
      simp

theorem wordsAux_append_all_space {sp : Str} (hsp : ∀ c ∈ sp, isSpaceC c = true)
    (a : Str) : ∀ acc, wordsAux (a ++ sp) acc = wordsAux a acc := by
  induction a with
  | nil =>
    intro acc
    rw [List.nil_append, wordsAux_all_space hsp, wordsAux]
  | cons c r ih =>
    intro acc
    rw [List.cons_append, wordsAux, wordsAux]
    by_cases hc : isSpaceC c
    · simp only [hc, if_pos]
      by_cases ha : acc.isEmpty
      · simp only [ha, if_pos]
        exact ih []
      · simp only [ha, Bool.false_eq_true, if_false]
        rw [ih []]
    · simp only [hc, Bool.false_eq_true, if_false]
      exact ih (c :: acc)

theorem words_all_space_pre {sp : Str} (hsp : ∀ c ∈ sp, isSpaceC c = true)
    (a : Str) : words (sp ++ a) = words a := by
  rw [words, words]
  induction sp with
  | nil => rfl
  | cons c r ih =>
    rw [List.cons_append, wordsAux]
    have hc := hsp c (List.mem_cons_self c r)
    simp only [hc, if_pos, List.isEmpty_nil, if_pos]
    exact ih fun d hd => hsp d (List.mem_cons_of_mem c hd)

theorem rstrip_decomp (s : Str) : ∃ sp, (∀ c ∈ sp, isSpaceC c = true) ∧
    s = rstrip s ++ sp := by
  refine ⟨(s.reverse.takeWhile isSpaceC).reverse, ?_, ?_⟩
  · intro c hc
    rw [List.mem_reverse] at hc
    exact List.mem_takeWhile_imp hc
  · rw [rstrip, ← List.reverse_append, List.takeWhile_append_dropWhile,
      List.reverse_reverse]

theorem lstrip_decomp (s : Str) : ∃ sp, (∀ c ∈ sp, isSpaceC c = true) ∧
    s = sp ++ lstrip s := by
  refine ⟨s.takeWhile isSpaceC, ?_, ?_⟩
  · intro c hc
    exact List.mem_takeWhile_imp hc
  · rw [lstrip, List.takeWhile_append_dropWhile]

/-- Python `split()` ignores leading and trailing whitespace: stripping
first does not change the token list. -/
theorem words_strip (s : Str) : words (strip s) = words s := by
  obtain ⟨sp2, hsp2, hs2⟩ := rstrip_decomp s
  obtain ⟨sp1, hsp1, hs1⟩ := lstrip_decomp (rstrip s)
  have h1 : words s = words (rstrip s) := by
    conv_lhs => rw [hs2]
    rw [words, wordsAux_append_all_space hsp2, ← words]
  have h2 : words (rstrip s) = words (lstrip (rstrip s)) := by
    conv_lhs => rw [hs1]
    exact words_all_space_pre hsp1 _
  rw [strip, h1, h2]

theorem startsWith_append_self (p rest : Str) :
    startsWith (p ++ rest) p = true := by
  induction p with
  | nil =>
    rw [List.nil_append]
    cases rest <;> rfl
  | cons c r ih =>
    rw [List.cons_append, startsWith]
    simp [ih]

theorem findSubIdx_min {pat s : Str} {k : Nat} (hp : pat ≠ [])
    (h : startsWith (s.drop k) pat = true) :
    ∃ m, m ≤ k ∧ findSubIdx pat s = some m := by
  induction s generalizing k with
  | nil =>
    rw [List.drop_nil] at h
    cases pat with
    | nil => exact absurd rfl hp
    | cons pc pr => simp [startsWith] at h
  | cons c r ih =>
    rw [findSubIdx]
    by_cases hsw : startsWith (c :: r) pat
    · exact ⟨0, Nat.zero_le k, by rw [if_pos hsw]⟩
    · rw [if_neg hsw]
      cases k with
      | zero => rw [List.drop_zero] at h; exact absurd h hsw
      | succ k' =>
        rw [List.drop_succ_cons] at h
        obtain ⟨m, hm, hfind⟩ := ih h
        exact ⟨m + 1, Nat.succ_le_succ hm, by rw [hfind]; rfl⟩



theorem clAddEntry_filter_other {cls : List CommunityList} {n m : Str}
    (hnm : m ≠ n) (vs : List Str) :
    (clAddEntry cls n vs).filter (fun cl => cl.name = m) =
      cls.filter (fun cl => cl.name = m) := by
  induction cls with
  | nil =>
    rw [clAddEntry]
    have h1 : ¬ ((⟨n, vs⟩ : CommunityList).name = m) := fun hh => hnm hh.symm
    simp [List.filter_cons, h1]
  | cons cl rest ih =>
    rw [clAddEntry]
    by_cases hcl : cl.name = n
    · rw [if_pos hcl]
      have h2 : ¬ (cl.name = m) := by
        rw [hcl]
        exact fun hh => hnm hh.symm
      have h1 : ¬ ((⟨cl.name, cl.communities ++ vs⟩ : CommunityList).name = m) := h2
      simp [List.filter_cons, h1, h2]
    · rw [if_neg hcl]
      by_cases hm : cl.name = m
      · simp [List.filter_cons, hm, ih]
      · simp [List.filter_cons, hm, ih]



theorem clAddEntry_filter_self (cls : List CommunityList) (n : Str)
    (vs : List Str) :
    (clAddEntry cls n vs).filter (fun cl => cl.name = n) =
      match cls.filter (fun cl => cl.name = n) with
      | [] => [⟨n, vs⟩]
      | cl :: rest => ⟨cl.name, cl.communities ++ vs⟩ :: rest := by
  induction cls with
  | nil =>
    rw [clAddEntry]
    simp [List.filter_cons]
  | cons cl rest ih =>
    rw [clAddEntry]
    by_cases hcl : cl.name = n
    · rw [if_pos hcl]
      simp [List.filter_cons, hcl]
    · rw [if_neg hcl]
      simp only [List.filter_cons]
      have h1 : ¬ ((cl : CommunityList).name = n) := hcl
      simp only [h1, decide_eq_true_eq, if_neg h1]
      exact ih



theorem clCapturesFor_cons_nonheader {X l : Str} {rest : List Str}
    (h : clHeaderName? l ≠ some X) :
    clCapturesFor X (l :: rest) = clCapturesFor X rest := by
  rw [clCapturesFor, if_neg h, List.nil_append]

theorem clAny_cons_nonheader {X l : Str} {rest : List Str}
    (h : clHeaderName? l ≠ some X) :
    (l :: rest).any (fun l => clHeaderName? l == some X) =
      rest.any (fun l => clHeaderName? l == some X) := by
  rw [List.any_cons]
  have : (clHeaderName? l == some X) = false := by
    rw [beq_eq_false_iff_ne]
    exact h
  rw [this]
  simp

theorem clGo_filter (X : Str) : ∀ (ls : List Str) (cls : List CommunityList),
    (clGo ls cls).filter (fun cl => cl.name = X) =
      match cls.filter (fun cl => cl.name = X) with
      | [] =>
        if ls.any (fun l => clHeaderName? l == some X) then
          [⟨X, clCapturesFor X ls⟩]
        else []
      | cl :: rest => ⟨cl.name, cl.communities ++ clCapturesFor X ls⟩ :: rest := by
  intro ls
  induction ls with
  | nil =>
    intro cls
    cases hf : cls.filter (fun cl => cl.name = X) with
    | nil => simp [clGo, hf]
    | cons cl rest => simp [clGo, clCapturesFor, hf]
  | cons l rest ih =>
    intro cls
    rw [clGo]
    by_cases hsw : startsWith (strip l) (str "ip community-list ") = true
    · rw [if_pos hsw]
      by_cases h3 : 3 ≤ (words (strip l)).length
      · rw [if_pos h3]
        by_cases hX : (words (strip l)).getD 2 [] = X
        · have hhd : clHeaderName? l = some X := by
            rw [clHeaderName?, if_pos hsw, if_pos h3, hX]
          rw [hX, ih (clAddEntry cls X (clLineVals (strip l)))]
          rw [clAddEntry_filter_self]
          have hcap : clCapturesFor X (l :: rest) =
              clLineVals (strip l) ++ clCapturesFor X rest := by
            rw [clCapturesFor, if_pos hhd]
          have hany : (l :: rest).any (fun l => clHeaderName? l == some X) = true := by
            rw [List.any_cons]
            simp [hhd]
          cases hf : cls.filter (fun cl => cl.name = X) with
          | nil =>
            simp only [hf, hany, if_pos, hcap]
          | cons cl rest' =>
            simp only [hf, hcap, List.append_assoc]
        · have hhd : clHeaderName? l ≠ some X := by
            rw [clHeaderName?, if_pos hsw, if_pos h3]
            intro hc
            injection hc with hc
            exact hX hc
          rw [ih (clAddEntry cls ((words (strip l)).getD 2 []) (clLineVals (strip l)))]
          rw [clAddEntry_filter_other (fun hh => hX hh.symm)]
          rw [clCapturesFor_cons_nonheader hhd, clAny_cons_nonheader hhd]
      · rw [if_neg h3]
        have hhd : clHeaderName? l ≠ some X := by
          rw [clHeaderName?, if_pos hsw, if_neg h3]
          exact Option.noConfusion
        rw [ih cls, clCapturesFor_cons_nonheader hhd, clAny_cons_nonheader hhd]
    · rw [if_neg hsw]
      have hhd : clHeaderName? l ≠ some X := by
        rw [clHeaderName?, if_neg hsw]
        exact Option.noConfusion
      rw [ih cls, clCapturesFor_cons_nonheader hhd, clAny_cons_nonheader hhd]



theorem words_ip_community_list (r : Str) :
    words (str "ip community-list " ++ r) =
      str "ip" :: str "community-list" :: words r := by
  simp [words, str, wordsAux, isSpaceC]

theorem clLine_split (X A : Str) :
    str "ip community-list " ++ X ++ str " permit " ++ A =
      str "ip community-list " ++
        (X ++ ' ' :: (str "permit" ++ ' ' :: A)) := by
  simp [str, List.append_assoc]

theorem clLine_words {X A : Str} (hX : X ≠ []) (hXs : ∀ c ∈ X, isSpaceC c = false)
    (hA : A ≠ []) (hAs : ∀ c ∈ A, isSpaceC c = false) :
    words (str "ip community-list " ++ X ++ str " permit " ++ A) =
      [str "ip", str "community-list", X, str "permit", A] := by
  rw [clLine_split, words_ip_community_list,
    words_word_cons _ hX hXs,
    words_word_cons _ (by decide) (by decide),
    words_single hA hAs]

theorem clLine_strip {X A : Str} (hX : X ≠ []) (hXs : ∀ c ∈ X, isSpaceC c = false)
    (hA : A ≠ []) (hAs : ∀ c ∈ A, isSpaceC c = false) :
    strip (str "ip community-list " ++ X ++ str " permit " ++ A) =
      str "ip community-list " ++ X ++ str " permit " ++ A := by
  apply strip_eq_self
  · intro c hc
    rw [clLine_split] at hc
    injection hc with hc
    subst hc
    decide
  · intro c hc
    rw [List.getLast?_append_of_ne_nil _ hA] at hc
    have hc' : c ∈ A.getLast? := by rw [Option.mem_def]; exact hc
    obtain ⟨hne, rfl⟩ := List.mem_getLast?_eq_getLast hc'
    exact hAs _ (List.getLast_mem hne)

theorem clLine_header {X A : Str} (hX : X ≠ []) (hXs : ∀ c ∈ X, isSpaceC c = false)
    (hA : A ≠ []) (hAs : ∀ c ∈ A, isSpaceC c = false) :
    clHeaderName? (str "ip community-list " ++ X ++ str " permit " ++ A) =
      some X := by
  rw [clHeaderName?, clLine_strip hX hXs hA hAs]
  have hsw : startsWith (str "ip community-list " ++ X ++ str " permit " ++ A)
      (str "ip community-list ") = true := by
    rw [clLine_split]
    exact startsWith_append_self _ _
  rw [if_pos hsw, clLine_words hX hXs hA hAs]
  rw [if_pos (by simp)]
  rfl

theorem clLine_vals_mem {X A : Str} (hX : X ≠ []) (hXs : ∀ c ∈ X, isSpaceC c = false)
    (hA : A ≠ []) (hAs : ∀ c ∈ A, isSpaceC c = false) :
    A ∈ clLineVals (strip (str "ip community-list " ++ X ++ str " permit " ++ A)) := by
  rw [clLine_strip hX hXs hA hAs]
  have hshape : str "ip community-list " ++ X ++ str " permit " ++ A =
      (str "ip community-list " ++ X ++ [' '] ++ str "permit") ++ (' ' :: A) := by
    simp [str, List.append_assoc]
  have hdropu : ((str "ip community-list " ++ X ++ [' '] ++ str "permit") ++
      (' ' :: A)).drop (str "ip community-list " ++ X ++ [' ']).length =
      str "permit" ++ ' ' :: A := by
    have : (str "ip community-list " ++ X ++ [' '] ++ str "permit") ++ (' ' :: A) =
        (str "ip community-list " ++ X ++ [' ']) ++ (str "permit" ++ ' ' :: A) := by
      simp [List.append_assoc]
    rw [this, List.drop_left]
  have hsw : startsWith (((str "ip community-list " ++ X ++ [' '] ++ str "permit") ++
      (' ' :: A)).drop (str "ip community-list " ++ X ++ [' ']).length)
      (str "permit") = true := by
    rw [hdropu]
    exact startsWith_append_self _ _
  obtain ⟨m, hm, hfind⟩ := findSubIdx_min (by decide) hsw
  rw [clLineVals]
  rw [hshape]
  have hhs : hasSub (str "permit")
      ((str "ip community-list " ++ X ++ [' '] ++ str "permit") ++ (' ' :: A)) = true := by
    rw [hasSub, hfind]
    rfl
  rw [if_pos hhs, hfind]
  have hm6 : m + 6 ≤ (str "ip community-list " ++ X ++ [' '] ++ str "permit").length := by
    have : (str "ip community-list " ++ X ++ [' ']).length + 6 =
        (str "ip community-list " ++ X ++ [' '] ++ str "permit").length := by
      simp [str]
    omega
  simp only [Option.getD_some]
  rw [show str "ip community-list " ++ X ++ [' '] ++ str "permit" ++ ' ' :: A =
      (str "ip community-list " ++ X ++ [' '] ++ str "permit") ++ (' ' :: A) from by
    simp [List.append_assoc]]
  rw [List.drop_append_of_le_length hm6]
  rw [words_strip, words_append_space, words_single hA hAs]
  exact List.mem_append_right _ (List.mem_singleton.mpr rfl)



theorem clCapturesFor_mem {X x : Str} : ∀ {ls : List Str} {i : Nat},
    i < ls.length → clHeaderName? (ls.getD i []) = some X →
    x ∈ clLineVals (strip (ls.getD i [])) → x ∈ clCapturesFor X ls := by
  intro ls
  induction ls with
  | nil => intro i hi; simp at hi
  | cons l rest ih =>
    intro i hi hhd hx
    cases i with
    | zero =>
      rw [List.getD_cons_zero] at hhd hx
      rw [clCapturesFor, if_pos hhd]
      exact List.mem_append_left _ hx
    | succ i' =>
      rw [List.getD_cons_succ] at hhd hx
      rw [clCapturesFor]
      refine List.mem_append_right _ (ih ?_ hhd hx)
      simpa using Nat.lt_of_succ_lt_succ hi

/-- C6: for an input whose normalized lines include, at positions i earlier
than j, the exact lines `ip community-list X permit A` and
`ip community-list X permit B` (X, A, B nonempty whitespace-free tokens),
the returned configuration has exactly one community list named X, its
communities are the concatenation in line order of the values captured from
every `ip community-list X` line (first-appearance order, appended — never
overwritten), and both A and B are among them. -/
theorem C6_community_list_merge {content : Str} {cfg : Config} {X A B : Str}
    {i j : Nat}
    (h : parse_config content = some cfg)
    (hij : i < j) (hjl : j < (normalizeLines content).length)
    (hX : X ≠ []) (hXs : ∀ c ∈ X, isSpaceC c = false)
    (hA : A ≠ []) (hAs : ∀ c ∈ A, isSpaceC c = false)
    (hB : B ≠ []) (hBs : ∀ c ∈ B, isSpaceC c = false)
    (hiL : (normalizeLines content).getD i [] =
      str "ip community-list " ++ X ++ str " permit " ++ A)
    (hjL : (normalizeLines content).getD j [] =
      str "ip community-list " ++ X ++ str " permit " ++ B) :
    (cfg.communityLists.filter (fun cl => cl.name = X)).length = 1 ∧
    ∃ cl ∈ cfg.communityLists, cl.name = X ∧
      cl.communities = clCapturesFor X (normalizeLines content) ∧
      A ∈ cl.communities ∧ B ∈ cl.communities := by
  have hil : i < (normalizeLines content).length := Nat.lt_trans hij hjl
  have hcl : cfg.communityLists = clGo (normalizeLines content) [] := by
    rw [parse_config, parseLines, parse_bgp_section] at h
    exact (bgpSectionGoF_preserves h).2.2.1
  have hhdi : clHeaderName? ((normalizeLines content).getD i []) = some X := by
    rw [hiL]
    exact clLine_header hX hXs hA hAs
  have hany : (normalizeLines content).any
      (fun l => clHeaderName? l == some X) = true := by
    rw [List.any_eq_true]
    refine ⟨(normalizeLines content).getD i [], ?_,
      by rw [hhdi]; exact beq_self_eq_true _⟩
    rw [List.getD_eq_getElem _ _ hil]
    exact List.getElem_mem _
  have hfilter : (clGo (normalizeLines content) []).filter
      (fun cl => cl.name = X) = [⟨X, clCapturesFor X (normalizeLines content)⟩] := by
    rw [clGo_filter]
    simp only [List.filter_nil]
    rw [if_pos hany]
  constructor
  · rw [hcl, hfilter]
    rfl
  · refine ⟨⟨X, clCapturesFor X (normalizeLines content)⟩, ?_, rfl, rfl, ?_, ?_⟩
    · rw [hcl]
      exact List.mem_of_mem_filter (by rw [hfilter]; exact List.mem_singleton.mpr rfl)
    · refine clCapturesFor_mem hil hhdi ?_
      rw [hiL]
      exact clLine_vals_mem hX hXs hA hAs
    · refine clCapturesFor_mem hjl ?_ ?_
      · rw [hjL]
        exact clLine_header hX hXs hB hBs
      · rw [hjL]
        exact clLine_vals_mem hX hXs hB hBs

/-- Witness for C6 on a three-line input with an unrelated line between the
two definitions for list CL. -/
theorem C6_community_list_merge_witness :
    ∃ cfg : Config,
      ((cfg.communityLists.filter
          (fun cl => cl.name = str "CL")).length = 1 ∧
        ∃ cl ∈ cfg.communityLists, cl.name = str "CL" ∧
          cl.communities = clCapturesFor (str "CL")
            (normalizeLines (str "ip community-list CL permit 100:1\nfoo\nip community-list CL permit 100:2")) ∧
          str "100:1" ∈ cl.communities ∧ str "100:2" ∈ cl.communities) :=
  ⟨{ resetConfig with
      communityLists := [⟨str "CL", [str "100:1", str "100:2"]⟩] },
    C6_community_list_merge (i := 0) (j := 2) (by decide) (by decide) (by decide)
    (by decide) (by decide) (by decide) (by decide) (by decide) (by decide)
    (by decide) (by decide)⟩

theorem rmScan_snd_le (ls : List Str) : ∀ (acc : RmAcc),
    (rmScan ls acc).2.length ≤ ls.length := by
  induction ls with
  | nil => intro acc; simp [rmScan]
  | cons l rest ih =>
    intro acc
    rw [rmScan]
    by_cases h1 : (!startsWith l (str " ") && !startsWith l (str "!") &&
        !(strip l).isEmpty && !startsWith (strip l) (str "!")) = true
    · simp [h1]
    · simp only [Bool.not_eq_true] at h1
      simp only [h1, Bool.false_eq_true, if_false]
      by_cases h2 : (!(strip l).isEmpty && !startsWith (strip l) (str "!")) = true
      · simp only [h2, if_pos]
        exact Nat.le_succ_of_le (ih _)
      · simp only [Bool.not_eq_true] at h2
        simp only [h2, Bool.false_eq_true, if_false]
        exact Nat.le_succ_of_le (ih _)

theorem rmScan_through_body {bs : List Str}
    (hbs : ∀ b ∈ bs, rmBreak b = false) :
    ∀ (z : List Str) (acc : RmAcc),
    rmScan (bs ++ z) acc = rmScan z (bs.foldl rmBodyStep acc) := by
  induction bs with
  | nil => intro z acc; rfl
  | cons b rest ih =>
    intro z acc
    have hb : rmBreak b = false := hbs b (List.mem_cons_self b rest)
    rw [rmBreak] at hb
    rw [List.cons_append, rmScan, hb]
    simp only [Bool.false_eq_true, if_false]
    have hrest : ∀ x ∈ rest, rmBreak x = false :=
      fun x hx => hbs x (List.mem_cons_of_mem b hx)
    rw [List.foldl_cons]
    by_cases h2 : (!(strip b).isEmpty && !startsWith (strip b) (str "!")) = true
    · rw [if_pos h2, ih hrest, rmBodyStep, if_pos h2]
    · rw [if_neg h2, ih hrest, rmBodyStep, if_neg h2]

theorem rmScan_at_break {t : Str} {rest : List Str} (ht : rmBreak t = true)
    (acc : RmAcc) : rmScan (t :: rest) acc = (acc, t :: rest) := by
  rw [rmBreak] at ht
  rw [rmScan, ht]
  simp

theorem rmScan_to_end {bs : List Str} (hbs : ∀ b ∈ bs, rmBreak b = false)
    (acc : RmAcc) : rmScan bs acc = (bs.foldl rmBodyStep acc, []) := by
  have := rmScan_through_body hbs [] acc
  rw [List.append_nil] at this
  rw [this, rmScan]

theorem rmOuterF_fuel_irrel : ∀ (n fuel fuel' : Nat) (ls : List Str),
    ls.length ≤ n → ls.length < fuel → ls.length < fuel' →
    rmOuterF fuel ls = rmOuterF fuel' ls := by
  intro n
  induction n with
  | zero =>
    intro fuel fuel' ls hn hf hf'
    have : ls = [] := List.eq_nil_of_length_eq_zero (by omega)
    subst this
    cases fuel with
    | zero => omega
    | succ f =>
      cases fuel' with
      | zero => omega
      | succ f' => rfl
  | succ n ih =>
    intro fuel fuel' ls hn hf hf'
    cases ls with
    | nil =>
      cases fuel with
      | zero => omega
      | succ f =>
        cases fuel' with
        | zero => omega
        | succ f' => rfl
    | cons l rest =>
      cases fuel with
      | zero => omega
      | succ f =>
        cases fuel' with
        | zero => omega
        | succ f' =>
          rw [rmOuterF, rmOuterF]
          simp only [List.length_cons] at hn hf hf'
          by_cases hh : startsWith (strip l) (str "route-map ") = true
          · rw [if_pos hh, if_pos hh]
            by_cases h4 : 4 ≤ (words (strip l)).length
            · rw [if_pos h4, if_pos h4]
              have hle := rmScan_snd_le rest (⟨[], [], [], []⟩ : RmAcc)
              rw [ih f f' (rmScan rest ⟨[], [], [], []⟩).2 (by omega) (by omega)
                (by omega)]
            · rw [if_neg h4, if_neg h4]
              exact ih f f' rest (by omega) (by omega) (by omega)
          · rw [if_neg hh, if_neg hh]
            exact ih f f' rest (by omega) (by omega) (by omega)

theorem rmOuterF_cons (fuel : Nat) (l : Str) (rest : List Str) :
    rmOuterF (fuel + 1) (l :: rest) =
      (if startsWith (strip l) (str "route-map ") then
        if 4 ≤ (words (strip l)).length then
          ⟨(words (strip l)).getD 1 [], (words (strip l)).getD 2 [],
            (words (strip l)).getD 3 [],
            (rmScan rest ⟨[], [], [], []⟩).1.body,
            (rmScan rest ⟨[], [], [], []⟩).1.psets,
            (rmScan rest ⟨[], [], [], []⟩).1.csets,
            (rmScan rest ⟨[], [], [], []⟩).1.asets⟩ ::
          rmOuterF fuel (rmScan rest ⟨[], [], [], []⟩).2
        else rmOuterF fuel rest
      else rmOuterF fuel rest) := rfl

/-- One full route-map extraction step: a header followed by body lines and
a terminating line produces one record, and the outer scan resumes exactly
at the terminating line, which stays available as a potential next header. -/
theorem rmOuter_step {h1 t : Str} {bs rest : List Str}
    (hh : startsWith (strip h1) (str "route-map ") = true)
    (h4 : 4 ≤ (words (strip h1)).length)
    (hbs : ∀ b ∈ bs, rmBreak b = false)
    (ht : rmBreak t = true) :
    rmOuter (h1 :: bs ++ t :: rest) =
      rmRecordOf h1 bs :: rmOuter (t :: rest) := by
  have key : rmOuter (h1 :: bs ++ t :: rest) =
      (if startsWith (strip h1) (str "route-map ") then
        if 4 ≤ (words (strip h1)).length then
          ⟨(words (strip h1)).getD 1 [], (words (strip h1)).getD 2 [],
            (words (strip h1)).getD 3 [],
            (rmScan (bs ++ t :: rest) ⟨[], [], [], []⟩).1.body,
            (rmScan (bs ++ t :: rest) ⟨[], [], [], []⟩).1.psets,
            (rmScan (bs ++ t :: rest) ⟨[], [], [], []⟩).1.csets,
            (rmScan (bs ++ t :: rest) ⟨[], [], [], []⟩).1.asets⟩ ::
          rmOuterF ((h1 :: bs ++ t :: rest).length)
            (rmScan (bs ++ t :: rest) ⟨[], [], [], []⟩).2
        else rmOuterF ((h1 :: bs ++ t :: rest).length) (bs ++ t :: rest)
      else rmOuterF ((h1 :: bs ++ t :: rest).length) (bs ++ t :: rest)) := rfl
  rw [key, if_pos hh, if_pos h4]
  rw [rmScan_through_body hbs (t :: rest) ⟨[], [], [], []⟩, rmScan_at_break ht]
  rw [rmOuter]
  rw [rmOuterF_fuel_irrel ((t :: rest).length) ((h1 :: bs ++ t :: rest).length)
    ((t :: rest).length + 1) (t :: rest) (Nat.le_refl _)
    (by simp [List.length_append]; omega) (by omega)]
  rfl

theorem rmOuterF_nil : ∀ (fuel : Nat), rmOuterF fuel [] = [] := by
  intro fuel
  cases fuel <;> rfl

theorem rmOuter_single {h2 : Str} {bs2 : List Str}
    (hh : startsWith (strip h2) (str "route-map ") = true)
    (h4 : 4 ≤ (words (strip h2)).length)
    (hbs : ∀ b ∈ bs2, rmBreak b = false) :
    rmOuter (h2 :: bs2) = [rmRecordOf h2 bs2] := by
  have key : rmOuter (h2 :: bs2) =
      (if startsWith (strip h2) (str "route-map ") then
        if 4 ≤ (words (strip h2)).length then
          ⟨(words (strip h2)).getD 1 [], (words (strip h2)).getD 2 [],
            (words (strip h2)).getD 3 [],
            (rmScan bs2 ⟨[], [], [], []⟩).1.body,
            (rmScan bs2 ⟨[], [], [], []⟩).1.psets,
            (rmScan bs2 ⟨[], [], [], []⟩).1.csets,
            (rmScan bs2 ⟨[], [], [], []⟩).1.asets⟩ ::
          rmOuterF ((h2 :: bs2).length) (rmScan bs2 ⟨[], [], [], []⟩).2
        else rmOuterF ((h2 :: bs2).length) bs2
      else rmOuterF ((h2 :: bs2).length) bs2) := rfl
  rw [key, if_pos hh, if_pos h4, rmScan_to_end hbs, rmOuterF_nil]
  rfl

/-- C5: the route-map body sub-scan stops at the first unindented,
non-comment, non-blank line; that line is not consumed and is re-examined
by the outer scan, so a route-map header immediately following another
route-map body is itself parsed; each header occurrence yields its own
record (two headers sharing a name with different sequences give two
records, never merged). -/
theorem C5_route_map_body_termination {h1 h2 t : Str}
    {bs bs1 bs2 rest : List Str} {cfg : Config}
    (hh1 : startsWith (strip h1) (str "route-map ") = true)
    (h41 : 4 ≤ (words (strip h1)).length)
    (hbs : ∀ b ∈ bs, rmBreak b = false)
    (ht : rmBreak t = true)
    (hh2 : startsWith (strip h2) (str "route-map ") = true)
    (h42 : 4 ≤ (words (strip h2)).length)
    (hb2 : rmBreak h2 = true)
    (hbs1 : ∀ b ∈ bs1, rmBreak b = false)
    (hbs2 : ∀ b ∈ bs2, rmBreak b = false) :
    (parse_route_maps (h1 :: bs ++ t :: rest) cfg).routeMaps =
      cfg.routeMaps ++ rmRecordOf h1 bs :: rmOuter (t :: rest) ∧
    (parse_route_maps (h1 :: bs1 ++ h2 :: bs2) cfg).routeMaps =
      cfg.routeMaps ++ [rmRecordOf h1 bs1, rmRecordOf h2 bs2] := by
  constructor
  · rw [parse_route_maps, rmOuter_step hh1 h41 hbs ht]
  · rw [parse_route_maps, rmOuter_step hh1 h41 hbs1 hb2,
      rmOuter_single hh2 h42 hbs2]

theorem C5_route_map_body_termination_witness :
    (parse_route_maps (str "route-map RM permit 10" ::
        [str "   match ip address prefix-list FOO"] ++
        str "route-map RM permit 20" ::
        [str "   set local-preference 200"]) resetConfig).routeMaps =
      resetConfig.routeMaps ++
        rmRecordOf (str "route-map RM permit 10")
          [str "   match ip address prefix-list FOO"] ::
        rmOuter (str "route-map RM permit 20" ::
          [str "   set local-preference 200"]) ∧
    (parse_route_maps (str "route-map RM permit 10" ::
        [str "   match ip address prefix-list FOO"] ++
        str "route-map RM permit 20" ::
        [str "   set local-preference 200"]) resetConfig).routeMaps =
      resetConfig.routeMaps ++
        [rmRecordOf (str "route-map RM permit 10")
          [str "   match ip address prefix-list FOO"],
         rmRecordOf (str "route-map RM permit 20")
          [str "   set local-preference 200"]] :=
  @C5_route_map_body_termination (str "route-map RM permit 10")
    (str "route-map RM permit 20") (str "route-map RM permit 20")
    [str "   match ip address prefix-list FOO"]
    [str "   match ip address prefix-list FOO"]
    [str "   set local-preference 200"]
    [str "   set local-preference 200"] resetConfig
    (by decide) (by decide) (by decide) (by decide) (by decide) (by decide)
    (by decide) (by decide) (by decide)

theorem noBom_nil : noBom [] := fun c hc => absurd hc (List.not_mem_nil c)

theorem noBom_sub {s t : Str} (hsub : ∀ c ∈ s, c ∈ t) (h : noBom t) : noBom s :=
  fun c hc => h c (hsub c hc)

theorem noBom_append {s t : Str} (hs : noBom s) (ht : noBom t) :
    noBom (s ++ t) := by
  intro c hc
  rcases List.mem_append.mp hc with h | h
  · exact hs c h
  · exact ht c h

theorem mem_rstrip {c : Char} {s : Str} (h : c ∈ rstrip s) : c ∈ s := by
  rw [rstrip, List.mem_reverse] at h
  exact List.mem_reverse.mp ((List.dropWhile_sublist _).subset h)

theorem mem_lstrip {c : Char} {s : Str} (h : c ∈ lstrip s) : c ∈ s :=
  (List.dropWhile_sublist _).subset h

theorem mem_strip {c : Char} {s : Str} (h : c ∈ strip s) : c ∈ s :=
  mem_rstrip (mem_lstrip h)

theorem noBom_rstrip {s : Str} (h : noBom s) : noBom (rstrip s) :=
  noBom_sub (fun _ hc => mem_rstrip hc) h

theorem noBom_lstrip {s : Str} (h : noBom s) : noBom (lstrip s) :=
  noBom_sub (fun _ hc => mem_lstrip hc) h

theorem noBom_strip {s : Str} (h : noBom s) : noBom (strip s) :=
  noBom_sub (fun _ hc => mem_strip hc) h

theorem noBom_take {s : Str} (n : Nat) (h : noBom s) : noBom (s.take n) :=
  noBom_sub (fun _ hc => (List.take_sublist _ _).subset hc) h

theorem noBom_drop {s : Str} (n : Nat) (h : noBom s) : noBom (s.drop n) :=
  noBom_sub (fun _ hc => (List.drop_sublist _ _).subset hc) h

theorem noBom_takeWhile {s : Str} (p : Char → Bool) (h : noBom s) :
    noBom (s.takeWhile p) :=
  noBom_sub (fun _ hc => (List.takeWhile_sublist _).subset hc) h

theorem noBom_dropWhile {s : Str} (p : Char → Bool) (h : noBom s) :
    noBom (s.dropWhile p) :=
  noBom_sub (fun _ hc => (List.dropWhile_sublist _).subset hc) h

theorem mem_wordsAux {x : Char} : ∀ (s acc : Str) (w : Str),
    w ∈ wordsAux s acc → x ∈ w → x ∈ s ∨ x ∈ acc := by
  intro s
  induction s with
  | nil =>
    intro acc w hw hx
    rw [wordsAux] at hw
    by_cases ha : acc.isEmpty = true
    · rw [if_pos ha] at hw
      exact absurd hw (List.not_mem_nil w)
    · rw [if_neg ha] at hw
      rcases List.mem_singleton.mp hw with rfl
      exact Or.inr (List.mem_reverse.mp hx)
  | cons c r ih =>
    intro acc w hw hx
    rw [wordsAux] at hw
    by_cases hc : isSpaceC c = true
    · rw [if_pos hc] at hw
      by_cases ha : acc.isEmpty = true
      · rw [if_pos ha] at hw
        rcases ih [] w hw hx with h | h
        · exact Or.inl (List.mem_cons_of_mem c h)
        · exact absurd h (List.not_mem_nil x)
      · rw [if_neg ha] at hw
        rcases List.mem_cons.mp hw with rfl | hw2
        · exact Or.inr (List.mem_reverse.mp hx)
        · rcases ih [] w hw2 hx with h | h
          · exact Or.inl (List.mem_cons_of_mem c h)
          · exact absurd h (List.not_mem_nil x)
    · rw [if_neg hc] at hw
      rcases ih (c :: acc) w hw hx with h | h
      · exact Or.inl (List.mem_cons_of_mem c h)
      · rcases List.mem_cons.mp h with rfl | h2
        · exact Or.inl (List.mem_cons_self x r)
        · exact Or.inr h2

theorem mem_words {w s : Str} (hw : w ∈ words s) {x : Char} (hx : x ∈ w) :
    x ∈ s := by
  rcases mem_wordsAux s [] w hw hx with h | h
  · exact h
  · exact absurd h (List.not_mem_nil x)

theorem noBom_words {s : Str} (h : noBom s) : noBomL (words s) :=
  fun w hw => noBom_sub (fun _ hc => mem_words hw hc) h

theorem noBomL_getD {xs : List Str} (k : Nat) (h : noBomL xs) :
    noBom (xs.getD k []) := by
  rw [List.getD_eq_getElem?_getD]
  cases hx : xs[k]? with
  | none => exact noBom_nil
  | some w =>
    simp only [Option.getD_some]
    exact h w (List.getElem?_mem hx)

theorem noBom_getLastD {d : Str} : ∀ (xs : List Str), noBomL xs → noBom d →
    noBom (xs.getLastD d) := by
  intro xs
  induction xs generalizing d with
  | nil => intro _ hd; exact hd
  | cons a l ih =>
    intro h hd
    rw [List.getLastD_cons]
    exact ih (fun w hw => h w (List.mem_cons_of_mem a hw))
      (h a (List.mem_cons_self a l))

theorem noBom_lastTok {xs : List Str} (h : noBomL xs) : noBom (lastTok xs) :=
  noBom_getLastD xs h noBom_nil

theorem mem_intersperse {sp : Str} : ∀ (ws : List Str) {l : Str},
    l ∈ List.intersperse sp ws → l = sp ∨ l ∈ ws
  | [], l, h => absurd h (List.not_mem_nil l)
  | [a], l, h => by
    rw [List.intersperse_singleton] at h
    exact Or.inr h
  | a :: b :: t, l, h => by
    rw [List.intersperse_cons₂] at h
    rcases List.mem_cons.mp h with rfl | h2
    · exact Or.inr (List.mem_cons_self l (b :: t))
    · rcases List.mem_cons.mp h2 with rfl | h3
      · exact Or.inl rfl
      · rcases mem_intersperse (b :: t) h3 with h4 | h4
        · exact Or.inl h4
        · exact Or.inr (List.mem_cons_of_mem a h4)

theorem noBom_joinSpace {ws : List Str} (h : noBomL ws) :
    noBom (joinSpace ws) := by
  intro c hc
  rw [joinSpace, List.intercalate] at hc
  rcases List.mem_join.mp hc with ⟨l, hl, hcl⟩
  rcases mem_intersperse ws hl with rfl | hlw
  · rcases List.mem_singleton.mp hcl with rfl
    decide
  · exact h l hlw c hcl

theorem noBomL_sublistStrs {xs ys : List Str} (hsub : ∀ x ∈ xs, x ∈ ys)
    (h : noBomL ys) : noBomL xs :=
  fun s hs => h s (hsub s hs)



theorem mem_pySplitSubF {sep : Str} : ∀ (fuel : Nat) (s p : Str),
    p ∈ pySplitSubF sep fuel s → ∀ c ∈ p, c ∈ s := by
  intro fuel
  induction fuel with
  | zero =>
    intro s p hp c hc
    rcases List.mem_singleton.mp hp with rfl
    exact hc
  | succ fuel ih =>
    intro s p hp c hc
    rw [pySplitSubF] at hp
    by_cases he : sep.isEmpty = true
    · rw [if_pos he] at hp
      rcases List.mem_singleton.mp hp with rfl
      exact hc
    · rw [if_neg he] at hp
      cases hf : findSubIdx sep s with
      | none =>
        rw [hf] at hp
        rcases List.mem_singleton.mp hp with rfl
        exact hc
      | some k =>
        rw [hf] at hp
        rcases List.mem_cons.mp hp with rfl | hp2
        · exact (List.take_sublist _ _).subset hc
        · exact (List.drop_sublist _ _).subset (ih _ p hp2 c hc)

theorem noBom_pySplitSub_getD {sep s : Str} (k : Nat) (h : noBom s) :
    noBom ((pySplitSub sep s).getD k []) := by
  rw [List.getD_eq_getElem?_getD]
  cases hx : (pySplitSub sep s)[k]? with
  | none => exact noBom_nil
  | some p =>
    simp only [Option.getD_some]
    exact noBom_sub
      (fun c hc => mem_pySplitSubF _ s p (List.getElem?_mem hx) c hc) h

theorem mem_afterLit {lit s : Str} {c : Char} (h : c ∈ afterLit lit s) :
    c ∈ s :=
  (List.drop_sublist _ _).subset ((List.dropWhile_sublist _).subset h)

theorem mem_findallCapturesF {lit : Str} : ∀ (fuel : Nat) (s w : Str),
    w ∈ findallCapturesF lit fuel s → ∀ c ∈ w, c ∈ s := by
  intro fuel
  induction fuel with
  | zero =>
    intro s w hw
    exact absurd hw (List.not_mem_nil w)
  | succ fuel ih =>
    intro s w hw c hc
    cases s with
    | nil =>
      rw [findallCapturesF] at hw
      exact absurd hw (List.not_mem_nil w)
    | cons x rest =>
      rw [findallCapturesF] at hw
      by_cases h1 : startsWith (x :: rest) lit = true
      · rw [if_pos h1] at hw
        by_cases h2 : ((x :: rest).drop lit.length).takeWhile isSpaceC ≠ [] ∧
            (afterLit lit (x :: rest)).takeWhile isWordChar ≠ []
        · rw [if_pos h2] at hw
          rcases List.mem_cons.mp hw with rfl | hw2
          · exact mem_afterLit ((List.takeWhile_sublist _).subset hc)
          · exact mem_afterLit
              ((List.dropWhile_sublist _).subset (ih _ w hw2 c hc))
        · rw [if_neg h2] at hw
          exact List.mem_cons_of_mem x (ih rest w hw c hc)
      · rw [if_neg h1] at hw
        exact List.mem_cons_of_mem x (ih rest w hw c hc)

theorem noBomL_findallCaptures {lit s : Str} (h : noBom s) :
    noBomL (findallCaptures lit s) :=
  fun w hw =>
    noBom_sub (fun c hc => mem_findallCapturesF _ s w hw c hc) h

theorem mem_splitOnChar {ch : Char} : ∀ (s l : Str),
    l ∈ splitOnChar ch s → ∀ c ∈ l, c ∈ s := by
  intro s
  induction s with
  | nil =>
    intro l hl c hc
    rcases List.mem_singleton.mp hl with rfl
    exact absurd hc (List.not_mem_nil c)
  | cons x r ih =>
    intro l hl c hc
    rw [splitOnChar] at hl
    by_cases hx : x = ch
    · rw [if_pos hx] at hl
      rcases List.mem_cons.mp hl with rfl | hl2
      · exact absurd hc (List.not_mem_nil c)
      · exact List.mem_cons_of_mem x (ih l hl2 c hc)
    · rw [if_neg hx] at hl
      cases hs : splitOnChar ch r with
      | nil =>
        rw [hs] at hl
        rcases List.mem_singleton.mp hl with rfl
        rcases List.mem_singleton.mp hc with rfl
        exact List.mem_cons_self c r
      | cons h2 t2 =>
        rw [hs] at hl
        rcases List.mem_cons.mp hl with rfl | hl2
        · rcases List.mem_cons.mp hc with rfl | hc2
          · exact List.mem_cons_self c r
          · exact List.mem_cons_of_mem x
              (ih h2 (hs ▸ List.mem_cons_self h2 t2) c hc2)
        · exact List.mem_cons_of_mem x
            (ih l (hs ▸ List.mem_cons_of_mem h2 hl2) c hc)

/-- Every line produced by the normalizer is free of byte-order marks. -/
theorem normalizeLines_noBom (content : Str) :
    noBomL (normalizeLines content) := by
  intro l hl c hc
  rw [normalizeLines] at hl
  rcases List.mem_filter.mp hl with ⟨hl2, _⟩
  rcases List.mem_map.mp hl2 with ⟨l0, hl0, rfl⟩
  have hcc : c ∈ content.filter (fun c => c ≠ bomChar) :=
    mem_splitOnChar _ l0 hl0 c (mem_rstrip hc)
  rcases List.mem_filter.mp hcc with ⟨_, hne⟩
  exact of_decide_eq_true hne

/-- Normalization is invariant under first deleting every byte-order mark:
the removal step erases all occurrences, wherever they occur. -/
theorem normalizeLines_filter_bom (content : Str) :
    normalizeLines content =
      normalizeLines (content.filter (fun c => c ≠ bomChar)) := by
  rw [normalizeLines, normalizeLines, List.filter_filter]
  have : (fun c => decide (c ≠ bomChar) && decide (c ≠ bomChar)) =
      (fun c : Char => decide (c ≠ bomChar)) := by
    funext c
    cases decide (c ≠ bomChar) <;> rfl
  rw [this]



theorem noBomL_nil : noBomL [] := fun s hs => absurd hs (List.not_mem_nil s)

theorem plAppend_noBom {name e : Str} : ∀ (m : List (Str × List Str)),
    (∀ p ∈ m, plNoBom p) → noBom e → ∀ p ∈ plAppend m name e, plNoBom p := by
  intro m
  induction m with
  | nil =>
    intro _ _ p hp
    exact absurd hp (List.not_mem_nil p)
  | cons q rest ih =>
    intro hm he p hp
    rw [plAppend] at hp
    by_cases hq : q.1 = name
    · rw [if_pos hq] at hp
      rcases List.mem_cons.mp hp with rfl | hp2
      · have hq0 := hm q (List.mem_cons_self q rest)
        exact ⟨hq0.1, fun s hs => by
          rcases List.mem_append.mp hs with h | h
          · exact hq0.2 s h
          · rcases List.mem_singleton.mp h with rfl
            exact he⟩
      · exact hm p (List.mem_cons_of_mem q hp2)
    · rw [if_neg hq] at hp
      rcases List.mem_cons.mp hp with heq | hp2
      · rw [heq]
        exact hm q (List.mem_cons_self q rest)
      · exact ih (fun x hx => hm x (List.mem_cons_of_mem q hx)) he p hp2

theorem plEnsure_noBom {name : Str} {m : List (Str × List Str)}
    (hm : ∀ p ∈ m, plNoBom p) (hname : noBom name) :
    ∀ p ∈ plEnsure m name, plNoBom p := by
  intro p hp
  rw [plEnsure] at hp
  by_cases ha : m.any (fun p => p.1 = name) = true
  · rw [if_pos ha] at hp
    exact hm p hp
  · rw [if_neg ha] at hp
    rcases List.mem_append.mp hp with h | h
    · exact hm p h
    · rcases List.mem_singleton.mp h with rfl
      exact ⟨hname, noBomL_nil⟩

theorem plInner_noBom {name : Str} : ∀ (ls : List Str) (m : List (Str × List Str)),
    noBomL ls → (∀ p ∈ m, plNoBom p) →
    (∀ p ∈ (plInner name ls m).1, plNoBom p) ∧
    (∀ x ∈ (plInner name ls m).2, x ∈ ls) := by
  intro ls
  induction ls with
  | nil =>
    intro m _ hm
    exact ⟨hm, fun x hx => absurd hx (List.not_mem_nil x)⟩
  | cons l rest ih =>
    intro m hls hm
    have hrest : noBomL rest := fun s hs => hls s (List.mem_cons_of_mem l hs)
    have hl : noBom l := hls l (List.mem_cons_self l rest)
    rw [plInner]
    by_cases h1 : (startsWith (strip l) (str "seq ") &&
        (hasSub (str "permit") (strip l) || hasSub (str "deny") (strip l))) = true
    · rw [if_pos h1]
      simp only []
      have hm' : ∀ p ∈ (if 4 ≤ (words (strip l)).length then
          plAppend m name (joinSpace ((words (strip l)).drop 2)) else m),
          plNoBom p := by
        by_cases h2 : 4 ≤ (words (strip l)).length
        · rw [if_pos h2]
          exact plAppend_noBom m hm
            (noBom_joinSpace (noBomL_sublistStrs
              (fun x hx => (List.drop_sublist _ _).subset hx)
              (noBom_words (noBom_strip hl))))
        · rw [if_neg h2]
          exact hm
      rcases ih _ hrest hm' with ⟨ha, hb⟩
      exact ⟨ha, fun x hx => List.mem_cons_of_mem l (hb x hx)⟩
    · rw [if_neg h1]
      by_cases h2 : (startsWith (strip l) (str "ip prefix-list ") ||
          startsWith (strip l) (str "!") || (strip l).isEmpty) = true
      · rw [if_pos h2]
        exact ⟨hm, fun x hx => hx⟩
      · rw [if_neg h2]
        rcases ih m hrest hm with ⟨ha, hb⟩
        exact ⟨ha, fun x hx => List.mem_cons_of_mem l (hb x hx)⟩

theorem plGoF_noBom : ∀ (fuel : Nat) (ls : List Str) (m : List (Str × List Str)),
    noBomL ls → (∀ p ∈ m, plNoBom p) → ∀ p ∈ plGoF fuel ls m, plNoBom p := by
  intro fuel
  induction fuel with
  | zero => intro ls m _ hm; exact hm
  | succ fuel ih =>
    intro ls m hls hm
    cases ls with
    | nil => exact hm
    | cons l rest =>
      have hrest : noBomL rest := fun s hs => hls s (List.mem_cons_of_mem l hs)
      have hl : noBom l := hls l (List.mem_cons_self l rest)
      rw [plGoF]
      by_cases h1 : startsWith (strip l) (str "ip prefix-list ") = true
      · rw [if_pos h1]
        by_cases h2 : 3 ≤ (words (strip l)).length
        · rw [if_pos h2]
          have hname : noBom ((words (strip l)).getD 2 []) :=
            noBomL_getD 2 (noBom_words (noBom_strip hl))
          have hens := plEnsure_noBom hm hname
          rcases plInner_noBom rest _ hrest hens with ⟨ha, hb⟩
          exact ih _ _ (fun s hs => hrest s (hb s hs)) ha
        · rw [if_neg h2]
          exact ih _ _ hrest hm
      · rw [if_neg h1]
        exact ih _ _ hrest hm

theorem clAddEntry_noBom {name : Str} {vals : List Str} :
    ∀ (cls : List CommunityList), (∀ cl ∈ cls, clNoBom cl) → noBom name →
    noBomL vals → ∀ cl ∈ clAddEntry cls name vals, clNoBom cl := by
  intro cls
  induction cls with
  | nil =>
    intro _ hname hvals cl hcl
    rcases List.mem_singleton.mp hcl with rfl
    exact ⟨hname, hvals⟩
  | cons q rest ih =>
    intro hm hname hvals cl hcl
    rw [clAddEntry] at hcl
    by_cases hq : q.name = name
    · rw [if_pos hq] at hcl
      rcases List.mem_cons.mp hcl with rfl | hcl2
      · have hq0 := hm q (List.mem_cons_self q rest)
        exact ⟨hq0.1, fun s hs => by
          rcases List.mem_append.mp hs with h | h
          · exact hq0.2 s h
          · exact hvals s h⟩
      · exact hm cl (List.mem_cons_of_mem q hcl2)
    · rw [if_neg hq] at hcl
      rcases List.mem_cons.mp hcl with heq | hcl2
      · rw [heq]
        exact hm q (List.mem_cons_self q rest)
      · exact ih (fun x hx => hm x (List.mem_cons_of_mem q hx)) hname hvals
          cl hcl2

theorem clLineVals_noBom {t : Str} (h : noBom t) : noBomL (clLineVals t) := by
  rw [clLineVals]
  by_cases hp : hasSub (str "permit") t = true
  · rw [if_pos hp]
    exact noBom_words (noBom_strip (noBom_drop _ h))
  · rw [if_neg hp]
    exact noBomL_nil

theorem clGo_noBom : ∀ (ls : List Str) (cls : List CommunityList),
    noBomL ls → (∀ cl ∈ cls, clNoBom cl) → ∀ cl ∈ clGo ls cls, clNoBom cl := by
  intro ls
  induction ls with
  | nil => intro cls _ hm; exact hm
  | cons l rest ih =>
    intro cls hls hm
    have hrest : noBomL rest := fun s hs => hls s (List.mem_cons_of_mem l hs)
    have hl : noBom l := hls l (List.mem_cons_self l rest)
    rw [clGo]
    by_cases h1 : startsWith (strip l) (str "ip community-list ") = true
    · rw [if_pos h1]
      by_cases h2 : 3 ≤ (words (strip l)).length
      · rw [if_pos h2]
        exact ih _ hrest (clAddEntry_noBom cls hm
          (noBomL_getD 2 (noBom_words (noBom_strip hl)))
          (clLineVals_noBom (noBom_strip hl)))
      · rw [if_neg h2]
        exact ih _ hrest hm
    · rw [if_neg h1]
      exact ih _ hrest hm

theorem alInner_noBom : ∀ (ls es : List Str), noBomL ls → noBomL es →
    noBomL (alInner ls es).1 ∧ (∀ x ∈ (alInner ls es).2, x ∈ ls) := by
  intro ls
  induction ls with
  | nil =>
    intro es _ hes
    exact ⟨hes, fun x hx => absurd hx (List.not_mem_nil x)⟩
  | cons l rest ih =>
    intro es hls hes
    have hrest : noBomL rest := fun s hs => hls s (List.mem_cons_of_mem l hs)
    have hl : noBom l := hls l (List.mem_cons_self l rest)
    rw [alInner]
    by_cases h1 : (startsWith (strip l) (str "!") || (strip l).isEmpty) = true
    · rw [if_pos h1]
      exact ⟨hes, fun x hx => List.mem_cons_of_mem l hx⟩
    · rw [if_neg h1]
      by_cases h2 : (!startsWith (strip l) (str "ip access-list")) = true
      · rw [if_pos h2]
        have hes' : noBomL (es ++ [strip l]) := by
          intro s hs
          rcases List.mem_append.mp hs with h | h
          · exact hes s h
          · rcases List.mem_singleton.mp h with rfl
            exact noBom_strip hl
        rcases ih _ hrest hes' with ⟨ha, hb⟩
        exact ⟨ha, fun x hx => List.mem_cons_of_mem l (hb x hx)⟩
      · rw [if_neg h2]
        exact ⟨hes, fun x hx => hx⟩

theorem alGoF_noBom : ∀ (fuel : Nat) (ls : List Str) (als : List AccessList),
    noBomL ls → (∀ al ∈ als, alNoBom al) → ∀ al ∈ alGoF fuel ls als,
    alNoBom al := by
  intro fuel
  induction fuel with
  | zero => intro ls als _ hm; exact hm
  | succ fuel ih =>
    intro ls als hls hm
    cases ls with
    | nil => exact hm
    | cons l rest =>
      have hrest : noBomL rest := fun s hs => hls s (List.mem_cons_of_mem l hs)
      have hl : noBom l := hls l (List.mem_cons_self l rest)
      rw [alGoF]
      by_cases h1 : startsWith (strip l) (str "ip access-list ") = true
      · rw [if_pos h1]
        by_cases h2 : 3 ≤ (words (strip l)).length
        · rw [if_pos h2]
          rcases alInner_noBom rest [] hrest noBomL_nil with ⟨ha, hb⟩
          refine ih _ _ (fun s hs => hrest s (hb s hs)) ?_
          intro al hal
          rcases List.mem_append.mp hal with h | h
          · exact hm al h
          · rcases List.mem_singleton.mp h with rfl
            exact ⟨noBomL_getD 2 (noBom_words (noBom_strip hl)), ha⟩
        · rw [if_neg h2]
          exact ih _ _ hrest hm
      · rw [if_neg h1]
        exact ih _ _ hrest hm

theorem apsAdd_noBom {name pat : Str} : ∀ (sets : List AsPathSet),
    (∀ a ∈ sets, apsNoBom a) → noBom name → noBom pat →
    ∀ a ∈ apsAdd sets name pat, apsNoBom a := by
  intro sets
  induction sets with
  | nil =>
    intro _ hname hpat a ha
    rcases List.mem_singleton.mp ha with rfl
    exact ⟨hname, fun s hs => by
      rcases List.mem_singleton.mp hs with rfl
      exact hpat⟩
  | cons q rest ih =>
    intro hm hname hpat a ha
    rw [apsAdd] at ha
    by_cases hq : q.name = name
    · rw [if_pos hq] at ha
      rcases List.mem_cons.mp ha with rfl | ha2
      · have hq0 := hm q (List.mem_cons_self q rest)
        exact ⟨hq0.1, fun s hs => by
          rcases List.mem_append.mp hs with h | h
          · exact hq0.2 s h
          · rcases List.mem_singleton.mp h with rfl
            exact hpat⟩
      · exact hm a (List.mem_cons_of_mem q ha2)
    · rw [if_neg hq] at ha
      rcases List.mem_cons.mp ha with heq | ha2
      · rw [heq]
        exact hm q (List.mem_cons_self q rest)
      · exact ih (fun x hx => hm x (List.mem_cons_of_mem q hx)) hname hpat a ha2

theorem apsGo_noBom : ∀ (ls : List Str) (sets : List AsPathSet),
    noBomL ls → (∀ a ∈ sets, apsNoBom a) → ∀ a ∈ apsGo ls sets,
    apsNoBom a := by
  intro ls
  induction ls with
  | nil => intro sets _ hm; exact hm
  | cons l rest ih =>
    intro sets hls hm
    have hrest : noBomL rest := fun s hs => hls s (List.mem_cons_of_mem l hs)
    have hl : noBom l := hls l (List.mem_cons_self l rest)
    rw [apsGo]
    by_cases h1 : startsWith (strip l) (str "ip as-path access-list ") = true
    · rw [if_pos h1]
      by_cases h2 : 6 ≤ (words (strip l)).length
      · rw [if_pos h2]
        exact ih _ hrest (apsAdd_noBom sets hm
          (noBomL_getD 3 (noBom_words (noBom_strip hl)))
          (noBom_joinSpace (noBomL_sublistStrs
            (fun x hx => (List.drop_sublist _ _).subset hx)
            (noBom_words (noBom_strip hl)))))
      · rw [if_neg h2]
        exact ih _ hrest hm
    · rw [if_neg h1]
      exact ih _ hrest hm



theorem addUniq_noBom {s : List Str} {x : Str} (hs : noBomL s) (hx : noBom x) :
    noBomL (addUniq s x) := by
  rw [addUniq]
  by_cases hm : x ∈ s
  · rw [if_pos hm]
    exact hs
  · rw [if_neg hm]
    intro w hw
    rcases List.mem_append.mp hw with h | h
    · exact hs w h
    · rcases List.mem_singleton.mp h with rfl
      exact hx

theorem addUniqAll_noBom : ∀ (xs s : List Str), noBomL s → noBomL xs →
    noBomL (addUniqAll s xs) := by
  intro xs
  induction xs with
  | nil => intro s hs _; exact hs
  | cons x r ih =>
    intro s hs hxs
    rw [addUniqAll, List.foldl_cons]
    exact ih _ (addUniq_noBom hs (hxs x (List.mem_cons_self x r)))
      (fun w hw => hxs w (List.mem_cons_of_mem x hw))

theorem rmAddLine_noBom {acc : RmAcc} {l : Str} (ha : rmAccNoBom acc)
    (hl : noBom l) : rmAccNoBom (rmAddLine acc l) := by
  refine ⟨?_, ?_, ?_, ?_⟩
  · show noBomL (acc.body ++ [l])
    intro s hs
    rcases List.mem_append.mp hs with h | h
    · exact ha.1 s h
    · rcases List.mem_singleton.mp h with rfl
      exact hl
  · show noBomL (if hasSub (str "prefix-list") (strip l) = true then
      addUniqAll acc.psets (findallCaptures (str "prefix-list") (strip l))
      else acc.psets)
    by_cases h : hasSub (str "prefix-list") (strip l) = true
    · rw [if_pos h]
      exact addUniqAll_noBom _ _ ha.2.1 (noBomL_findallCaptures (noBom_strip hl))
    · rw [if_neg h]
      exact ha.2.1
  · show noBomL (if hasSub (str "community-list") (strip l) = true then
      addUniqAll acc.csets (findallCaptures (str "community-list") (strip l))
      else acc.csets)
    by_cases h : hasSub (str "community-list") (strip l) = true
    · rw [if_pos h]
      exact addUniqAll_noBom _ _ ha.2.2.1
        (noBomL_findallCaptures (noBom_strip hl))
    · rw [if_neg h]
      exact ha.2.2.1
  · show noBomL (if hasSub (str "as-path") (strip l) = true then
      addUniqAll acc.asets (findallCaptures (str "as-path") (strip l))
      else acc.asets)
    by_cases h : hasSub (str "as-path") (strip l) = true
    · rw [if_pos h]
      exact addUniqAll_noBom _ _ ha.2.2.2
        (noBomL_findallCaptures (noBom_strip hl))
    · rw [if_neg h]
      exact ha.2.2.2

theorem rmScan_noBom : ∀ (ls : List Str) (acc : RmAcc), noBomL ls →
    rmAccNoBom acc →
    rmAccNoBom (rmScan ls acc).1 ∧ (∀ x ∈ (rmScan ls acc).2, x ∈ ls) := by
  intro ls
  induction ls with
  | nil =>
    intro acc _ ha
    exact ⟨ha, fun x hx => absurd hx (List.not_mem_nil x)⟩
  | cons l rest ih =>
    intro acc hls ha
    have hrest : noBomL rest := fun s hs => hls s (List.mem_cons_of_mem l hs)
    have hl : noBom l := hls l (List.mem_cons_self l rest)
    rw [rmScan]
    by_cases h1 : (!startsWith l (str " ") && !startsWith l (str "!") &&
        !(strip l).isEmpty && !startsWith (strip l) (str "!")) = true
    · rw [if_pos h1]
      exact ⟨ha, fun x hx => hx⟩
    · rw [if_neg h1]
      by_cases h2 : (!(strip l).isEmpty && !startsWith (strip l) (str "!")) = true
      · rw [if_pos h2]
        rcases ih _ hrest (rmAddLine_noBom ha hl) with ⟨hx, hy⟩
        exact ⟨hx, fun x hxm => List.mem_cons_of_mem l (hy x hxm)⟩
      · rw [if_neg h2]
        rcases ih _ hrest ha with ⟨hx, hy⟩
        exact ⟨hx, fun x hxm => List.mem_cons_of_mem l (hy x hxm)⟩

theorem rmAccNoBom_init : rmAccNoBom ⟨[], [], [], []⟩ :=
  ⟨noBomL_nil, noBomL_nil, noBomL_nil, noBomL_nil⟩

theorem rmOuterF_noBom : ∀ (fuel : Nat) (ls : List Str), noBomL ls →
    ∀ r ∈ rmOuterF fuel ls, rmNoBom r := by
  intro fuel
  induction fuel with
  | zero =>
    intro ls _ r hr
    exact absurd hr (List.not_mem_nil r)
  | succ fuel ih =>
    intro ls hls r hr
    cases ls with
    | nil =>
      exact absurd hr (List.not_mem_nil r)
    | cons l rest =>
      have hrest : noBomL rest := fun s hs => hls s (List.mem_cons_of_mem l hs)
      have hl : noBom l := hls l (List.mem_cons_self l rest)
      rw [rmOuterF] at hr
      by_cases h1 : startsWith (strip l) (str "route-map ") = true
      · rw [if_pos h1] at hr
        by_cases h2 : 4 ≤ (words (strip l)).length
        · rw [if_pos h2] at hr
          rcases rmScan_noBom rest ⟨[], [], [], []⟩ hrest rmAccNoBom_init
            with ⟨hacc, hsub⟩
          rcases List.mem_cons.mp hr with heq | hr2
          · rw [heq]
            have hw := noBom_words (noBom_strip hl)
            exact ⟨noBomL_getD 1 hw, noBomL_getD 2 hw, noBomL_getD 3 hw,
              hacc.1, hacc.2.1, hacc.2.2.1, hacc.2.2.2⟩
          · exact ih _ (fun s hs => hrest s (hsub s hs)) r hr2
        · rw [if_neg h2] at hr
          exact ih _ hrest r hr
      · rw [if_neg h1] at hr
        exact ih _ hrest r hr



theorem noBomO_none : noBomO none := fun c hc => absurd hc (List.not_mem_nil c)

theorem noBomO_some {s : Str} (h : noBom s) : noBomO (some s) := h

theorem nbNoBom_addConfig {nb : Neighbor} {cp : Str} (h : nbNoBom nb)
    (hcp : noBom cp) : nbNoBom { nb with configs := nb.configs ++ [cp] } := by
  refine ⟨h.1, h.2.1, h.2.2.1, ?_, h.2.2.2.2.1, h.2.2.2.2.2.1, h.2.2.2.2.2.2.1,
    h.2.2.2.2.2.2.2.1, h.2.2.2.2.2.2.2.2.1, h.2.2.2.2.2.2.2.2.2⟩
  intro s hs
  rcases List.mem_append.mp hs with hx | hx
  · exact h.2.2.2.1 s hx
  · rcases List.mem_singleton.mp hx with rfl
    exact hcp

theorem applyNbConfig_noBom {nb : Neighbor} {cp : Str} (h : nbNoBom nb)
    (hcp : noBom cp) : nbNoBom (applyNbConfig nb cp) := by
  rcases h with ⟨hip, hras, hdesc, hcfgs, hpg, hin, hout, hdo, hdorm, hvrf⟩
  refine nbNoBom_addConfig ?_ hcp
  by_cases h1 : startsWith cp (str "remote-as ") = true
  · rw [if_pos h1]
    exact ⟨hip, noBom_lastTok (noBom_words hcp), hdesc, hcfgs, hpg, hin, hout,
      hdo, hdorm, hvrf⟩
  · rw [if_neg h1]
    by_cases h2 : startsWith cp (str "peer group ") = true
    · rw [if_pos h2]
      exact ⟨hip, hras, hdesc, hcfgs,
        noBomO_some (noBom_lastTok (noBom_words hcp)), hin, hout, hdo, hdorm,
        hvrf⟩
    · rw [if_neg h2]
      by_cases h3 : startsWith cp (str "description ") = true
      · rw [if_pos h3]
        refine ⟨hip, hras, ?_, hcfgs, hpg, hin, hout, hdo, hdorm, hvrf⟩
        show noBom (if hasSub (str "\"") cp = true then
          (pySplitSub (str "\"") cp).getD 1 []
          else joinSpace ((words cp).drop 1))
        by_cases h4 : hasSub (str "\"") cp = true
        · rw [if_pos h4]
          exact noBom_pySplitSub_getD 1 hcp
        · rw [if_neg h4]
          exact noBom_joinSpace (noBomL_sublistStrs
            (fun x hx => (List.drop_sublist _ _).subset hx)
            (noBom_words hcp))
      · rw [if_neg h3]
        by_cases h5 : (hasSub (str "route-map ") cp && hasSub (str " in") cp)
            = true
        · rw [if_pos h5]
          exact ⟨hip, hras, hdesc, hcfgs, hpg,
            noBomO_some (noBom_pySplitSub_getD 0 (noBom_pySplitSub_getD 1 hcp)),
            hout, hdo, hdorm, hvrf⟩
        · rw [if_neg h5]
          by_cases h6 : (hasSub (str "route-map ") cp &&
              hasSub (str " out") cp) = true
          · rw [if_pos h6]
            exact ⟨hip, hras, hdesc, hcfgs, hpg, hin,
              noBomO_some (noBom_pySplitSub_getD 0
                (noBom_pySplitSub_getD 1 hcp)),
              hdo, hdorm, hvrf⟩
          · rw [if_neg h6]
            by_cases h7 : startsWith cp (str "default-originate") = true
            · rw [if_pos h7]
              by_cases h8 : hasSub (str "route-map ") cp = true
              · rw [if_pos h8]
                exact ⟨hip, hras, hdesc, hcfgs, hpg, hin, hout,
                  noBomO_some hcp,
                  noBomO_some (noBom_strip (noBom_pySplitSub_getD 1 hcp)),
                  hvrf⟩
              · rw [if_neg h8]
                exact ⟨hip, hras, hdesc, hcfgs, hpg, hin, hout,
                  noBomO_some hcp, hdorm, hvrf⟩
            · rw [if_neg h7]
              exact ⟨hip, hras, hdesc, hcfgs, hpg, hin, hout, hdo, hdorm, hvrf⟩

theorem pgNoBom_addConfig {g : PeerGroup} {cp : Str} (h : pgNoBom g)
    (hcp : noBom cp) : pgNoBom { g with configs := g.configs ++ [cp] } := by
  refine ⟨h.1, h.2.1, h.2.2.1, ?_, h.2.2.2.2.1, h.2.2.2.2.2⟩
  intro s hs
  rcases List.mem_append.mp hs with hx | hx
  · exact h.2.2.2.1 s hx
  · rcases List.mem_singleton.mp hx with rfl
    exact hcp

theorem applyPgConfig_noBom {g : PeerGroup} {cp : Str} (h : pgNoBom g)
    (hcp : noBom cp) : pgNoBom (applyPgConfig g cp) := by
  rcases h with ⟨hn, hras, hdesc, hcfgs, hin, hout⟩
  refine pgNoBom_addConfig ?_ hcp
  by_cases h1 : startsWith cp (str "description ") = true
  · rw [if_pos h1]
    refine ⟨hn, hras, ?_, hcfgs, hin, hout⟩
    show noBom (if hasSub (str "\"") cp = true then
      (pySplitSub (str "\"") cp).getD 1 []
      else joinSpace ((words cp).drop 1))
    by_cases h4 : hasSub (str "\"") cp = true
    · rw [if_pos h4]
      exact noBom_pySplitSub_getD 1 hcp
    · rw [if_neg h4]
      exact noBom_joinSpace (noBomL_sublistStrs
        (fun x hx => (List.drop_sublist _ _).subset hx)
        (noBom_words hcp))
  · rw [if_neg h1]
    by_cases h2 : (hasSub (str "route-map ") cp && hasSub (str " in") cp) = true
    · rw [if_pos h2]
      exact ⟨hn, hras, hdesc, hcfgs,
        noBomO_some (noBom_pySplitSub_getD 0 (noBom_pySplitSub_getD 1 hcp)),
        hout⟩
    · rw [if_neg h2]
      by_cases h3 : (hasSub (str "route-map ") cp && hasSub (str " out") cp)
          = true
      · rw [if_pos h3]
        exact ⟨hn, hras, hdesc, hcfgs, hin,
          noBomO_some (noBom_pySplitSub_getD 0 (noBom_pySplitSub_getD 1 hcp))⟩
      · rw [if_neg h3]
        by_cases h4 : startsWith cp (str "remote-as ") = true
        · rw [if_pos h4]
          exact ⟨hn, noBom_lastTok (noBom_words hcp), hdesc, hcfgs, hin, hout⟩
        · rw [if_neg h4]
          exact ⟨hn, hras, hdesc, hcfgs, hin, hout⟩

theorem nbScanGoF_noBom {lines : List Str} {ip : Str} (hls : noBomL lines) :
    ∀ (fuel i : Nat) (nb : Neighbor), nbNoBom nb →
    nbNoBom (nbScanGoF lines ip fuel i nb) := by
  intro fuel
  induction fuel with
  | zero => intro i nb h; exact h
  | succ fuel ih =>
    intro i nb h
    rw [nbScanGoF]
    by_cases hlen : i < lines.length
    · rw [if_pos hlen]
      simp only []
      by_cases h1 : (isTermLine (lines.getD i []) &&
          !startsWith (strip (lines.getD i [])) (str "router bgp")) = true
      · rw [if_pos h1]
        exact h
      · rw [if_neg h1]
        by_cases h2 : startsWith (lines.getD i []) (str "   vrf ") = true
        · rw [if_pos h2]
          exact ih _ _ h
        · rw [if_neg h2]
          by_cases h3 : startsWith (strip (lines.getD i [])) (nbKey ip) = true
          · rw [if_pos h3]
            exact ih _ _ (applyNbConfig_noBom h
              (noBom_strip (noBom_drop _ (noBom_strip (noBomL_getD i hls)))))
          · rw [if_neg h3]
            exact ih _ _ h
    · rw [if_neg hlen]
      exact h

theorem parse_neighbor_block_global_noBom {lines : List Str} {nb : Neighbor}
    (hls : noBomL lines) (h : nbNoBom nb) :
    nbNoBom (parse_neighbor_block_global lines nb) :=
  nbScanGoF_noBom hls _ _ nb h

theorem vrfNbScanGoF_noBom {lines : List Str} {vrfName ip : Str}
    (hls : noBomL lines) : ∀ (fuel i : Nat) (nb : Neighbor), nbNoBom nb →
    nbNoBom (vrfNbScanGoF lines vrfName ip fuel i nb) := by
  intro fuel
  induction fuel with
  | zero => intro i nb h; exact h
  | succ fuel ih =>
    intro i nb h
    rw [vrfNbScanGoF]
    by_cases hlen : i < lines.length
    · rw [if_pos hlen]
      simp only []
      by_cases h1 : ((startsWith (lines.getD i []) (str "   vrf ") &&
          !(strip (lines.getD i []) = str "vrf " ++ vrfName : Bool)) ||
          (isTermLine (lines.getD i []) &&
            !startsWith (strip (lines.getD i [])) (str "router bgp"))) = true
      · rw [if_pos h1]
        exact h
      · rw [if_neg h1]
        by_cases h3 : startsWith (strip (lines.getD i [])) (nbKey ip) = true
        · rw [if_pos h3]
          exact ih _ _ (applyNbConfig_noBom h
            (noBom_strip (noBom_drop _ (noBom_strip (noBomL_getD i hls)))))
        · rw [if_neg h3]
          exact ih _ _ h
    · rw [if_neg hlen]
      exact h

theorem parse_neighbor_block_vrf_noBom {lines : List Str} {nb : Neighbor}
    (hls : noBomL lines) (h : nbNoBom nb) :
    nbNoBom (parse_neighbor_block_vrf lines nb) := by
  rw [parse_neighbor_block_vrf]
  cases hf : findVrfStartGo lines (nb.vrf.getD []) 0 false with
  | none => exact h
  | some vs => exact vrfNbScanGoF_noBom hls _ _ nb h

theorem pgGoF_noBom {lines : List Str} {gname : Str} (hls : noBomL lines) :
    ∀ (fuel i : Nat) (g : PeerGroup), pgNoBom g →
    pgNoBom (pgGoF lines gname fuel i g).1 := by
  intro fuel
  induction fuel with
  | zero => intro i g h; exact h
  | succ fuel ih =>
    intro i g h
    rw [pgGoF]
    by_cases hlen : i < lines.length
    · rw [if_pos hlen]
      simp only []
      by_cases h1 : (!startsWith (lines.getD i []) (str "   ") &&
          !startsWith (lines.getD i []) (str "!") &&
          !(strip (lines.getD i [])).isEmpty) = true
      · rw [if_pos h1]
        exact h
      · rw [if_neg h1]
        by_cases h2 : startsWith (strip (lines.getD i [])) (nbKey gname) = true
        · rw [if_pos h2]
          exact ih _ _ (applyPgConfig_noBom h
            (noBom_strip (noBom_drop _ (noBom_strip (noBomL_getD i hls)))))
        · rw [if_neg h2]
          by_cases h3 : startsWith (strip (lines.getD i [])) (str "neighbor ")
              = true
          · rw [if_pos h3]
            by_cases h4 : (hasSub (str "peer group") (strip (lines.getD i [])) &&
                !hasSub gname (strip (lines.getD i []))) = true
            · rw [if_pos h4]
              exact h
            · rw [if_neg h4]
              by_cases h5 : (!hasSub (str "peer group")
                  (strip (lines.getD i []))) = true
              · rw [if_pos h5]
                exact h
              · rw [if_neg h5]
                exact ih _ _ h
          · rw [if_neg h3]
            exact ih _ _ h
    · rw [if_neg hlen]
      exact h

theorem parse_peer_group_noBom {lines : List Str} {startIdx : Nat}
    {gname : Str} {g : PeerGroup} (hls : noBomL lines) (hname : noBom gname)
    (h : (parse_peer_group lines startIdx gname).1 = some g) : pgNoBom g := by
  rw [parse_peer_group] at h
  simp only [] at h
  by_cases hg : (!(pgGo lines gname startIdx (initPg gname)).1.description.isEmpty ||
      !(pgGo lines gname startIdx (initPg gname)).1.configs.isEmpty) = true
  · rw [if_pos hg] at h
    injection h with h2
    rw [← h2]
    exact pgGoF_noBom hls _ _ _
      ⟨hname, noBom_nil, noBom_nil, noBomL_nil, noBomO_none, noBomO_none⟩
  · rw [if_neg hg] at h
    exact Option.noConfusion h



theorem vrfBlockGo_noBom {lines : List Str} (hls : noBomL lines) :
    ∀ (fuel : Nat) {i : Nat} {vrf : Vrf} {processed : List Str}
    {r : Vrf × Nat}, vrfNoBom vrf →
    vrfBlockGo lines fuel i vrf processed = some r → vrfNoBom r.1 := by
  intro fuel
  induction fuel with
  | zero =>
    intro i vrf processed r _ h
    exact Option.noConfusion h
  | succ fuel ih =>
    intro i vrf processed r hv h
    rcases vrfBlockGo_succ_elim h with hc | hc | ⟨v, hveq, hc⟩ |
      ⟨ip, hip, hm, hnp, hc⟩
    · rw [hc]
      exact hv
    · have h2 := ih hv hc
      exact h2
    · have hvv : vrfNoBom { vrf with rd := v } := by
        refine ⟨hv.1, ?_, hv.2.2⟩
        rw [hveq]
        exact noBom_lastTok (noBom_words (noBom_strip (noBomL_getD i hls)))
      have h2 := ih hvv hc
      exact h2
    · have hipn : noBom ip := by
        rw [hip]
        exact noBomL_getD 1 (noBom_words (noBom_strip (noBomL_getD i hls)))
      have hnb : nbNoBom (parse_neighbor_block_vrf lines
          (initNbVrf ip vrf.name)) :=
        parse_neighbor_block_vrf_noBom hls
          ⟨hipn, noBom_nil, noBom_nil, noBomL_nil, noBomO_none, noBomO_none,
            noBomO_none, noBomO_none, noBomO_none, noBomO_some hv.1⟩
      have hvv : vrfNoBom (if (!(parse_neighbor_block_vrf lines
          (initNbVrf ip vrf.name)).remoteAs.isEmpty ||
          !(parse_neighbor_block_vrf lines
            (initNbVrf ip vrf.name)).description.isEmpty) = true then
          { vrf with neighbors := vrf.neighbors ++
            [parse_neighbor_block_vrf lines (initNbVrf ip vrf.name)] }
        else vrf) := by
        by_cases hg : (!(parse_neighbor_block_vrf lines
            (initNbVrf ip vrf.name)).remoteAs.isEmpty ||
            !(parse_neighbor_block_vrf lines
              (initNbVrf ip vrf.name)).description.isEmpty) = true
        · rw [if_pos hg]
          refine ⟨hv.1, hv.2.1, ?_⟩
          intro nb hnbm
          rcases List.mem_append.mp hnbm with hx | hx
          · exact hv.2.2 nb hx
          · rcases List.mem_singleton.mp hx with rfl
            exact hnb
        · rw [if_neg hg]
          exact hv
      have h2 := ih hvv hc
      exact h2

theorem bgpBlockGo_noBom {lines : List Str} (hls : noBomL lines) :
    ∀ (fuel : Nat) {i : Nat} {cfg : Config} {processed : List Str}
    {r : Config × Nat}, cfgNoBom cfg →
    bgpBlockGo lines fuel i cfg processed = some r → cfgNoBom r.1 := by
  intro fuel
  induction fuel with
  | zero =>
    intro i cfg processed r _ h
    exact Option.noConfusion h
  | succ fuel ih =>
    intro i cfg processed r hcfg h
    rcases bgpBlockGo_succ_elim h with hc | hc | ⟨v, hveq, hc⟩ |
      ⟨gn, g, hgneq, hpg, hc⟩ |
      ⟨gn, hgneq2, hpg, hc⟩ | ⟨vr, hvr, hc⟩ | ⟨ip, hip, hm, hnp, hc⟩
    · rw [hc]
      exact hcfg
    · have h2 := ih hcfg hc
      exact h2
    · have hcv : cfgNoBom { cfg with routerId := v } := by
        refine ⟨hcfg.1, ?_, hcfg.2.2⟩
        rw [hveq]
        exact noBom_lastTok (noBom_words (noBom_strip (noBomL_getD i hls)))
      have h2 := ih hcv hc
      exact h2
    · have hgnb : pgNoBom g := by
        refine parse_peer_group_noBom hls ?_ hpg
        rw [hgneq]
        exact noBomL_getD 1 (noBom_words (noBom_strip (noBomL_getD i hls)))
      have hcv : cfgNoBom { cfg with peerGroups := cfg.peerGroups ++ [g] } := by
        refine ⟨hcfg.1, hcfg.2.1, hcfg.2.2.1, hcfg.2.2.2.1, ?_,
          hcfg.2.2.2.2.2⟩
        intro g2 hg2
        rcases List.mem_append.mp hg2 with hx | hx
        · exact hcfg.2.2.2.2.1 g2 hx
        · rcases List.mem_singleton.mp hx with rfl
          exact hgnb
      have h2 := ih hcv hc
      exact h2
    · have h2 := ih hcfg hc
      exact h2
    · have hvn : vrfNoBom vr.1 := by
        refine vrfBlockGo_noBom hls fuel ?_ hvr
        exact ⟨noBomL_getD 1 (noBom_words (noBom_strip (noBomL_getD i hls))),
          noBom_nil, fun nb hnb => absurd hnb (List.not_mem_nil nb)⟩
      have hcv : cfgNoBom { cfg with vrfs := cfg.vrfs ++ [vr.1] } := by
        refine ⟨hcfg.1, hcfg.2.1, hcfg.2.2.1, ?_, hcfg.2.2.2.2⟩
        intro v2 hv2
        rcases List.mem_append.mp hv2 with hx | hx
        · exact hcfg.2.2.2.1 v2 hx
        · rcases List.mem_singleton.mp hx with rfl
          exact hvn
      have h2 := ih hcv hc
      exact h2
    · have hipn : noBom ip := by
        rw [hip]
        exact noBomL_getD 1 (noBom_words (noBom_strip (noBomL_getD i hls)))
      have hnb : nbNoBom (parse_neighbor_block_global lines
          (initNbGlobal ip)) :=
        parse_neighbor_block_global_noBom hls
          ⟨hipn, noBom_nil, noBom_nil, noBomL_nil, noBomO_none, noBomO_none,
            noBomO_none, noBomO_none, noBomO_none, noBomO_none⟩
      have hcv : cfgNoBom (if (!(parse_neighbor_block_global lines
          (initNbGlobal ip)).remoteAs.isEmpty ||
          !(parse_neighbor_block_global lines
            (initNbGlobal ip)).description.isEmpty) = true then
          { cfg with globalNeighbors := cfg.globalNeighbors ++
            [parse_neighbor_block_global lines (initNbGlobal ip)] }
        else cfg) := by
        by_cases hg : (!(parse_neighbor_block_global lines
            (initNbGlobal ip)).remoteAs.isEmpty ||
            !(parse_neighbor_block_global lines
              (initNbGlobal ip)).description.isEmpty) = true
        · rw [if_pos hg]
          refine ⟨hcfg.1, hcfg.2.1, ?_, hcfg.2.2.2⟩
          intro nb hnbm
          rcases List.mem_append.mp hnbm with hx | hx
          · exact hcfg.2.2.1 nb hx
          · rcases List.mem_singleton.mp hx with rfl
            exact hnb
        · rw [if_neg hg]
          exact hcfg
      have h2 := ih hcv hc
      exact h2

theorem bgpSectionGoF_noBom {lines : List Str} {blockFuel : Nat}
    (hls : noBomL lines) : ∀ (fuel i : Nat) {cfg cfg2 : Config},
    cfgNoBom cfg → bgpSectionGoF lines blockFuel fuel i cfg = some cfg2 →
    cfgNoBom cfg2 := by
  intro fuel
  induction fuel with
  | zero =>
    intro i cfg cfg2 hcfg h
    injection h with h2
    rw [← h2]
    exact hcfg
  | succ fuel ih =>
    intro i cfg cfg2 hcfg h
    rw [bgpSectionGoF] at h
    by_cases hlen : i < lines.length
    · rw [if_pos hlen] at h
      simp only [] at h
      by_cases h1 : startsWith (strip (lines.getD i [])) (str "router bgp ")
          = true
      · rw [if_pos h1] at h
        have hca : cfgNoBom { cfg with
            asNumber := (words (strip (lines.getD i []))).getD 2 [] } :=
          ⟨noBomL_getD 2 (noBom_words (noBom_strip (noBomL_getD i hls))),
            hcfg.2⟩
        cases hb : bgpBlockGo lines blockFuel (i + 1)
            { cfg with asNumber := (words (strip (lines.getD i []))).getD 2 [] }
            [] with
        | none =>
          rw [hb] at h
          exact Option.noConfusion h
        | some r =>
          rw [hb] at h
          injection h with h2
          rw [← h2]
          exact bgpBlockGo_noBom hls blockFuel hca hb
      · rw [if_neg h1] at h
        exact ih _ hcfg h
    · rw [if_neg hlen] at h
      injection h with h2
      rw [← h2]
      exact hcfg

theorem cfgNoBom_reset : cfgNoBom resetConfig :=
  ⟨noBom_nil, noBom_nil, fun x hx => absurd hx (List.not_mem_nil x),
   fun x hx => absurd hx (List.not_mem_nil x),
   fun x hx => absurd hx (List.not_mem_nil x),
   fun x hx => absurd hx (List.not_mem_nil x),
   fun x hx => absurd hx (List.not_mem_nil x),
   fun x hx => absurd hx (List.not_mem_nil x),
   fun x hx => absurd hx (List.not_mem_nil x),
   fun x hx => absurd hx (List.not_mem_nil x),
   fun x hx => absurd hx (List.not_mem_nil x)⟩

theorem parse_prefix_lists_noBom {lines : List Str} {cfg : Config}
    (hls : noBomL lines) (h : cfgNoBom cfg) :
    cfgNoBom (parse_prefix_lists lines cfg) := by
  refine ⟨h.1, h.2.1, h.2.2.1, h.2.2.2.1, h.2.2.2.2.1, h.2.2.2.2.2.1, ?_,
    h.2.2.2.2.2.2.2⟩
  exact plGoF_noBom _ _ _ hls h.2.2.2.2.2.2.1

theorem parse_community_lists_noBom {lines : List Str} {cfg : Config}
    (hls : noBomL lines) (h : cfgNoBom cfg) :
    cfgNoBom (parse_community_lists lines cfg) := by
  refine ⟨h.1, h.2.1, h.2.2.1, h.2.2.2.1, h.2.2.2.2.1, h.2.2.2.2.2.1,
    h.2.2.2.2.2.2.1, ?_, h.2.2.2.2.2.2.2.2⟩
  exact clGo_noBom _ _ hls h.2.2.2.2.2.2.2.1

theorem parse_access_lists_noBom {lines : List Str} {cfg : Config}
    (hls : noBomL lines) (h : cfgNoBom cfg) :
    cfgNoBom (parse_access_lists lines cfg) := by
  refine ⟨h.1, h.2.1, h.2.2.1, h.2.2.2.1, h.2.2.2.2.1, h.2.2.2.2.2.1,
    h.2.2.2.2.2.2.1, h.2.2.2.2.2.2.2.1, h.2.2.2.2.2.2.2.2.1,
    h.2.2.2.2.2.2.2.2.2.1, ?_⟩
  exact alGoF_noBom _ _ _ hls h.2.2.2.2.2.2.2.2.2.2

theorem parse_as_path_sets_noBom {lines : List Str} {cfg : Config}
    (hls : noBomL lines) (h : cfgNoBom cfg) :
    cfgNoBom (parse_as_path_sets lines cfg) := by
  refine ⟨h.1, h.2.1, h.2.2.1, h.2.2.2.1, h.2.2.2.2.1, h.2.2.2.2.2.1,
    h.2.2.2.2.2.2.1, h.2.2.2.2.2.2.2.1, ?_, h.2.2.2.2.2.2.2.2.2⟩
  exact apsGo_noBom _ _ hls h.2.2.2.2.2.2.2.2.1

theorem parse_route_maps_noBom {lines : List Str} {cfg : Config}
    (hls : noBomL lines) (h : cfgNoBom cfg) :
    cfgNoBom (parse_route_maps lines cfg) := by
  refine ⟨h.1, h.2.1, h.2.2.1, h.2.2.2.1, h.2.2.2.2.1, ?_, h.2.2.2.2.2.2⟩
  intro r hr
  rcases List.mem_append.mp hr with hx | hx
  · exact h.2.2.2.2.2.1 r hx
  · exact rmOuterF_noBom _ _ hls r hx

theorem parseLines_noBom {lines : List Str} {cfg : Config}
    (hls : noBomL lines) (h : parseLines lines = some cfg) : cfgNoBom cfg := by
  rw [parseLines, parse_bgp_section] at h
  exact bgpSectionGoF_noBom hls _ _
    (parse_route_maps_noBom hls
      (parse_as_path_sets_noBom hls
        (parse_access_lists_noBom hls
          (parse_community_lists_noBom hls
            (parse_prefix_lists_noBom hls cfgNoBom_reset))))) h

/-- C10: normalization deletes every occurrence of the byte-order mark
U+FEFF, wherever it occurs in the input — normalizing the input and
normalizing the input with all byte-order marks pre-deleted give the same
line list, every normalized line is free of U+FEFF, and consequently no
string stored in any entity of a successfully parsed configuration contains
U+FEFF. -/
theorem C10_bom_removed_everywhere (content : Str) :
    normalizeLines content =
      normalizeLines (content.filter (fun c => c ≠ bomChar)) ∧
    noBomL (normalizeLines content) ∧
    ∀ cfg, parse_config content = some cfg → cfgNoBom cfg := by
  refine ⟨normalizeLines_filter_bom content, normalizeLines_noBom content, ?_⟩
  intro cfg h
  rw [parse_config] at h
  exact parseLines_noBom (normalizeLines_noBom content) h

theorem C10_bom_removed_everywhere_witness :
    noBomL (normalizeLines c10Input) ∧ cfgNoBom c10Expected :=
  ⟨(C10_bom_removed_everywhere c10Input).2.1,
   (C10_bom_removed_everywhere c10Input).2.2 c10Expected (by decide)⟩

/-- C8 counterexample: in `c8Input` the unindented line `end` at index 3 is a
column-0 terminator that is not a `router bgp` line, the lines up to and
including it never mention `77`, and yet the parsed configuration's VRF
holds a neighbor whose remote AS is `77`, captured from a line after the
terminator: the per-VRF neighbor rescan searches the whole input and
re-enters BGP scope at the later `router bgp` line. -/
theorem C8_post_terminator_leak :
    (normalizeLines c8Input).take 4 =
      [str "router bgp 65000", str "   vrf A junk",
       str "      neighbor 10.0.0.1 remote-as 65001", str "end"] ∧
    isTermLine (str "end") = true ∧
    startsWith (strip (str "end")) (str "router bgp") = false ∧
    (∀ l ∈ (normalizeLines c8Input).take 4, hasSub (str "77") l = false) ∧
    (parse_config c8Input).isSome = true ∧
    (∃ v ∈ ((parse_config c8Input).getD resetConfig).vrfs,
      ∃ nb ∈ v.neighbors, nb.remoteAs = str "77") := by
  decide



theorem startsWith_prefix_mono {s p r q : Str} (hq : q = p ++ r)
    (h : startsWith s q = true) : startsWith s p = true := by
  rcases startsWith_eq_append h with ⟨r2, hr2⟩
  rw [hq, List.append_assoc] at hr2
  rw [hr2]
  exact startsWith_append_self p (r ++ r2)

theorem startsWith_space_of_space3 {l : Str}
    (h : startsWith l (str "   ") = true) : startsWith l (str " ") = true :=
  startsWith_prefix_mono (r := str "  ") (by decide) h

theorem startsWith_rb_of_rbsp {s : Str}
    (h : startsWith s (str "router bgp ") = true) :
    startsWith s (str "router bgp") = true :=
  startsWith_prefix_mono (r := str " ") (by decide) h

theorem trunc_getD_agree {pre post : List Str} {t : Str} :
    ∀ i ≤ pre.length,
    (pre ++ t :: post).getD i [] = (pre ++ [t]).getD i [] := by
  intro i hi
  rcases Nat.lt_or_eq_of_le hi with hlt | heq
  · rw [List.getD_eq_getElem?_getD, List.getD_eq_getElem?_getD,
      List.getElem?_append_left hlt, List.getElem?_append_left hlt]
  · subst heq
    rw [List.getD_eq_getElem?_getD, List.getD_eq_getElem?_getD,
      List.getElem?_append_right (Nat.le_refl _),
      List.getElem?_append_right (Nat.le_refl _)]
    simp

theorem trunc_getD_t_full {pre post : List Str} {t : Str} :
    (pre ++ t :: post).getD pre.length [] = t := by
  rw [List.getD_eq_getElem?_getD, List.getElem?_append_right (Nat.le_refl _)]
  simp

theorem trunc_getD_t_cut {pre : List Str} {t : Str} :
    (pre ++ [t]).getD pre.length [] = t := by
  rw [List.getD_eq_getElem?_getD, List.getElem?_append_right (Nat.le_refl _)]
  simp

theorem trunc_length_full {pre post : List Str} {t : Str} :
    (pre ++ t :: post).length = pre.length + post.length + 1 := by
  simp [List.length_append]
  omega

theorem trunc_length_cut {pre : List Str} {t : Str} :
    (pre ++ [t]).length = pre.length + 1 := by
  simp [List.length_append]

theorem skipVrfGoF_ge {lines : List Str} : ∀ (fuel j : Nat),
    j ≤ skipVrfGoF lines fuel j := by
  intro fuel
  induction fuel with
  | zero => intro j; exact Nat.le_refl j
  | succ fuel ih =>
    intro j
    rw [skipVrfGoF]
    by_cases hj : j < lines.length
    · rw [if_pos hj]
      by_cases hc : (startsWith (lines.getD j []) (str "   vrf ") ||
          isTermLine (lines.getD j [])) = true
      · rw [if_pos hc]
      · rw [if_neg hc]
        exact Nat.le_trans (Nat.le_succ j) (ih (j + 1))
    · rw [if_neg hj]
      exact Nat.le_succ j

theorem skipVrfGoF_fuel_irrel {lines : List Str} : ∀ (n fuel fuel' j : Nat),
    lines.length - j ≤ n → lines.length - j < fuel →
    lines.length - j < fuel' →
    skipVrfGoF lines fuel j = skipVrfGoF lines fuel' j := by
  intro n
  induction n with
  | zero =>
    intro fuel fuel' j hn hf hf'
    cases fuel with
    | zero => omega
    | succ f =>
      cases fuel' with
      | zero => omega
      | succ f' =>
        rw [skipVrfGoF, skipVrfGoF]
        have hj : ¬ j < lines.length := by omega
        rw [if_neg hj, if_neg hj]
  | succ n ih =>
    intro fuel fuel' j hn hf hf'
    cases fuel with
    | zero => omega
    | succ f =>
      cases fuel' with
      | zero => omega
      | succ f' =>
        rw [skipVrfGoF, skipVrfGoF]
        by_cases hj : j < lines.length
        · rw [if_pos hj, if_pos hj]
          by_cases hc : (startsWith (lines.getD j []) (str "   vrf ") ||
              isTermLine (lines.getD j [])) = true
          · rw [if_pos hc, if_pos hc]
          · rw [if_neg hc, if_neg hc]
            exact ih f f' (j + 1) (by omega) (by omega) (by omega)
        · rw [if_neg hj, if_neg hj]

theorem findRouterBgpIdxF_fuel_irrel {lines : List Str} :
    ∀ (n fuel fuel' i : Nat),
    lines.length - i ≤ n → lines.length - i < fuel →
    lines.length - i < fuel' →
    findRouterBgpIdxF lines fuel i = findRouterBgpIdxF lines fuel' i := by
  intro n
  induction n with
  | zero =>
    intro fuel fuel' i hn hf hf'
    cases fuel with
    | zero => omega
    | succ f =>
      cases fuel' with
      | zero => omega
      | succ f' =>
        rw [findRouterBgpIdxF, findRouterBgpIdxF]
        have hi : ¬ i < lines.length := by omega
        rw [if_neg hi, if_neg hi]
  | succ n ih =>
    intro fuel fuel' i hn hf hf'
    cases fuel with
    | zero => omega
    | succ f =>
      cases fuel' with
      | zero => omega
      | succ f' =>
        rw [findRouterBgpIdxF, findRouterBgpIdxF]
        by_cases hi : i < lines.length
        · rw [if_pos hi, if_pos hi]
          by_cases hc : startsWith (strip (lines.getD i []))
              (str "router bgp") = true
          · rw [if_pos hc, if_pos hc]
          · rw [if_neg hc, if_neg hc]
            exact ih f f' (i + 1) (by omega) (by omega) (by omega)
        · rw [if_neg hi, if_neg hi]

theorem nbScanGoF_fuel_irrel {lines : List Str} {ip : Str} :
    ∀ (n fuel fuel' i : Nat) (nb : Neighbor),
    lines.length - i ≤ n → lines.length - i < fuel →
    lines.length - i < fuel' →
    nbScanGoF lines ip fuel i nb = nbScanGoF lines ip fuel' i nb := by
  intro n
  induction n with
  | zero =>
    intro fuel fuel' i nb hn hf hf'
    cases fuel with
    | zero => omega
    | succ f =>
      cases fuel' with
      | zero => omega
      | succ f' =>
        rw [nbScanGoF, nbScanGoF]
        have hi : ¬ i < lines.length := by omega
        rw [if_neg hi, if_neg hi]
  | succ n ih =>
    intro fuel fuel' i nb hn hf hf'
    cases fuel with
    | zero => omega
    | succ f =>
      cases fuel' with
      | zero => omega
      | succ f' =>
        rw [nbScanGoF, nbScanGoF]
        by_cases hi : i < lines.length
        · rw [if_pos hi, if_pos hi]
          simp only []
          by_cases h1 : (isTermLine (lines.getD i []) &&
              !startsWith (strip (lines.getD i [])) (str "router bgp")) = true
          · rw [if_pos h1, if_pos h1]
          · rw [if_neg h1, if_neg h1]
            by_cases h2 : startsWith (lines.getD i []) (str "   vrf ") = true
            · rw [if_pos h2, if_pos h2]
              have hge : i + 1 ≤ skipVrfGo lines (i + 1) :=
                skipVrfGoF_ge (lines.length + 1) (i + 1)
              exact ih f f' (skipVrfGo lines (i + 1)) nb (by omega) (by omega)
                (by omega)
            · rw [if_neg h2, if_neg h2]
              by_cases h3 : startsWith (strip (lines.getD i [])) (nbKey ip)
                  = true
              · rw [if_pos h3, if_pos h3]
                exact ih f f' (i + 1) _ (by omega) (by omega) (by omega)
              · rw [if_neg h3, if_neg h3]
                exact ih f f' (i + 1) nb (by omega) (by omega) (by omega)
        · rw [if_neg hi, if_neg hi]

theorem pgGoF_fuel_irrel {lines : List Str} {gname : Str} :
    ∀ (n fuel fuel' i : Nat) (g : PeerGroup),
    lines.length - i ≤ n → lines.length - i < fuel →
    lines.length - i < fuel' →
    pgGoF lines gname fuel i g = pgGoF lines gname fuel' i g := by
  intro n
  induction n with
  | zero =>
    intro fuel fuel' i g hn hf hf'
    cases fuel with
    | zero => omega
    | succ f =>
      cases fuel' with
      | zero => omega
      | succ f' =>
        rw [pgGoF, pgGoF]
        have hi : ¬ i < lines.length := by omega
        rw [if_neg hi, if_neg hi]
  | succ n ih =>
    intro fuel fuel' i g hn hf hf'
    cases fuel with
    | zero => omega
    | succ f =>
      cases fuel' with
      | zero => omega
      | succ f' =>
        rw [pgGoF, pgGoF]
        by_cases hi : i < lines.length
        · rw [if_pos hi, if_pos hi]
          simp only []
          by_cases h1 : (!startsWith (lines.getD i []) (str "   ") &&
              !startsWith (lines.getD i []) (str "!") &&
              !(strip (lines.getD i [])).isEmpty) = true
          · rw [if_pos h1, if_pos h1]
          · rw [if_neg h1, if_neg h1]
            by_cases h2 : startsWith (strip (lines.getD i [])) (nbKey gname)
                = true
            · rw [if_pos h2, if_pos h2]
              exact ih f f' (i + 1) _ (by omega) (by omega) (by omega)
            · rw [if_neg h2, if_neg h2]
              by_cases h3 : startsWith (strip (lines.getD i []))
                  (str "neighbor ") = true
              · rw [if_pos h3, if_pos h3]
                by_cases h4 : (hasSub (str "peer group")
                    (strip (lines.getD i [])) &&
                    !hasSub gname (strip (lines.getD i []))) = true
                · rw [if_pos h4, if_pos h4]
                · rw [if_neg h4, if_neg h4]
                  by_cases h5 : (!hasSub (str "peer group")
                      (strip (lines.getD i []))) = true
                  · rw [if_pos h5, if_pos h5]
                  · rw [if_neg h5, if_neg h5]
                    exact ih f f' (i + 1) g (by omega) (by omega) (by omega)
              · rw [if_neg h3, if_neg h3]
                exact ih f f' (i + 1) g (by omega) (by omega) (by omega)
        · rw [if_neg hi, if_neg hi]

theorem bgpSectionGoF_fuel_irrel {lines : List Str} {blockFuel : Nat} :
    ∀ (n fuel fuel' i : Nat) (cfg : Config),
    lines.length - i ≤ n → lines.length - i < fuel →
    lines.length - i < fuel' →
    bgpSectionGoF lines blockFuel fuel i cfg =
      bgpSectionGoF lines blockFuel fuel' i cfg := by
  intro n
  induction n with
  | zero =>
    intro fuel fuel' i cfg hn hf hf'
    cases fuel with
    | zero => omega
    | succ f =>
      cases fuel' with
      | zero => omega
      | succ f' =>
        rw [bgpSectionGoF, bgpSectionGoF]
        have hi : ¬ i < lines.length := by omega
        rw [if_neg hi, if_neg hi]
  | succ n ih =>
    intro fuel fuel' i cfg hn hf hf'
    cases fuel with
    | zero => omega
    | succ f =>
      cases fuel' with
      | zero => omega
      | succ f' =>
        rw [bgpSectionGoF, bgpSectionGoF]
        by_cases hi : i < lines.length
        · rw [if_pos hi, if_pos hi]
          simp only []
          by_cases h1 : startsWith (strip (lines.getD i []))
              (str "router bgp ") = true
          · rw [if_pos h1, if_pos h1]
          · rw [if_neg h1, if_neg h1]
            exact ih f f' (i + 1) cfg (by omega) (by omega) (by omega)
        · rw [if_neg hi, if_neg hi]



theorem vrfBlockGo_fuel_mono {lines : List Str} : ∀ (fuel fuel' : Nat),
    fuel ≤ fuel' → ∀ {i : Nat} {vrf : Vrf} {processed : List Str}
    {r : Vrf × Nat}, vrfBlockGo lines fuel i vrf processed = some r →
    vrfBlockGo lines fuel' i vrf processed = some r := by
  intro fuel
  induction fuel with
  | zero =>
    intro fuel' _ i vrf processed r h
    exact Option.noConfusion h
  | succ fuel ih =>
    intro fuel' hle i vrf processed r h
    cases fuel' with
    | zero => omega
    | succ f' =>
      have hle2 : fuel ≤ f' := by omega
      rw [vrfBlockGo] at h ⊢
      by_cases hlen : i < lines.length
      · rw [if_pos hlen] at h ⊢
        simp only [] at h ⊢
        by_cases h1 : (startsWith (lines.getD i []) (str "   vrf ") ||
            isTermLine (lines.getD i [])) = true
        · rw [if_pos h1] at h ⊢
          exact h
        · rw [if_neg h1] at h ⊢
          by_cases h2 : startsWith (strip (lines.getD i [])) (str "rd ") = true
          · rw [if_pos h2] at h ⊢
            exact ih f' hle2 h
          · rw [if_neg h2] at h ⊢
            by_cases h3 : (startsWith (strip (lines.getD i [])) (str "neighbor ") &&
                startsWith (lines.getD i []) (str "      neighbor ")) = true
            · rw [if_pos h3] at h ⊢
              by_cases h4 : 2 ≤ (words (strip (lines.getD i []))).length
              · rw [if_pos h4] at h ⊢
                by_cases h5 : matchIp ((words (strip (lines.getD i []))).getD 1 [])
                    = true
                · rw [if_pos h5] at h ⊢
                  by_cases h6 : (words (strip (lines.getD i []))).getD 1 []
                      ∈ processed
                  · rw [if_pos h6] at h ⊢
                    exact ih f' hle2 h
                  · rw [if_neg h6] at h ⊢
                    exact ih f' hle2 h
                · rw [if_neg h5] at h ⊢
                  exact ih f' hle2 h
              · rw [if_neg h4] at h ⊢
                exact ih f' hle2 h
            · rw [if_neg h3] at h ⊢
              exact ih f' hle2 h
      · rw [if_neg hlen] at h ⊢
        exact h

theorem bgpBlockGo_fuel_mono {lines : List Str} : ∀ (fuel fuel' : Nat),
    fuel ≤ fuel' → ∀ {i : Nat} {cfg : Config} {processed : List Str}
    {r : Config × Nat}, bgpBlockGo lines fuel i cfg processed = some r →
    bgpBlockGo lines fuel' i cfg processed = some r := by
  intro fuel
  induction fuel with
  | zero =>
    intro fuel' _ i cfg processed r h
    exact Option.noConfusion h
  | succ fuel ih =>
    intro fuel' hle i cfg processed r h
    cases fuel' with
    | zero => omega
    | succ f' =>
      have hle2 : fuel ≤ f' := by omega
      rw [bgpBlockGo] at h ⊢
      by_cases hlen : i < lines.length
      · rw [if_pos hlen] at h ⊢
        simp only [] at h ⊢
        by_cases h1 : (isTermLine (lines.getD i []) &&
            !startsWith (strip (lines.getD i [])) (str "router bgp")) = true
        · rw [if_pos h1] at h ⊢
          exact h
        · rw [if_neg h1] at h ⊢
          by_cases h2 : startsWith (strip (lines.getD i [])) (str "router-id ")
              = true
          · rw [if_pos h2] at h ⊢
            exact ih f' hle2 h
          · rw [if_neg h2] at h ⊢
            by_cases h3 : (startsWith (strip (lines.getD i [])) (str "neighbor ") &&
                hasSub (str "peer group") (strip (lines.getD i [])) &&
                startsWith (lines.getD i []) (str "   neighbor ")) = true
            · rw [if_pos h3] at h ⊢
              by_cases h4 : 4 ≤ (words (strip (lines.getD i []))).length ∧
                  (words (strip (lines.getD i []))).getD 2 [] = str "peer" ∧
                  (words (strip (lines.getD i []))).getD 3 [] = str "group"
              · rw [if_pos h4] at h ⊢
                by_cases h5 : (!matchIp ((words (strip (lines.getD i []))).getD 1 []))
                    = true
                · rw [if_pos h5] at h ⊢
                  cases hpg : (parse_peer_group lines i
                      ((words (strip (lines.getD i []))).getD 1 [])).1 with
                  | some g =>
                    rw [hpg] at h
                    exact ih f' hle2 h
                  | none =>
                    rw [hpg] at h
                    exact ih f' hle2 h
                · rw [if_neg h5] at h ⊢
                  exact ih f' hle2 h
              · rw [if_neg h4] at h ⊢
                exact ih f' hle2 h
            · rw [if_neg h3] at h ⊢
              by_cases h6 : (startsWith (strip (lines.getD i [])) (str "vrf ") &&
                  startsWith (lines.getD i []) (str "   vrf ")) = true
              · rw [if_pos h6] at h ⊢
                cases hv : vrfBlockGo lines fuel (i + 1)
                    ⟨(words (strip (lines.getD i []))).getD 1 [], [], []⟩ [] with
                | none =>
                  rw [hv] at h
                  exact Option.noConfusion h
                | some vr =>
                  rw [hv] at h
                  rw [vrfBlockGo_fuel_mono fuel f' hle2 hv]
                  exact ih f' hle2 h
              · rw [if_neg h6] at h ⊢
                by_cases h7 : (startsWith (strip (lines.getD i [])) (str "neighbor ") &&
                    startsWith (lines.getD i []) (str "   neighbor ") &&
                    !hasSub (str "peer group") (strip (lines.getD i []))) = true
                · rw [if_pos h7] at h ⊢
                  by_cases h8 : 2 ≤ (words (strip (lines.getD i []))).length
                  · rw [if_pos h8] at h ⊢
                    by_cases h9 : matchIp ((words (strip (lines.getD i []))).getD 1 [])
                        = true
                    · rw [if_pos h9] at h ⊢
                      by_cases h10 : (words (strip (lines.getD i []))).getD 1 []
                          ∈ processed
                      · rw [if_pos h10] at h ⊢
                        exact ih f' hle2 h
                      · rw [if_neg h10] at h ⊢
                        exact ih f' hle2 h
                    · rw [if_neg h9] at h ⊢
                      exact ih f' hle2 h
                  · rw [if_neg h8] at h ⊢
                    exact ih f' hle2 h
                · rw [if_neg h7] at h ⊢
                  exact ih f' hle2 h
      · rw [if_neg hlen] at h ⊢
        exact h



theorem isTermLine_parts {l : Str} (h : isTermLine l = true) :
    startsWith l (str " ") = false ∧ startsWith l (str "!") = false ∧
    (strip l).isEmpty = false := by
  rw [isTermLine] at h
  simp only [Bool.and_eq_true, Bool.not_eq_true'] at h
  exact ⟨h.1.1, h.1.2, h.2⟩

theorem sw3_false_of_sw1_false {l : Str}
    (h : startsWith l (str " ") = false) :
    startsWith l (str "   ") = false := by
  cases hc : startsWith l (str "   ") with
  | false => rfl
  | true =>
    rw [startsWith_space_of_space3 hc] at h
    exact Bool.noConfusion h

theorem isTermLine_not_vrf {l : Str} (h : isTermLine l = true) :
    startsWith l (str "   vrf ") = false := by
  cases hc : startsWith l (str "   vrf ") with
  | false => rfl
  | true =>
    have h3 : startsWith l (str "   ") = true :=
      startsWith_prefix_mono (r := str "vrf ") (by decide) hc
    rw [sw3_false_of_sw1_false (isTermLine_parts h).1] at h3
    exact Bool.noConfusion h3

theorem skipVrfGoF_truncAgree {pre post : List Str} {t : Str}
    (hterm : isTermLine t = true) : ∀ (fuel : Nat), ∀ j ≤ pre.length,
    skipVrfGoF (pre ++ t :: post) fuel j = skipVrfGoF (pre ++ [t]) fuel j ∧
    skipVrfGoF (pre ++ [t]) fuel j ≤ pre.length := by
  intro fuel
  induction fuel with
  | zero =>
    intro j hj
    exact ⟨rfl, hj⟩
  | succ fuel ih =>
    intro j hj
    have hjA : j < (pre ++ t :: post).length := by
      rw [trunc_length_full]; omega
    have hjB : j < (pre ++ [t]).length := by
      rw [trunc_length_cut]; omega
    rw [skipVrfGoF, skipVrfGoF, if_pos hjA, if_pos hjB,
      trunc_getD_agree j hj]
    rcases Nat.lt_or_eq_of_le hj with hlt | heq
    · by_cases hc : (startsWith ((pre ++ [t]).getD j []) (str "   vrf ") ||
          isTermLine ((pre ++ [t]).getD j [])) = true
      · rw [if_pos hc, if_pos hc]
        exact ⟨rfl, hj⟩
      · rw [if_neg hc, if_neg hc]
        exact ih (j + 1) (by omega)
    · subst heq
      rw [trunc_getD_t_cut]
      have hc : (startsWith t (str "   vrf ") || isTermLine t) = true := by
        rw [hterm, Bool.or_true]
      rw [if_pos hc, if_pos hc]
      exact ⟨rfl, hj⟩

theorem skipVrfGo_truncAgree {pre post : List Str} {t : Str}
    (hterm : isTermLine t = true) : ∀ j ≤ pre.length,
    skipVrfGo (pre ++ t :: post) j = skipVrfGo (pre ++ [t]) j ∧
    skipVrfGo (pre ++ [t]) j ≤ pre.length := by
  intro j hj
  rw [skipVrfGo, skipVrfGo]
  have hlenA : (pre ++ t :: post).length = pre.length + post.length + 1 :=
    trunc_length_full
  have hlenB : (pre ++ [t]).length = pre.length + 1 := trunc_length_cut
  rcases skipVrfGoF_truncAgree hterm ((pre ++ t :: post).length + 1) j hj
    with ⟨ha, hb⟩
  refine ⟨?_, ?_⟩
  · rw [ha]
    exact skipVrfGoF_fuel_irrel ((pre ++ [t]).length) _ _ j (by omega)
      (by omega) (by omega)
  · rw [← skipVrfGoF_fuel_irrel ((pre ++ [t]).length)
      ((pre ++ t :: post).length + 1) ((pre ++ [t]).length + 1) j (by omega)
      (by omega) (by omega)]
    exact hb

theorem findRouterBgpIdxF_truncAgree {pre post : List Str} {t : Str}
    (hnrb : startsWith (strip t) (str "router bgp") = false) :
    ∀ (fuel : Nat), ∀ i ≤ pre.length, pre.length - i < fuel →
    (∃ j, i ≤ j ∧ j < pre.length ∧
      startsWith (strip ((pre ++ [t]).getD j [])) (str "router bgp") = true) →
    findRouterBgpIdxF (pre ++ t :: post) fuel i =
      findRouterBgpIdxF (pre ++ [t]) fuel i ∧
    findRouterBgpIdxF (pre ++ [t]) fuel i < pre.length := by
  intro fuel
  induction fuel with
  | zero =>
    intro i hi hf hex
    omega
  | succ fuel ih =>
    intro i hi hf hex
    have hiA : i < (pre ++ t :: post).length := by
      rw [trunc_length_full]; omega
    have hiB : i < (pre ++ [t]).length := by
      rw [trunc_length_cut]; omega
    rw [findRouterBgpIdxF, findRouterBgpIdxF, if_pos hiA, if_pos hiB,
      trunc_getD_agree i hi]
    by_cases hm : startsWith (strip ((pre ++ [t]).getD i []))
        (str "router bgp") = true
    · rw [if_pos hm, if_pos hm]
      refine ⟨rfl, ?_⟩
      rcases Nat.lt_or_eq_of_le hi with hlt | heq
      · exact hlt
      · subst heq
        rw [trunc_getD_t_cut] at hm
        rw [hnrb] at hm
        exact Bool.noConfusion hm
    · rw [if_neg hm, if_neg hm]
      rcases hex with ⟨j, hij, hjp, hjm⟩
      have hine : i ≠ j := by
        intro heq
        rw [← heq] at hjm
        exact hm hjm
      exact ih (i + 1) (by omega) (by omega) ⟨j, by omega, hjp, hjm⟩

theorem nbScanGoF_truncAgree {pre post : List Str} {t : Str} {ip : Str}
    (hterm : isTermLine t = true)
    (hnrb : startsWith (strip t) (str "router bgp") = false) :
    ∀ (fuel : Nat), ∀ i ≤ pre.length, ∀ (nb : Neighbor),
    nbScanGoF (pre ++ t :: post) ip fuel i nb =
      nbScanGoF (pre ++ [t]) ip fuel i nb := by
  intro fuel
  induction fuel with
  | zero => intro i hi nb; rfl
  | succ fuel ih =>
    intro i hi nb
    have hiA : i < (pre ++ t :: post).length := by
      rw [trunc_length_full]; omega
    have hiB : i < (pre ++ [t]).length := by
      rw [trunc_length_cut]; omega
    rw [nbScanGoF, nbScanGoF, if_pos hiA, if_pos hiB,
      trunc_getD_agree i hi]
    simp only []
    rcases Nat.lt_or_eq_of_le hi with hlt | heq
    · by_cases h1 : (isTermLine ((pre ++ [t]).getD i []) &&
          !startsWith (strip ((pre ++ [t]).getD i [])) (str "router bgp"))
          = true
      · rw [if_pos h1, if_pos h1]
      · rw [if_neg h1, if_neg h1]
        by_cases h2 : startsWith ((pre ++ [t]).getD i []) (str "   vrf ")
            = true
        · rw [if_pos h2, if_pos h2]
          rcases @skipVrfGo_truncAgree pre post t hterm (i + 1) (by omega)
            with ⟨ha, hb⟩
          rw [ha]
          exact ih (skipVrfGo (pre ++ [t]) (i + 1)) hb nb
        · rw [if_neg h2, if_neg h2]
          by_cases h3 : startsWith (strip ((pre ++ [t]).getD i [])) (nbKey ip)
              = true
          · rw [if_pos h3, if_pos h3]
            exact ih (i + 1) (by omega) _
          · rw [if_neg h3, if_neg h3]
            exact ih (i + 1) (by omega) nb
    · subst heq
      rw [trunc_getD_t_cut]
      have h1 : (isTermLine t && !startsWith (strip t) (str "router bgp"))
          = true := by
        rw [hterm, hnrb]
        rfl
      rw [if_pos h1, if_pos h1]

theorem nbScanGo_truncAgree {pre post : List Str} {t : Str} {ip : Str}
    (hterm : isTermLine t = true)
    (hnrb : startsWith (strip t) (str "router bgp") = false) :
    ∀ i ≤ pre.length, ∀ (nb : Neighbor),
    nbScanGo (pre ++ t :: post) ip i nb = nbScanGo (pre ++ [t]) ip i nb := by
  intro i hi nb
  rw [nbScanGo, nbScanGo]
  have hlenA : (pre ++ t :: post).length = pre.length + post.length + 1 :=
    trunc_length_full
  have hlenB : (pre ++ [t]).length = pre.length + 1 := trunc_length_cut
  rw [nbScanGoF_truncAgree hterm hnrb ((pre ++ t :: post).length + 1) i hi nb]
  exact @nbScanGoF_fuel_irrel (pre ++ [t]) ip ((pre ++ [t]).length)
    ((pre ++ t :: post).length + 1) ((pre ++ [t]).length + 1) i nb (by omega)
    (by omega) (by omega)

theorem parse_neighbor_block_global_truncAgree {pre post : List Str} {t : Str}
    (hterm : isTermLine t = true)
    (hnrb : startsWith (strip t) (str "router bgp") = false)
    (hdr : ∃ j, j < pre.length ∧
      startsWith (strip ((pre ++ [t]).getD j [])) (str "router bgp") = true)
    (nb : Neighbor) :
    parse_neighbor_block_global (pre ++ t :: post) nb =
      parse_neighbor_block_global (pre ++ [t]) nb := by
  rcases hdr with ⟨j, hjp, hjm⟩
  rw [parse_neighbor_block_global, parse_neighbor_block_global]
  have hlenA : (pre ++ t :: post).length = pre.length + post.length + 1 :=
    trunc_length_full
  have hlenB : (pre ++ [t]).length = pre.length + 1 := trunc_length_cut
  have hfind : findRouterBgpIdx (pre ++ t :: post) 0 =
      findRouterBgpIdx (pre ++ [t]) 0 ∧
      findRouterBgpIdx (pre ++ [t]) 0 < pre.length := by
    rw [findRouterBgpIdx, findRouterBgpIdx]
    rcases findRouterBgpIdxF_truncAgree hnrb ((pre ++ t :: post).length + 1)
      0 (by omega) (by omega) ⟨j, by omega, hjp, hjm⟩ with ⟨ha, hb⟩
    have hirr := @findRouterBgpIdxF_fuel_irrel (pre ++ [t])
      ((pre ++ [t]).length) ((pre ++ t :: post).length + 1)
      ((pre ++ [t]).length + 1) 0 (by omega) (by omega) (by omega)
    refine ⟨?_, ?_⟩
    · rw [ha]
      exact hirr
    · rw [← hirr]
      exact hb
  rw [hfind.1]
  exact nbScanGo_truncAgree hterm hnrb (findRouterBgpIdx (pre ++ [t]) 0)
    (by omega) nb

theorem pgGoF_truncAgree {pre post : List Str} {t : Str} {gname : Str}
    (hterm : isTermLine t = true) :
    ∀ (fuel : Nat), ∀ i ≤ pre.length, ∀ (g : PeerGroup),
    pgGoF (pre ++ t :: post) gname fuel i g =
      pgGoF (pre ++ [t]) gname fuel i g ∧
    (pgGoF (pre ++ [t]) gname fuel i g).2 ≤ pre.length + 1 := by
  intro fuel
  induction fuel with
  | zero =>
    intro i hi g
    refine ⟨rfl, ?_⟩
    show i ≤ pre.length + 1
    omega
  | succ fuel ih =>
    intro i hi g
    have hiA : i < (pre ++ t :: post).length := by
      rw [trunc_length_full]; omega
    have hiB : i < (pre ++ [t]).length := by
      rw [trunc_length_cut]; omega
    rw [pgGoF, pgGoF, if_pos hiA, if_pos hiB, trunc_getD_agree i hi]
    simp only []
    rcases Nat.lt_or_eq_of_le hi with hlt | heq
    · by_cases h1 : (!startsWith ((pre ++ [t]).getD i []) (str "   ") &&
          !startsWith ((pre ++ [t]).getD i []) (str "!") &&
          !(strip ((pre ++ [t]).getD i [])).isEmpty) = true
      · rw [if_pos h1, if_pos h1]
        exact ⟨rfl, by omega⟩
      · rw [if_neg h1, if_neg h1]
        by_cases h2 : startsWith (strip ((pre ++ [t]).getD i [])) (nbKey gname)
            = true
        · rw [if_pos h2, if_pos h2]
          exact ih (i + 1) (by omega) _
        · rw [if_neg h2, if_neg h2]
          by_cases h3 : startsWith (strip ((pre ++ [t]).getD i []))
              (str "neighbor ") = true
          · rw [if_pos h3, if_pos h3]
            by_cases h4 : (hasSub (str "peer group")
                (strip ((pre ++ [t]).getD i [])) &&
                !hasSub gname (strip ((pre ++ [t]).getD i []))) = true
            · rw [if_pos h4, if_pos h4]
              exact ⟨rfl, by omega⟩
            · rw [if_neg h4, if_neg h4]
              by_cases h5 : (!hasSub (str "peer group")
                  (strip ((pre ++ [t]).getD i []))) = true
              · rw [if_pos h5, if_pos h5]
                exact ⟨rfl, by omega⟩
              · rw [if_neg h5, if_neg h5]
                exact ih (i + 1) (by omega) g
          · rw [if_neg h3, if_neg h3]
            exact ih (i + 1) (by omega) g
    · subst heq
      rw [trunc_getD_t_cut]
      rcases isTermLine_parts hterm with ⟨hs1, hs2, hs3⟩
      have h1 : (!startsWith t (str "   ") && !startsWith t (str "!") &&
          !(strip t).isEmpty) = true := by
        rw [sw3_false_of_sw1_false hs1, hs2, hs3]
        rfl
      rw [if_pos h1, if_pos h1]
      exact ⟨rfl, by omega⟩

theorem parse_peer_group_truncAgree {pre post : List Str} {t : Str}
    {gname : Str} (hterm : isTermLine t = true) :
    ∀ i ≤ pre.length,
    parse_peer_group (pre ++ t :: post) i gname =
      parse_peer_group (pre ++ [t]) i gname ∧
    (parse_peer_group (pre ++ [t]) i gname).2 ≤ pre.length := by
  intro i hi
  have hlenA : (pre ++ t :: post).length = pre.length + post.length + 1 :=
    trunc_length_full
  have hlenB : (pre ++ [t]).length = pre.length + 1 := trunc_length_cut
  have hgo : pgGo (pre ++ t :: post) gname i (initPg gname) =
      pgGo (pre ++ [t]) gname i (initPg gname) ∧
      (pgGo (pre ++ [t]) gname i (initPg gname)).2 ≤ pre.length + 1 := by
    rw [pgGo, pgGo]
    rcases pgGoF_truncAgree hterm ((pre ++ t :: post).length + 1) i hi
      (initPg gname) with ⟨ha, hb⟩
    have hirr := @pgGoF_fuel_irrel (pre ++ [t]) gname
      ((pre ++ [t]).length) ((pre ++ t :: post).length + 1)
      ((pre ++ [t]).length + 1) i (initPg gname) (by omega) (by omega)
      (by omega)
    refine ⟨?_, ?_⟩
    · rw [ha]
      exact hirr
    · rw [← hirr]
      exact hb
  rw [parse_peer_group, parse_peer_group, hgo.1]
  refine ⟨rfl, ?_⟩
  show (pgGo (pre ++ [t]) gname i (initPg gname)).2 - 1 ≤ pre.length
  have := hgo.2
  omega



theorem vrf_if_name {v : Vrf} (c : Prop) [Decidable c] (ns : List Neighbor) :
    (if c then { v with neighbors := ns } else v).name = v.name := by
  by_cases hg : c
  · simp [if_pos hg]
  · simp [if_neg hg]

theorem vrf_if_rd {v : Vrf} (c : Prop) [Decidable c] (ns : List Neighbor) :
    (if c then { v with neighbors := ns } else v).rd = v.rd := by
  by_cases hg : c
  · simp [if_pos hg]
  · simp [if_neg hg]

theorem vrfBlockGo_truncAgree {pre post : List Str} {t : Str}
    (hterm : isTermLine t = true)
    (hnrb : startsWith (strip t) (str "router bgp") = false) :
    ∀ (fuel i : Nat) (vA vB : Vrf) (processed : List Str) (r1 : Vrf × Nat),
    i ≤ pre.length → vA.name = vB.name → vA.rd = vB.rd →
    vrfBlockGo (pre ++ t :: post) fuel i vA processed = some r1 →
    ∃ r2, vrfBlockGo (pre ++ [t]) fuel i vB processed = some r2 ∧
      r1.1.name = r2.1.name ∧ r1.1.rd = r2.1.rd ∧ r1.2 = r2.2 ∧
      r1.2 ≤ pre.length := by
  intro fuel
  induction fuel with
  | zero =>
    intro i vA vB processed r1 hi hnm hrd h
    exact Option.noConfusion h
  | succ fuel ih =>
    intro i vA vB processed r1 hi hnm hrd h
    have hiA : i < (pre ++ t :: post).length := by
      rw [trunc_length_full]; omega
    have hiB : i < (pre ++ [t]).length := by
      rw [trunc_length_cut]; omega
    rw [vrfBlockGo] at h ⊢
    rw [if_pos hiA] at h
    rw [if_pos hiB]
    simp only [] at h ⊢
    rw [trunc_getD_agree i hi] at h
    rcases Nat.lt_or_eq_of_le hi with hlt | heq
    · by_cases h1 : (startsWith ((pre ++ [t]).getD i []) (str "   vrf ") ||
          isTermLine ((pre ++ [t]).getD i [])) = true
      · rw [if_pos h1] at h
        rw [if_pos h1]
        injection h with h2
        refine ⟨(vB, i - 1), rfl, ?_, ?_, ?_, ?_⟩
        · rw [← h2]; exact hnm
        · rw [← h2]; exact hrd
        · rw [← h2]
        · rw [← h2]
          show i - 1 ≤ pre.length
          omega
      · rw [if_neg h1] at h
        rw [if_neg h1]
        by_cases h2 : startsWith (strip ((pre ++ [t]).getD i [])) (str "rd ")
            = true
        · rw [if_pos h2] at h
          rw [if_pos h2]
          refine ih (i + 1) _ _ processed r1 (by omega) ?_ ?_ h
          · exact hnm
          · rfl
        · rw [if_neg h2] at h
          rw [if_neg h2]
          by_cases h3 : (startsWith (strip ((pre ++ [t]).getD i []))
              (str "neighbor ") &&
              startsWith ((pre ++ [t]).getD i []) (str "      neighbor "))
              = true
          · rw [if_pos h3] at h
            rw [if_pos h3]
            by_cases h4 : 2 ≤ (words (strip ((pre ++ [t]).getD i []))).length
            · rw [if_pos h4] at h
              rw [if_pos h4]
              by_cases h5 : matchIp
                  ((words (strip ((pre ++ [t]).getD i []))).getD 1 []) = true
              · rw [if_pos h5] at h
                rw [if_pos h5]
                by_cases h6 : (words (strip ((pre ++ [t]).getD i []))).getD 1 []
                    ∈ processed
                · rw [if_pos h6] at h
                  rw [if_pos h6]
                  exact ih (i + 1) vA vB processed r1 (by omega) hnm hrd h
                · rw [if_neg h6] at h
                  rw [if_neg h6]
                  refine ih i _ _ _ r1 (by omega) ?_ ?_ h
                  · rw [vrf_if_name, vrf_if_name]
                    exact hnm
                  · rw [vrf_if_rd, vrf_if_rd]
                    exact hrd
              · rw [if_neg h5] at h
                rw [if_neg h5]
                exact ih (i + 1) vA vB processed r1 (by omega) hnm hrd h
            · rw [if_neg h4] at h
              rw [if_neg h4]
              exact ih (i + 1) vA vB processed r1 (by omega) hnm hrd h
          · rw [if_neg h3] at h
            rw [if_neg h3]
            exact ih (i + 1) vA vB processed r1 (by omega) hnm hrd h
    · subst heq
      rw [trunc_getD_t_cut] at h ⊢
      have h1 : (startsWith t (str "   vrf ") || isTermLine t) = true := by
        rw [hterm, Bool.or_true]
      rw [if_pos h1] at h
      rw [if_pos h1]
      injection h with h2
      refine ⟨(vB, pre.length - 1), rfl, ?_, ?_, ?_, ?_⟩
      · rw [← h2]; exact hnm
      · rw [← h2]; exact hrd
      · rw [← h2]
      · rw [← h2]
        show pre.length - 1 ≤ pre.length
        omega



theorem cfgSimBgp_refl (c : Config) : cfgSimBgp c c := ⟨rfl, rfl, rfl, rfl, rfl⟩

theorem cfgSim_routerId {cA cB : Config} {v : Str} (h : cfgSimBgp cA cB) :
    cfgSimBgp { cA with routerId := v } { cB with routerId := v } :=
  ⟨h.1, rfl, h.2.2.1, h.2.2.2.1, h.2.2.2.2⟩

theorem cfgSim_pg {cA cB : Config} {g : PeerGroup} (h : cfgSimBgp cA cB) :
    cfgSimBgp { cA with peerGroups := cA.peerGroups ++ [g] }
      { cB with peerGroups := cB.peerGroups ++ [g] } :=
  ⟨h.1, h.2.1, h.2.2.1, by rw [h.2.2.2.1], h.2.2.2.2⟩

theorem cfgSim_vrfs {cA cB : Config} {v1 v2 : Vrf} (h : cfgSimBgp cA cB)
    (hn : v1.name = v2.name) (hr : v1.rd = v2.rd) :
    cfgSimBgp { cA with vrfs := cA.vrfs ++ [v1] }
      { cB with vrfs := cB.vrfs ++ [v2] } := by
  refine ⟨h.1, h.2.1, h.2.2.1, h.2.2.2.1, ?_⟩
  show (cA.vrfs ++ [v1]).map (fun v => (v.name, v.rd)) =
    (cB.vrfs ++ [v2]).map (fun v => (v.name, v.rd))
  rw [List.map_append, List.map_append, h.2.2.2.2]
  simp [hn, hr]

theorem cfgSim_gnb {cA cB : Config} (h : cfgSimBgp cA cB) (c : Prop)
    [Decidable c] (nb : Neighbor) :
    cfgSimBgp
      (if c then
        { cA with globalNeighbors := cA.globalNeighbors ++ [nb] } else cA)
      (if c then
        { cB with globalNeighbors := cB.globalNeighbors ++ [nb] } else cB) := by
  by_cases hg : c
  · rw [if_pos hg, if_pos hg]
    exact ⟨h.1, h.2.1, by rw [h.2.2.1], h.2.2.2.1, h.2.2.2.2⟩
  · rw [if_neg hg, if_neg hg]
    exact h

theorem bgpBlockGo_truncAgree {pre post : List Str} {t : Str}
    (hterm : isTermLine t = true)
    (hnrb : startsWith (strip t) (str "router bgp") = false)
    (hdr : ∃ j, j < pre.length ∧
      startsWith (strip ((pre ++ [t]).getD j [])) (str "router bgp") = true) :
    ∀ (fuel i : Nat) (cfgA cfgB : Config) (processed : List Str)
    (r1 : Config × Nat), i ≤ pre.length → cfgSimBgp cfgA cfgB →
    bgpBlockGo (pre ++ t :: post) fuel i cfgA processed = some r1 →
    ∃ r2, bgpBlockGo (pre ++ [t]) fuel i cfgB processed = some r2 ∧
      cfgSimBgp r1.1 r2.1 ∧ r1.2 = r2.2 ∧ r1.2 ≤ pre.length := by
  intro fuel
  induction fuel with
  | zero =>
    intro i cfgA cfgB processed r1 hi hsim h
    exact Option.noConfusion h
  | succ fuel ih =>
    intro i cfgA cfgB processed r1 hi hsim h
    have hiA : i < (pre ++ t :: post).length := by
      rw [trunc_length_full]; omega
    have hiB : i < (pre ++ [t]).length := by
      rw [trunc_length_cut]; omega
    rw [bgpBlockGo] at h ⊢
    rw [if_pos hiA] at h
    rw [if_pos hiB]
    simp only [] at h ⊢
    rw [trunc_getD_agree i hi] at h
    rcases Nat.lt_or_eq_of_le hi with hlt | heq
    · by_cases h1 : (isTermLine ((pre ++ [t]).getD i []) &&
          !startsWith (strip ((pre ++ [t]).getD i [])) (str "router bgp"))
          = true
      · rw [if_pos h1] at h
        rw [if_pos h1]
        injection h with h2
        refine ⟨(cfgB, i), rfl, ?_, ?_, ?_⟩
        · rw [← h2]; exact hsim
        · rw [← h2]
        · rw [← h2]
          show i ≤ pre.length
          omega
      · rw [if_neg h1] at h
        rw [if_neg h1]
        by_cases h2 : startsWith (strip ((pre ++ [t]).getD i []))
            (str "router-id ") = true
        · rw [if_pos h2] at h
          rw [if_pos h2]
          refine ih (i + 1) _ _ processed r1 (by omega) ?_ h
          exact cfgSim_routerId hsim
        · rw [if_neg h2] at h
          rw [if_neg h2]
          by_cases h3 : (startsWith (strip ((pre ++ [t]).getD i []))
              (str "neighbor ") &&
              hasSub (str "peer group") (strip ((pre ++ [t]).getD i [])) &&
              startsWith ((pre ++ [t]).getD i []) (str "   neighbor ")) = true
          · rw [if_pos h3] at h
            rw [if_pos h3]
            by_cases h4 : 4 ≤ (words (strip ((pre ++ [t]).getD i []))).length ∧
                (words (strip ((pre ++ [t]).getD i []))).getD 2 [] = str "peer" ∧
                (words (strip ((pre ++ [t]).getD i []))).getD 3 [] = str "group"
            · rw [if_pos h4] at h
              rw [if_pos h4]
              by_cases h5 : (!matchIp
                  ((words (strip ((pre ++ [t]).getD i []))).getD 1 [])) = true
              · rw [if_pos h5] at h
                rw [if_pos h5]
                rcases @parse_peer_group_truncAgree pre post t
                    ((words (strip ((pre ++ [t]).getD i []))).getD 1 [])
                    hterm i (by omega)
                  with ⟨hpp, hple⟩
                rw [hpp] at h
                cases hpg : (parse_peer_group (pre ++ [t]) i
                    ((words (strip ((pre ++ [t]).getD i []))).getD 1 [])).1 with
                | some g =>
                  rw [hpg] at h
                  refine ih (parse_peer_group (pre ++ [t]) i
                    ((words (strip ((pre ++ [t]).getD i []))).getD 1 [])).2
                    _ _ processed r1 (by omega) ?_ h
                  exact cfgSim_pg hsim
                | none =>
                  rw [hpg] at h
                  exact ih (parse_peer_group (pre ++ [t]) i
                    ((words (strip ((pre ++ [t]).getD i []))).getD 1 [])).2
                    _ _ processed r1 (by omega) hsim h
              · rw [if_neg h5] at h
                rw [if_neg h5]
                exact ih (i + 1) _ _ processed r1 (by omega) hsim h
            · rw [if_neg h4] at h
              rw [if_neg h4]
              exact ih (i + 1) _ _ processed r1 (by omega) hsim h
          · rw [if_neg h3] at h
            rw [if_neg h3]
            by_cases h6 : (startsWith (strip ((pre ++ [t]).getD i []))
                (str "vrf ") &&
                startsWith ((pre ++ [t]).getD i []) (str "   vrf ")) = true
            · rw [if_pos h6] at h
              rw [if_pos h6]
              cases hv : vrfBlockGo (pre ++ t :: post) fuel (i + 1)
                  ⟨(words (strip ((pre ++ [t]).getD i []))).getD 1 [], [], []⟩
                  [] with
              | none =>
                rw [hv] at h
                exact Option.noConfusion h
              | some vrA =>
                rw [hv] at h
                rcases vrfBlockGo_truncAgree hterm hnrb fuel (i + 1)
                  ⟨(words (strip ((pre ++ [t]).getD i []))).getD 1 [], [], []⟩
                  ⟨(words (strip ((pre ++ [t]).getD i []))).getD 1 [], [], []⟩
                  [] vrA (by omega) rfl rfl hv with
                  ⟨vrB, hvB, hn, hr, hidx, hle2⟩
                rw [hvB]
                have h9 : bgpBlockGo (pre ++ t :: post) fuel vrB.2
                    { cfgA with vrfs := cfgA.vrfs ++ [vrA.1] } processed
                    = some r1 := by
                  rw [← hidx]
                  exact h
                refine ih vrB.2 _ _ processed r1 (by omega) ?_ h9
                exact cfgSim_vrfs hsim hn hr
            · rw [if_neg h6] at h
              rw [if_neg h6]
              by_cases h7 : (startsWith (strip ((pre ++ [t]).getD i []))
                  (str "neighbor ") &&
                  startsWith ((pre ++ [t]).getD i []) (str "   neighbor ") &&
                  !hasSub (str "peer group") (strip ((pre ++ [t]).getD i [])))
                  = true
              · rw [if_pos h7] at h
                rw [if_pos h7]
                by_cases h8 : 2 ≤ (words (strip ((pre ++ [t]).getD i []))).length
                · rw [if_pos h8] at h
                  rw [if_pos h8]
                  by_cases h9 : matchIp
                      ((words (strip ((pre ++ [t]).getD i []))).getD 1 [])
                      = true
                  · rw [if_pos h9] at h
                    rw [if_pos h9]
                    by_cases h10 : (words (strip ((pre ++ [t]).getD i []))).getD
                        1 [] ∈ processed
                    · rw [if_pos h10] at h
                      rw [if_pos h10]
                      exact ih (i + 1) _ _ processed r1 (by omega) hsim h
                    · rw [if_neg h10] at h
                      rw [if_neg h10]
                      rw [parse_neighbor_block_global_truncAgree hterm hnrb hdr
                        (initNbGlobal
                          ((words (strip ((pre ++ [t]).getD i []))).getD 1 []))]
                        at h
                      refine ih i _ _ _ r1 (by omega) ?_ h
                      exact cfgSim_gnb hsim _ _
                  · rw [if_neg h9] at h
                    rw [if_neg h9]
                    exact ih (i + 1) _ _ processed r1 (by omega) hsim h
                · rw [if_neg h8] at h
                  rw [if_neg h8]
                  exact ih (i + 1) _ _ processed r1 (by omega) hsim h
              · rw [if_neg h7] at h
                rw [if_neg h7]
                exact ih (i + 1) _ _ processed r1 (by omega) hsim h
    · subst heq
      rw [trunc_getD_t_cut] at h ⊢
      have h1 : (isTermLine t && !startsWith (strip t) (str "router bgp"))
          = true := by
        rw [hterm, hnrb]
        rfl
      rw [if_pos h1] at h
      rw [if_pos h1]
      injection h with h2
      refine ⟨(cfgB, pre.length), rfl, ?_, ?_, ?_⟩
      · rw [← h2]; exact hsim
      · rw [← h2]
      · rw [← h2]



theorem cfgSim_asNumber {cA cB : Config} {v : Str} (h : cfgSimBgp cA cB) :
    cfgSimBgp { cA with asNumber := v } { cB with asNumber := v } :=
  ⟨rfl, h.2.1, h.2.2.1, h.2.2.2.1, h.2.2.2.2⟩

theorem bgpSectionGoF_truncAgree {pre post : List Str} {t : Str}
    (hterm : isTermLine t = true)
    (hnrb : startsWith (strip t) (str "router bgp") = false)
    {bfA bfB : Nat} (hbf : bfB ≤ bfA) :
    ∀ (fuel i : Nat) (cfgA0 cfgB0 cfgA' cfgB' : Config),
    i ≤ pre.length → cfgSimBgp cfgA0 cfgB0 →
    (∃ j, i ≤ j ∧ j < pre.length ∧
      startsWith (strip ((pre ++ [t]).getD j [])) (str "router bgp ") = true) →
    bgpSectionGoF (pre ++ t :: post) bfA fuel i cfgA0 = some cfgA' →
    bgpSectionGoF (pre ++ [t]) bfB fuel i cfgB0 = some cfgB' →
    cfgSimBgp cfgA' cfgB' := by
  intro fuel
  induction fuel with
  | zero =>
    intro i cfgA0 cfgB0 cfgA' cfgB' hi hsim hex hA hB
    injection hA with hA2
    injection hB with hB2
    rw [← hA2, ← hB2]
    exact hsim
  | succ fuel ih =>
    intro i cfgA0 cfgB0 cfgA' cfgB' hi hsim hex hA hB
    have hiA : i < (pre ++ t :: post).length := by
      rw [trunc_length_full]; omega
    have hiB : i < (pre ++ [t]).length := by
      rw [trunc_length_cut]; omega
    rw [bgpSectionGoF] at hA hB
    rw [if_pos hiA] at hA
    rw [if_pos hiB] at hB
    simp only [] at hA hB
    rw [trunc_getD_agree i hi] at hA
    by_cases hm : startsWith (strip ((pre ++ [t]).getD i []))
        (str "router bgp ") = true
    · rw [if_pos hm] at hA hB
      have hilt : i < pre.length := by
        rcases Nat.lt_or_eq_of_le hi with hlt | heq
        · exact hlt
        · subst heq
          rw [trunc_getD_t_cut] at hm
          rw [startsWith_rb_of_rbsp hm] at hnrb
          exact Bool.noConfusion hnrb
      have hdrF : ∃ j, j < pre.length ∧
          startsWith (strip ((pre ++ [t]).getD j [])) (str "router bgp")
          = true :=
        ⟨i, hilt, startsWith_rb_of_rbsp hm⟩
      cases hbA : bgpBlockGo (pre ++ t :: post) bfA (i + 1)
          { cfgA0 with asNumber :=
            (words (strip ((pre ++ [t]).getD i []))).getD 2 [] } [] with
      | none =>
        rw [hbA] at hA
        exact Option.noConfusion hA
      | some rA =>
        rw [hbA] at hA
        cases hbB : bgpBlockGo (pre ++ [t]) bfB (i + 1)
            { cfgB0 with asNumber :=
              (words (strip ((pre ++ [t]).getD i []))).getD 2 [] } [] with
        | none =>
          rw [hbB] at hB
          exact Option.noConfusion hB
        | some rB =>
          rw [hbB] at hB
          injection hA with hA2
          injection hB with hB2
          have hbB2 := bgpBlockGo_fuel_mono bfB bfA hbf hbB
          rcases bgpBlockGo_truncAgree hterm hnrb hdrF bfA (i + 1) _ _ [] rA
            (by omega) (cfgSim_asNumber hsim) hbA with
            ⟨rB', hB', hsim', hidx', hle'⟩
          rw [hbB2] at hB'
          injection hB' with hB'2
          rw [← hA2, ← hB2, hB'2]
          exact hsim'
    · rw [if_neg hm] at hA hB
      rcases hex with ⟨j, hij, hjp, hjm⟩
      have hine : i ≠ j := by
        intro heq
        rw [← heq] at hjm
        exact hm hjm
      exact ih (i + 1) cfgA0 cfgB0 cfgA' cfgB' (by omega) hsim
        ⟨j, by omega, hjp, hjm⟩ hA hB

/-- C8 (amended): an unindented, non-blank, non-comment line that does not
start with `router bgp` terminates the BGP block: when the BGP section
header occurs before such a terminator, every line after the terminator is
irrelevant to the parsed AS number, router id, global neighbors and peer
groups, and to the name and route distinguisher of every VRF — truncating
the input at the terminator leaves all of them unchanged. (The original
claim fails only for the neighbor records inside VRFs, whose per-neighbor
rescan searches the whole input and can re-enter BGP scope at a later
`router bgp` line; see the counterexample.) -/
theorem C8_truncation_amended {pre post : List Str} {t : Str}
    {cfgA cfgB : Config}
    (hterm : isTermLine t = true)
    (hnrb : startsWith (strip t) (str "router bgp") = false)
    (hdr : ∃ j, j < pre.length ∧
      startsWith (strip ((pre ++ [t]).getD j [])) (str "router bgp ") = true)
    (hA : parseLines (pre ++ t :: post) = some cfgA)
    (hB : parseLines (pre ++ [t]) = some cfgB) :
    cfgSimBgp cfgA cfgB := by
  rcases hdr with ⟨j, hjp, hjm⟩
  rw [parseLines, parse_bgp_section] at hA hB
  have hlenA : (pre ++ t :: post).length = pre.length + post.length + 1 :=
    trunc_length_full
  have hlenB : (pre ++ [t]).length = pre.length + 1 := trunc_length_cut
  have hbf : bgpFuel (pre ++ [t]) ≤ bgpFuel (pre ++ t :: post) := by
    rw [bgpFuel, bgpFuel]
    exact Nat.mul_le_mul (by omega) (by omega)
  have hB2 : bgpSectionGoF (pre ++ [t]) (bgpFuel (pre ++ [t]))
      ((pre ++ t :: post).length + 1) 0
      (parse_route_maps (pre ++ [t])
        (parse_as_path_sets (pre ++ [t])
          (parse_access_lists (pre ++ [t])
            (parse_community_lists (pre ++ [t])
              (parse_prefix_lists (pre ++ [t]) resetConfig))))) = some cfgB := by
    rw [bgpSectionGoF_fuel_irrel ((pre ++ [t]).length)
      ((pre ++ t :: post).length + 1) ((pre ++ [t]).length + 1) 0 _ (by omega)
      (by omega) (by omega)]
    exact hB
  have hsim0 : cfgSimBgp
      (parse_route_maps (pre ++ t :: post)
        (parse_as_path_sets (pre ++ t :: post)
          (parse_access_lists (pre ++ t :: post)
            (parse_community_lists (pre ++ t :: post)
              (parse_prefix_lists (pre ++ t :: post) resetConfig)))))
      (parse_route_maps (pre ++ [t])
        (parse_as_path_sets (pre ++ [t])
          (parse_access_lists (pre ++ [t])
            (parse_community_lists (pre ++ [t])
              (parse_prefix_lists (pre ++ [t]) resetConfig))))) :=
    ⟨rfl, rfl, rfl, rfl, rfl⟩
  exact bgpSectionGoF_truncAgree hterm hnrb hbf
    ((pre ++ t :: post).length + 1) 0
    (parse_route_maps (pre ++ t :: post)
      (parse_as_path_sets (pre ++ t :: post)
        (parse_access_lists (pre ++ t :: post)
          (parse_community_lists (pre ++ t :: post)
            (parse_prefix_lists (pre ++ t :: post) resetConfig)))))
    (parse_route_maps (pre ++ [t])
      (parse_as_path_sets (pre ++ [t])
        (parse_access_lists (pre ++ [t])
          (parse_community_lists (pre ++ [t])
            (parse_prefix_lists (pre ++ [t]) resetConfig)))))
    cfgA cfgB (by omega) hsim0 ⟨j, by omega, hjp, hjm⟩ hA hB2

theorem C8_truncation_amended_witness : cfgSimBgp c10Expected c10Expected :=
  @C8_truncation_amended
    [str "router bgp 65000", str "   router-id 1.1.1.1"]
    [str "   router-id 9.9.9.9"] (str "end") c10Expected c10Expected
    (by decide) (by decide) ⟨0, by decide, by decide⟩ (by decide) (by decide)

theorem startsWith_neighbor_not_routerid {s : Str}
    (h : startsWith s (str "neighbor ") = true) :
    startsWith s (str "router-id ") = false := by
  rcases startsWith_eq_append h with ⟨r, rfl⟩
  rfl

theorem startsWith_neighbor_not_vrf {s : Str}
    (h : startsWith s (str "neighbor ") = true) :
    startsWith s (str "vrf ") = false := by
  rcases startsWith_eq_append h with ⟨r, rfl⟩
  rfl

theorem isTermLine_false_of_space {l : Str}
    (h : startsWith l (str " ") = true) : isTermLine l = false := by
  rw [isTermLine, h]
  rfl

/-- C3 counterexample: in `c3Input` the first top-level neighbor line (line
index 1) is the peer-group assignment `neighbor 10.0.0.1 peer group PG` —
3-space-indented, of the form `neighbor <dotted-quad-ip> ...`, not a
peer-group definition since its second token is an IP — yet it triggers no
rescan and creates no record: the first emitted global neighbor is
10.0.0.2 from the later line, and 10.0.0.1's record (emitted only when its
plain `remote-as` line is reached) lists the assignment fragment after it.
Had the assignment line triggered the rescan, 10.0.0.1's record would
precede 10.0.0.2's. -/
theorem C3_assignment_line_counterexample :
    (normalizeLines c3Input).getD 1 [] =
      str "   neighbor 10.0.0.1 peer group PG" ∧
    startsWith (str "   neighbor 10.0.0.1 peer group PG")
      (str "   neighbor ") = true ∧
    matchIp ((words (strip (str "   neighbor 10.0.0.1 peer group PG"))).getD
      1 []) = true ∧
    (∀ l ∈ (normalizeLines c3Input).take 1,
      startsWith (strip l) (str "neighbor ") = false) ∧
    (parse_config c3Input).isSome = true ∧
    ((parse_config c3Input).getD resetConfig).globalNeighbors.map
      (fun nb => nb.ip) = [str "10.0.0.2", str "10.0.0.1"] ∧
    ((parse_config c3Input).getD resetConfig).peerGroups = [] := by
  decide

/-- C3 (amended): at a 3-space-indented top-level line `neighbor <ip> ...`
whose text contains `peer group` — in particular a peer-group assignment
line, recognized by its IP second token — the BGP block loop does nothing:
no rescan, no record, no marking of the IP as processed (first conjunct).
The full rescan into a single guarded record, with the IP marked processed,
is triggered only at such a line without the `peer group` text (second
conjunct), and a later line for an already-processed IP is skipped (third
conjunct). -/
theorem C3_rescan_trigger_steps :
    (∀ (lines : List Str) (fuel i : Nat) (cfg : Config)
      (processed : List Str),
      i < lines.length →
      startsWith (lines.getD i []) (str "   neighbor ") = true →
      startsWith (strip (lines.getD i [])) (str "neighbor ") = true →
      hasSub (str "peer group") (strip (lines.getD i [])) = true →
      4 ≤ (words (strip (lines.getD i []))).length →
      (words (strip (lines.getD i []))).getD 2 [] = str "peer" →
      (words (strip (lines.getD i []))).getD 3 [] = str "group" →
      matchIp ((words (strip (lines.getD i []))).getD 1 []) = true →
      bgpBlockGo lines (fuel + 1) i cfg processed =
        bgpBlockGo lines fuel (i + 1) cfg processed) ∧
    (∀ (lines : List Str) (fuel i : Nat) (cfg : Config)
      (processed : List Str),
      i < lines.length →
      startsWith (lines.getD i []) (str "   neighbor ") = true →
      startsWith (strip (lines.getD i [])) (str "neighbor ") = true →
      hasSub (str "peer group") (strip (lines.getD i [])) = false →
      2 ≤ (words (strip (lines.getD i []))).length →
      matchIp ((words (strip (lines.getD i []))).getD 1 []) = true →
      (words (strip (lines.getD i []))).getD 1 [] ∉ processed →
      bgpBlockGo lines (fuel + 1) i cfg processed =
        bgpBlockGo lines fuel i
          (if (!(parse_neighbor_block_global lines
              (initNbGlobal ((words (strip (lines.getD i []))).getD 1 []))).remoteAs.isEmpty ||
              !(parse_neighbor_block_global lines
                (initNbGlobal ((words (strip (lines.getD i []))).getD 1 []))).description.isEmpty) = true then
            { cfg with globalNeighbors := cfg.globalNeighbors ++
                [parse_neighbor_block_global lines
                  (initNbGlobal ((words (strip (lines.getD i []))).getD 1 []))] }
           else cfg)
          (((words (strip (lines.getD i []))).getD 1 []) :: processed)) ∧
    (∀ (lines : List Str) (fuel i : Nat) (cfg : Config)
      (processed : List Str),
      i < lines.length →
      startsWith (lines.getD i []) (str "   neighbor ") = true →
      startsWith (strip (lines.getD i [])) (str "neighbor ") = true →
      hasSub (str "peer group") (strip (lines.getD i [])) = false →
      2 ≤ (words (strip (lines.getD i []))).length →
      matchIp ((words (strip (lines.getD i []))).getD 1 []) = true →
      (words (strip (lines.getD i []))).getD 1 [] ∈ processed →
      bgpBlockGo lines (fuel + 1) i cfg processed =
        bgpBlockGo lines fuel (i + 1) cfg processed) := by
  have hsp : ∀ (l : Str), startsWith l (str "   neighbor ") = true →
      startsWith l (str " ") = true := by
    intro l h
    exact startsWith_prefix_mono (r := str "  neighbor ") (by decide) h
  refine ⟨?_, ?_, ?_⟩
  · intro lines fuel i cfg processed hlen hsw3 hsw hhs h4 hp2 hp3 hm
    rw [bgpBlockGo, if_pos hlen]
    simp only []
    rw [isTermLine_false_of_space (hsp _ hsw3)]
    rw [if_neg (by rw [Bool.false_and]; exact Bool.false_ne_true)]
    rw [startsWith_neighbor_not_routerid hsw]
    rw [if_neg Bool.false_ne_true]
    rw [if_pos (by rw [hsw, hhs, hsw3]; rfl)]
    rw [if_pos ⟨h4, hp2, hp3⟩, hm]
    rw [if_neg (by rw [Bool.not_true]; exact Bool.false_ne_true)]
  · intro lines fuel i cfg processed hlen hsw3 hsw hhs h2 hm hnp
    rw [bgpBlockGo, if_pos hlen]
    simp only []
    rw [isTermLine_false_of_space (hsp _ hsw3)]
    rw [if_neg (by rw [Bool.false_and]; exact Bool.false_ne_true)]
    rw [startsWith_neighbor_not_routerid hsw]
    rw [if_neg Bool.false_ne_true]
    rw [if_neg (by rw [hsw, hhs]; simp)]
    rw [startsWith_neighbor_not_vrf hsw]
    rw [if_neg (by rw [Bool.false_and]; exact Bool.false_ne_true)]
    rw [if_pos (by rw [hsw, hsw3, hhs]; rfl)]
    rw [if_pos h2, hm]
    rw [if_pos rfl, if_neg hnp]
  · intro lines fuel i cfg processed hlen hsw3 hsw hhs h2 hm hp
    rw [bgpBlockGo, if_pos hlen]
    simp only []
    rw [isTermLine_false_of_space (hsp _ hsw3)]
    rw [if_neg (by rw [Bool.false_and]; exact Bool.false_ne_true)]
    rw [startsWith_neighbor_not_routerid hsw]
    rw [if_neg Bool.false_ne_true]
    rw [if_neg (by rw [hsw, hhs]; simp)]
    rw [startsWith_neighbor_not_vrf hsw]
    rw [if_neg (by rw [Bool.false_and]; exact Bool.false_ne_true)]
    rw [if_pos (by rw [hsw, hsw3, hhs]; rfl)]
    rw [if_pos h2, hm]
    rw [if_pos rfl, if_pos hp]



theorem C3_rescan_trigger_steps_witness :
    (bgpBlockGo [str "   neighbor 10.0.0.1 peer group PG"] 4 0 resetConfig []
      = bgpBlockGo [str "   neighbor 10.0.0.1 peer group PG"] 3 1
        resetConfig []) ∧
    (bgpBlockGo [str "   neighbor 10.0.0.1 remote-as 11"] 4 0 resetConfig []
      = bgpBlockGo [str "   neighbor 10.0.0.1 remote-as 11"] 3 0
        (if (!(parse_neighbor_block_global
            [str "   neighbor 10.0.0.1 remote-as 11"]
            (initNbGlobal ((words (strip ([str "   neighbor 10.0.0.1 remote-as 11"].getD 0 []))).getD 1 []))).remoteAs.isEmpty ||
            !(parse_neighbor_block_global
              [str "   neighbor 10.0.0.1 remote-as 11"]
              (initNbGlobal ((words (strip ([str "   neighbor 10.0.0.1 remote-as 11"].getD 0 []))).getD 1 []))).description.isEmpty) = true then
          { resetConfig with globalNeighbors := resetConfig.globalNeighbors ++
              [parse_neighbor_block_global
                [str "   neighbor 10.0.0.1 remote-as 11"]
                (initNbGlobal ((words (strip ([str "   neighbor 10.0.0.1 remote-as 11"].getD 0 []))).getD 1 []))] }
         else resetConfig)
        (((words (strip ([str "   neighbor 10.0.0.1 remote-as 11"].getD 0 []))).getD 1 []) :: [])) ∧
    (bgpBlockGo [str "   neighbor 10.0.0.1 remote-as 11"] 4 0 resetConfig
        [str "10.0.0.1"]
      = bgpBlockGo [str "   neighbor 10.0.0.1 remote-as 11"] 3 1 resetConfig
        [str "10.0.0.1"]) :=
  ⟨C3_rescan_trigger_steps.1 [str "   neighbor 10.0.0.1 peer group PG"] 3 0
    resetConfig [] (by decide) (by decide) (by decide) (by decide) (by decide)
    (by decide) (by decide) (by decide),
   C3_rescan_trigger_steps.2.1 [str "   neighbor 10.0.0.1 remote-as 11"] 3 0
    resetConfig [] (by decide) (by decide) (by decide) (by decide) (by decide)
    (by decide) (by decide),
   C3_rescan_trigger_steps.2.2 [str "   neighbor 10.0.0.1 remote-as 11"] 3 0
    resetConfig [str "10.0.0.1"] (by decide) (by decide) (by decide)
    (by decide) (by decide) (by decide) (by decide)⟩



/-- C2 counterexample, two facets. In `c2Input` the same `neighbor 10.0.0.1`
appears on two separate 3-space top-level lines of the BGP block, yet the
result contains no record for it at all (neither line sets `remote-as` or a
description, so the merged record fails the retention guard) — not exactly
one. In `c2InputVrf` it appears on two such lines, one after a VRF
sub-section; one record exists but its configs sequence lacks the second
line's fragment `description "X"`: the rescan's VRF skip runs to the next
VRF marker or column-0 terminator, passing over top-level lines that follow
a VRF sub-section. -/
theorem C2_dedup_merge_counterexample :
    ((normalizeLines c2Input).getD 1 [] =
      str "   neighbor 10.0.0.1 route-map FOO in" ∧
    (normalizeLines c2Input).getD 2 [] =
      str "   neighbor 10.0.0.1 route-map BAR out" ∧
    startsWith (strip ((normalizeLines c2Input).getD 1 []))
      (nbKey (str "10.0.0.1")) = true ∧
    startsWith (strip ((normalizeLines c2Input).getD 2 []))
      (nbKey (str "10.0.0.1")) = true ∧
    (parse_config c2Input).isSome = true ∧
    ((parse_config c2Input).getD resetConfig).globalNeighbors = []) ∧
    ((normalizeLines c2InputVrf).getD 1 [] =
      str "   neighbor 10.0.0.1 remote-as 11" ∧
    (normalizeLines c2InputVrf).getD 4 [] =
      str "   neighbor 10.0.0.1 description \"X\"" ∧
    startsWith (strip ((normalizeLines c2InputVrf).getD 4 []))
      (nbKey (str "10.0.0.1")) = true ∧
    (parse_config c2InputVrf).isSome = true ∧
    (∃ nb ∈ ((parse_config c2InputVrf).getD resetConfig).globalNeighbors,
      nb.ip = str "10.0.0.1" ∧
      str "description \"X\"" ∉ nb.configs ∧
      nb.configs = [str "remote-as 11"])) := by
  decide



theorem applyNbConfig_base (nb : Neighbor) (cp : Str) :
    (applyNbConfig nb cp).ip = nb.ip ∧
    (applyNbConfig nb cp).configs = nb.configs ++ [cp] := by
  rw [applyNbConfig]
  by_cases h1 : startsWith cp (str "remote-as ") = true
  · rw [if_pos h1]
    exact ⟨rfl, rfl⟩
  · rw [if_neg h1]
    by_cases h2 : startsWith cp (str "peer group ") = true
    · rw [if_pos h2]
      exact ⟨rfl, rfl⟩
    · rw [if_neg h2]
      by_cases h3 : startsWith cp (str "description ") = true
      · rw [if_pos h3]
        exact ⟨rfl, rfl⟩
      · rw [if_neg h3]
        by_cases h5 : (hasSub (str "route-map ") cp && hasSub (str " in") cp)
            = true
        · rw [if_pos h5]
          exact ⟨rfl, rfl⟩
        · rw [if_neg h5]
          by_cases h6 : (hasSub (str "route-map ") cp &&
              hasSub (str " out") cp) = true
          · rw [if_pos h6]
            exact ⟨rfl, rfl⟩
          · rw [if_neg h6]
            by_cases h7 : startsWith cp (str "default-originate") = true
            · rw [if_pos h7]
              by_cases h8 : hasSub (str "route-map ") cp = true
              · rw [if_pos h8]
                exact ⟨rfl, rfl⟩
              · rw [if_neg h8]
                exact ⟨rfl, rfl⟩
            · rw [if_neg h7]
              exact ⟨rfl, rfl⟩

theorem nbScanGoF_ip {lines : List Str} {ip : Str} :
    ∀ (fuel i : Nat) (nb : Neighbor),
    (nbScanGoF lines ip fuel i nb).ip = nb.ip := by
  intro fuel
  induction fuel with
  | zero => intro i nb; rfl
  | succ fuel ih =>
    intro i nb
    rw [nbScanGoF]
    by_cases hlen : i < lines.length
    · rw [if_pos hlen]
      simp only []
      by_cases h1 : (isTermLine (lines.getD i []) &&
          !startsWith (strip (lines.getD i [])) (str "router bgp")) = true
      · rw [if_pos h1]
      · rw [if_neg h1]
        by_cases h2 : startsWith (lines.getD i []) (str "   vrf ") = true
        · rw [if_pos h2]
          exact ih _ _
        · rw [if_neg h2]
          by_cases h3 : startsWith (strip (lines.getD i [])) (nbKey ip) = true
          · rw [if_pos h3]
            rw [ih _ _]
            exact (applyNbConfig_base nb _).1
          · rw [if_neg h3]
            exact ih _ _
    · rw [if_neg hlen]

theorem parse_neighbor_block_global_ip {lines : List Str} {ip : Str} :
    (parse_neighbor_block_global lines (initNbGlobal ip)).ip = ip := by
  rw [parse_neighbor_block_global, nbScanGo]
  exact nbScanGoF_ip _ _ _

theorem nbScanGoF_configs_mono {lines : List Str} {ip : Str} :
    ∀ (fuel i : Nat) (nb : Neighbor) (c : Str), c ∈ nb.configs →
    c ∈ (nbScanGoF lines ip fuel i nb).configs := by
  intro fuel
  induction fuel with
  | zero => intro i nb c hc; exact hc
  | succ fuel ih =>
    intro i nb c hc
    rw [nbScanGoF]
    by_cases hlen : i < lines.length
    · rw [if_pos hlen]
      simp only []
      by_cases h1 : (isTermLine (lines.getD i []) &&
          !startsWith (strip (lines.getD i [])) (str "router bgp")) = true
      · rw [if_pos h1]
        exact hc
      · rw [if_neg h1]
        by_cases h2 : startsWith (lines.getD i []) (str "   vrf ") = true
        · rw [if_pos h2]
          exact ih _ _ c hc
        · rw [if_neg h2]
          by_cases h3 : startsWith (strip (lines.getD i [])) (nbKey ip) = true
          · rw [if_pos h3]
            refine ih _ _ c ?_
            rw [(applyNbConfig_base nb _).2]
            exact List.mem_append_left _ hc
          · rw [if_neg h3]
            exact ih _ _ c hc
    · rw [if_neg hlen]
      exact hc

theorem stop_cond_false {l : Str}
    (h : ¬(isTermLine l = true ∧
      startsWith (strip l) (str "router bgp") = false)) :
    (isTermLine l && !startsWith (strip l) (str "router bgp")) = false := by
  cases ht : isTermLine l with
  | false => rfl
  | true =>
    cases hs : startsWith (strip l) (str "router bgp") with
    | false => exact absurd ⟨ht, hs⟩ h
    | true => rfl

theorem nbScanGoF_collects {lines : List Str} {X : Str} {j : Nat}
    (hj : j < lines.length)
    (hmj : startsWith (strip (lines.getD j [])) (nbKey X) = true) :
    ∀ (fuel i : Nat) (nb : Neighbor), i ≤ j → j - i < fuel →
    (∀ k, i ≤ k → k ≤ j →
      ¬(isTermLine (lines.getD k []) = true ∧
        startsWith (strip (lines.getD k [])) (str "router bgp") = false) ∧
      startsWith (lines.getD k []) (str "   vrf ") = false) →
    strip ((strip (lines.getD j [])).drop (nbKey X).length) ∈
      (nbScanGoF lines X fuel i nb).configs := by
  intro fuel
  induction fuel with
  | zero =>
    intro i nb hij hf hk
    omega
  | succ fuel ih =>
    intro i nb hij hf hk
    have hlen : i < lines.length := by omega
    rw [nbScanGoF, if_pos hlen]
    simp only []
    rcases hk i (Nat.le_refl i) hij with ⟨hk1, hk2⟩
    rw [stop_cond_false hk1]
    rw [if_neg Bool.false_ne_true, hk2]
    rw [if_neg Bool.false_ne_true]
    rcases Nat.lt_or_eq_of_le hij with hlt | heq
    · by_cases hmatch : startsWith (strip (lines.getD i [])) (nbKey X) = true
      · rw [if_pos hmatch]
        exact ih (i + 1) _ (by omega) (by omega)
          (fun k hk1 hk2 => hk k (by omega) hk2)
      · rw [if_neg hmatch]
        exact ih (i + 1) nb (by omega) (by omega)
          (fun k hk1 hk2 => hk k (by omega) hk2)
    · subst heq
      rw [if_pos hmj]
      refine nbScanGoF_configs_mono fuel (i + 1) _ _ ?_
      rw [(applyNbConfig_base nb _).2]
      exact List.mem_append_right _ (List.mem_singleton.mpr rfl)

theorem parse_neighbor_block_global_collects {lines : List Str} {X : Str}
    {j : Nat} (hj : j < lines.length)
    (hmj : startsWith (strip (lines.getD j [])) (nbKey X) = true)
    (hij : findRouterBgpIdx lines 0 ≤ j)
    (hk : ∀ k, findRouterBgpIdx lines 0 ≤ k → k ≤ j →
      ¬(isTermLine (lines.getD k []) = true ∧
        startsWith (strip (lines.getD k [])) (str "router bgp") = false) ∧
      startsWith (lines.getD k []) (str "   vrf ") = false) :
    strip ((strip (lines.getD j [])).drop (nbKey X).length) ∈
      (parse_neighbor_block_global lines (initNbGlobal X)).configs := by
  rw [parse_neighbor_block_global, nbScanGo]
  exact nbScanGoF_collects hj hmj (lines.length + 1) (findRouterBgpIdx lines 0)
    (initNbGlobal X) hij (by omega) hk



theorem bgpBlockGo_gnForm {lines : List Str} : ∀ (fuel : Nat) {i : Nat}
    {cfg : Config} {processed : List Str} {r : Config × Nat},
    (∀ nb ∈ cfg.globalNeighbors, nb.ip ∈ processed ∧
      nb = parse_neighbor_block_global lines (initNbGlobal nb.ip) ∧
      (!nb.remoteAs.isEmpty || !nb.description.isEmpty) = true) →
    List.Pairwise (fun a b => a.ip ≠ b.ip) cfg.globalNeighbors →
    bgpBlockGo lines fuel i cfg processed = some r →
    (∀ nb ∈ r.1.globalNeighbors,
      nb = parse_neighbor_block_global lines (initNbGlobal nb.ip) ∧
      (!nb.remoteAs.isEmpty || !nb.description.isEmpty) = true) ∧
    List.Pairwise (fun a b => a.ip ≠ b.ip) r.1.globalNeighbors := by
  intro fuel
  induction fuel with
  | zero =>
    intro i cfg processed r _ _ h
    exact Option.noConfusion h
  | succ fuel ih =>
    intro i cfg processed r hmem hpw h
    rcases bgpBlockGo_succ_elim h with hc | hc | ⟨v, hveq, hc⟩ |
      ⟨gn, g, hgneq, hpg, hc⟩ |
      ⟨gn, hgneq2, hpg, hc⟩ | ⟨vr, hvr, hc⟩ | ⟨ip, hip, hm, hnp, hc⟩
    · subst hc
      exact ⟨fun nb hnb => (hmem nb hnb).2, hpw⟩
    · exact ih hmem hpw hc
    · refine ih ?_ ?_ hc
      · exact hmem
      · exact hpw
    · refine ih ?_ ?_ hc
      · exact hmem
      · exact hpw
    · refine ih ?_ ?_ hc
      · exact hmem
      · exact hpw
    · refine ih ?_ ?_ hc
      · exact hmem
      · exact hpw
    · by_cases hg : (!(parse_neighbor_block_global lines
          (initNbGlobal ip)).remoteAs.isEmpty ||
          !(parse_neighbor_block_global lines
            (initNbGlobal ip)).description.isEmpty) = true
      · rw [if_pos hg] at hc
        refine ih ?_ ?_ hc
        · intro nb hnb
          rcases List.mem_append.mp hnb with hx | hx
          · rcases hmem nb hx with ⟨h1, h2, h3⟩
            exact ⟨List.mem_cons_of_mem ip h1, h2, h3⟩
          · rcases List.mem_singleton.mp hx with rfl
            refine ⟨?_, ?_, hg⟩
            · rw [parse_neighbor_block_global_ip]
              exact List.mem_cons_self ip processed
            · rw [parse_neighbor_block_global_ip]
        · rw [List.pairwise_append]
          refine ⟨hpw, List.pairwise_singleton _ _, ?_⟩
          intro a ha b hb
          rcases List.mem_singleton.mp hb with rfl
          rw [parse_neighbor_block_global_ip]
          intro heq
          exact hnp (heq ▸ (hmem a ha).1)
      · rw [if_neg hg] at hc
        refine ih ?_ hpw hc
        intro nb hnb
        rcases hmem nb hnb with ⟨h1, h2, h3⟩
        exact ⟨List.mem_cons_of_mem ip h1, h2, h3⟩

theorem bgpSectionGoF_gnForm {lines : List Str} {blockFuel : Nat} :
    ∀ (fuel i : Nat) {cfg cfg2 : Config},
    cfg.globalNeighbors = [] →
    bgpSectionGoF lines blockFuel fuel i cfg = some cfg2 →
    (∀ nb ∈ cfg2.globalNeighbors,
      nb = parse_neighbor_block_global lines (initNbGlobal nb.ip) ∧
      (!nb.remoteAs.isEmpty || !nb.description.isEmpty) = true) ∧
    List.Pairwise (fun a b => a.ip ≠ b.ip) cfg2.globalNeighbors := by
  intro fuel
  induction fuel with
  | zero =>
    intro i cfg cfg2 hgn h
    injection h with h2
    rw [← h2, hgn]
    exact ⟨fun nb hnb => absurd hnb (List.not_mem_nil nb), List.Pairwise.nil⟩
  | succ fuel ih =>
    intro i cfg cfg2 hgn h
    rw [bgpSectionGoF] at h
    by_cases hlen : i < lines.length
    · rw [if_pos hlen] at h
      simp only [] at h
      by_cases h1 : startsWith (strip (lines.getD i [])) (str "router bgp ")
          = true
      · rw [if_pos h1] at h
        cases hb : bgpBlockGo lines blockFuel (i + 1)
            { cfg with asNumber := (words (strip (lines.getD i []))).getD 2 [] }
            [] with
        | none =>
          rw [hb] at h
          exact Option.noConfusion h
        | some r =>
          rw [hb] at h
          injection h with h2
          rw [← h2]
          refine bgpBlockGo_gnForm blockFuel ?_ ?_ hb
          · intro nb hnb
            rw [show ({ cfg with asNumber :=
                (words (strip (lines.getD i []))).getD 2 [] } :
                Config).globalNeighbors = cfg.globalNeighbors from rfl,
              hgn] at hnb
            exact absurd hnb (List.not_mem_nil nb)
          · rw [show ({ cfg with asNumber :=
                (words (strip (lines.getD i []))).getD 2 [] } :
                Config).globalNeighbors = cfg.globalNeighbors from rfl, hgn]
            exact List.Pairwise.nil
      · rw [if_neg h1] at h
        exact ih _ hgn h
    · rw [if_neg hlen] at h
      injection h with h2
      rw [← h2, hgn]
      exact ⟨fun nb hnb => absurd hnb (List.not_mem_nil nb), List.Pairwise.nil⟩

theorem pairwise_ip_filter_le_one {X : Str} : ∀ (l : List Neighbor),
    List.Pairwise (fun a b => a.ip ≠ b.ip) l →
    (l.filter (fun nb => nb.ip = X)).length ≤ 1 := by
  intro l
  induction l with
  | nil => intro _; simp
  | cons a rest ih =>
    intro hpw
    rcases List.pairwise_cons.mp hpw with ⟨hne, hrest⟩
    rw [List.filter_cons]
    by_cases hx : a.ip = X
    · rw [if_pos (by simp [hx])]
      have hnil : rest.filter (fun nb => nb.ip = X) = [] := by
        rw [List.filter_eq_nil]
        intro b hb
        simp only [decide_eq_true_eq]
        intro hbx
        exact hne b hb (hx.trans hbx.symm)
      rw [List.length_cons, hnil]
      simp
    · rw [if_neg (by simp [hx])]
      exact ih hrest



theorem wordsAux_mem_nonspace : ∀ (s acc : Str),
    (∀ c ∈ acc, isSpaceC c = false) →
    ∀ w ∈ wordsAux s acc, ∀ c ∈ w, isSpaceC c = false := by
  intro s
  induction s with
  | nil =>
    intro acc hacc w hw c hc
    rw [wordsAux] at hw
    by_cases ha : acc.isEmpty = true
    · rw [if_pos ha] at hw
      exact absurd hw (List.not_mem_nil w)
    · rw [if_neg ha] at hw
      rcases List.mem_singleton.mp hw with rfl
      exact hacc c (List.mem_reverse.mp hc)
  | cons x r ih =>
    intro acc hacc w hw c hc
    rw [wordsAux] at hw
    by_cases hx : isSpaceC x = true
    · rw [if_pos hx] at hw
      by_cases ha : acc.isEmpty = true
      · rw [if_pos ha] at hw
        exact ih [] (fun d hd => absurd hd (List.not_mem_nil d)) w hw c hc
      · rw [if_neg ha] at hw
        rcases List.mem_cons.mp hw with rfl | hw2
        · exact hacc c (List.mem_reverse.mp hc)
        · exact ih [] (fun d hd => absurd hd (List.not_mem_nil d)) w hw2 c hc
    · rw [if_neg hx] at hw
      refine ih (x :: acc) ?_ w hw c hc
      intro d hd
      rcases List.mem_cons.mp hd with rfl | hd2
      · exact Bool.eq_false_iff.mpr hx
      · exact hacc d hd2

theorem words_mem_nonspace {s w : Str} (hw : w ∈ words s) :
    ∀ c ∈ w, isSpaceC c = false :=
  wordsAux_mem_nonspace s [] (fun d hd => absurd hd (List.not_mem_nil d)) w hw

theorem getD_mem_of_lt {xs : List Str} {k : Nat} (hk : k < xs.length) :
    xs.getD k [] ∈ xs := by
  rw [List.getD_eq_getElem?_getD, List.getElem?_eq_getElem hk]
  exact List.getElem_mem hk

theorem two_prefixes {t p q : Str} (hp : startsWith t p = true)
    (hq : startsWith t q = true) (hle : p.length ≤ q.length) :
    ∃ m, q = p ++ m := by
  rcases startsWith_eq_append hp with ⟨r1, hr1⟩
  rcases startsWith_eq_append hq with ⟨r2, hr2⟩
  have hqt : q = (p ++ r1).take q.length := by
    rw [← hr1, hr2, List.take_left]
  have h2 : (p ++ r1).take q.length = p ++ r1.take (q.length - p.length) := by
    have h3 : q.length = p.length + (q.length - p.length) := by omega
    nth_rewrite 1 [h3]
    rw [List.take_append]
  exact ⟨r1.take (q.length - p.length), hqt.trans h2⟩

theorem token_eq_of_space_suffix {a b m : Str}
    (hbs : ∀ c ∈ b, isSpaceC c = false)
    (h : b ++ [' '] = a ++ ' ' :: m) (hle : a.length ≤ b.length) : a = b := by
  rcases Nat.lt_or_eq_of_le hle with hlt | heq
  · exfalso
    have hidx := congrArg (fun l : Str => l[a.length]?) h
    simp only [] at hidx
    rw [List.getElem?_append_left hlt] at hidx
    rw [List.getElem?_append_right (Nat.le_refl _)] at hidx
    simp only [Nat.sub_self] at hidx
    rw [List.getElem?_eq_getElem hlt] at hidx
    have hmem : b[a.length] ∈ b := List.getElem_mem hlt
    have : isSpaceC b[a.length] = false := hbs _ hmem
    simp only [List.getElem?_cons_zero] at hidx
    injection hidx with hidx2
    rw [hidx2] at this
    exact Bool.noConfusion this
  · have hlen := congrArg List.length h
    simp [List.length_append] at hlen
    have hm : m.length = 0 := by omega
    rcases List.length_eq_zero.mp hm with rfl
    have h2 : b ++ [' '] = a ++ [' '] := h
    have h3 := List.append_inj_left h2 (by omega)
    exact h3.symm

theorem nbKey_prefix_unique {t a b : Str}
    (ha : startsWith t (nbKey a) = true) (hb : startsWith t (nbKey b) = true)
    (has : ∀ c ∈ a, isSpaceC c = false)
    (hbs : ∀ c ∈ b, isSpaceC c = false) : a = b := by
  rcases Nat.le_total (nbKey a).length (nbKey b).length with hle | hle
  · rcases two_prefixes ha hb hle with ⟨m, hm⟩
    rw [nbKey, nbKey] at hm
    simp only [List.append_assoc] at hm
    have h2 := List.append_cancel_left hm
    have h3 : b ++ [' '] = a ++ ' ' :: m := h2
    have hlen : a.length ≤ b.length := by
      rw [nbKey, nbKey] at hle
      simp [List.length_append] at hle
      omega
    exact token_eq_of_space_suffix hbs h3 hlen
  · rcases two_prefixes hb ha hle with ⟨m, hm⟩
    rw [nbKey, nbKey] at hm
    simp only [List.append_assoc] at hm
    have h2 := List.append_cancel_left hm
    have h3 : a ++ [' '] = b ++ ' ' :: m := h2
    have hlen : b.length ≤ a.length := by
      rw [nbKey, nbKey] at hle
      simp [List.length_append] at hle
      omega
    exact (token_eq_of_space_suffix has h3 hlen).symm

theorem bgpBlockGo_gn_mono {lines : List Str} : ∀ (fuel : Nat) {i : Nat}
    {cfg : Config} {processed : List Str} {r : Config × Nat} {nb : Neighbor},
    nb ∈ cfg.globalNeighbors →
    bgpBlockGo lines fuel i cfg processed = some r →
    nb ∈ r.1.globalNeighbors := by
  intro fuel
  induction fuel with
  | zero =>
    intro i cfg processed r nb _ h
    exact Option.noConfusion h
  | succ fuel ih =>
    intro i cfg processed r nb hnb h
    rcases bgpBlockGo_succ_elim h with hc | hc | ⟨v, hveq, hc⟩ |
      ⟨gn, g, hgneq, hpg, hc⟩ |
      ⟨gn, hgneq2, hpg, hc⟩ | ⟨vr, hvr, hc⟩ | ⟨ip, hip, hm, hnp, hc⟩
    · subst hc
      exact hnb
    · exact ih hnb hc
    · refine ih ?_ hc
      exact hnb
    · refine ih ?_ hc
      exact hnb
    · refine ih ?_ hc
      exact hnb
    · refine ih ?_ hc
      exact hnb
    · refine ih ?_ hc
      by_cases hg : (!(parse_neighbor_block_global lines
          (initNbGlobal ip)).remoteAs.isEmpty ||
          !(parse_neighbor_block_global lines
            (initNbGlobal ip)).description.isEmpty) = true
      · rw [if_pos hg]
        exact List.mem_append_left _ hnb
      · rw [if_neg hg]
        exact hnb

theorem pgGoF_stop_le_j {lines : List Str} {gname : Str} {j : Nat}
    (hj : j < lines.length)
    (hsw3j : startsWith (lines.getD j []) (str "   neighbor ") = true)
    (hswj : startsWith (strip (lines.getD j [])) (str "neighbor ") = true)
    (hhsj : hasSub (str "peer group") (strip (lines.getD j [])) = false)
    (hng : startsWith (strip (lines.getD j [])) (nbKey gname) = false) :
    ∀ (fuel k : Nat) (g : PeerGroup), k ≤ j → j - k < fuel →
    (pgGoF lines gname fuel k g).2 ≤ j := by
  intro fuel
  induction fuel with
  | zero =>
    intro k g hk hf
    omega
  | succ fuel ih =>
    intro k g hk hf
    have hklen : k < lines.length := by omega
    rw [pgGoF, if_pos hklen]
    simp only []
    rcases Nat.lt_or_eq_of_le hk with hlt | heq
    · by_cases h1 : (!startsWith (lines.getD k []) (str "   ") &&
          !startsWith (lines.getD k []) (str "!") &&
          !(strip (lines.getD k [])).isEmpty) = true
      · rw [if_pos h1]
        exact hk
      · rw [if_neg h1]
        by_cases h2 : startsWith (strip (lines.getD k [])) (nbKey gname) = true
        · rw [if_pos h2]
          exact ih (k + 1) _ (by omega) (by omega)
        · rw [if_neg h2]
          by_cases h3 : startsWith (strip (lines.getD k [])) (str "neighbor ")
              = true
          · rw [if_pos h3]
            by_cases h4 : (hasSub (str "peer group") (strip (lines.getD k [])) &&
                !hasSub gname (strip (lines.getD k []))) = true
            · rw [if_pos h4]
              exact hk
            · rw [if_neg h4]
              by_cases h5 : (!hasSub (str "peer group")
                  (strip (lines.getD k []))) = true
              · rw [if_pos h5]
                exact hk
              · rw [if_neg h5]
                exact ih (k + 1) g (by omega) (by omega)
          · rw [if_neg h3]
            exact ih (k + 1) g (by omega) (by omega)
    · subst heq
      have hsp3 : startsWith (lines.getD k []) (str "   ") = true :=
        startsWith_prefix_mono (r := str "neighbor ") (by decide) hsw3j
      rw [if_neg (by rw [hsp3]; simp)]
      rw [if_neg (by rw [hng]; simp)]
      rw [if_pos hswj]
      rw [if_neg (by rw [hhsj]; simp)]
      rw [if_pos (by rw [hhsj]; rfl)]



theorem pgGoF_ge {lines : List Str} {gname : Str} : ∀ (fuel i : Nat)
    (g : PeerGroup), i ≤ (pgGoF lines gname fuel i g).2 := by
  intro fuel
  induction fuel with
  | zero => intro i g; exact Nat.le_refl i
  | succ fuel ih =>
    intro i g
    rw [pgGoF]
    by_cases hlen : i < lines.length
    · rw [if_pos hlen]
      simp only []
      by_cases h1 : (!startsWith (lines.getD i []) (str "   ") &&
          !startsWith (lines.getD i []) (str "!") &&
          !(strip (lines.getD i [])).isEmpty) = true
      · rw [if_pos h1]
      · rw [if_neg h1]
        by_cases h2 : startsWith (strip (lines.getD i [])) (nbKey gname) = true
        · rw [if_pos h2]
          exact Nat.le_trans (Nat.le_succ i) (ih (i + 1) _)
        · rw [if_neg h2]
          by_cases h3 : startsWith (strip (lines.getD i [])) (str "neighbor ")
              = true
          · rw [if_pos h3]
            by_cases h4 : (hasSub (str "peer group") (strip (lines.getD i [])) &&
                !hasSub gname (strip (lines.getD i []))) = true
            · rw [if_pos h4]
            · rw [if_neg h4]
              by_cases h5 : (!hasSub (str "peer group")
                  (strip (lines.getD i []))) = true
              · rw [if_pos h5]
              · rw [if_neg h5]
                exact Nat.le_trans (Nat.le_succ i) (ih (i + 1) g)
          · rw [if_neg h3]
            exact Nat.le_trans (Nat.le_succ i) (ih (i + 1) g)
    · rw [if_neg hlen]

theorem bgpBlockGo_reach {lines : List Str} {X : Str} {j i0 : Nat}
    (hj : j < lines.length)
    (hsw3j : startsWith (lines.getD j []) (str "   neighbor ") = true)
    (hswj : startsWith (strip (lines.getD j [])) (str "neighbor ") = true)
    (hhsj : hasSub (str "peer group") (strip (lines.getD j [])) = false)
    (h2j : 2 ≤ (words (strip (lines.getD j []))).length)
    (hXj : (words (strip (lines.getD j []))).getD 1 [] = X)
    (hnkj : startsWith (strip (lines.getD j [])) (nbKey X) = true)
    (hmX : matchIp X = true)
    (hi0 : startsWith (strip (lines.getD i0 [])) (str "router bgp") = true)
    (hk : ∀ k, i0 ≤ k → k ≤ j →
      ¬(isTermLine (lines.getD k []) = true ∧
        startsWith (strip (lines.getD k [])) (str "router bgp") = false) ∧
      startsWith (lines.getD k []) (str "   vrf ") = false)
    (hguard : (!(parse_neighbor_block_global lines
        (initNbGlobal X)).remoteAs.isEmpty ||
      !(parse_neighbor_block_global lines
        (initNbGlobal X)).description.isEmpty) = true) :
    ∀ (fuel i : Nat) (cfg : Config) (processed : List Str) (r : Config × Nat),
    i0 ≤ i → i ≤ j →
    ((X ∉ processed ∧ ∀ nb ∈ cfg.globalNeighbors, nb.ip ≠ X) ∨
      (∃ nb ∈ cfg.globalNeighbors, nb.ip = X)) →
    bgpBlockGo lines fuel i cfg processed = some r →
    ∃ nb ∈ r.1.globalNeighbors, nb.ip = X := by
  intro fuel
  induction fuel with
  | zero =>
    intro i cfg processed r _ _ _ h
    exact Option.noConfusion h
  | succ fuel ih =>
    intro i cfg processed r hii0 hij hdisj h
    have hlen : i < lines.length := by omega
    rw [bgpBlockGo, if_pos hlen] at h
    simp only [] at h
    rcases hk i hii0 hij with ⟨hk1, hk2⟩
    rw [stop_cond_false hk1, if_neg Bool.false_ne_true] at h
    by_cases hr : startsWith (strip (lines.getD i [])) (str "router-id ")
        = true
    · rw [if_pos hr] at h
      have hine : i ≠ j := by
        intro heq
        rw [heq, startsWith_neighbor_not_routerid hswj] at hr
        exact Bool.noConfusion hr
      refine ih (i + 1) _ processed r (by omega) (by omega) ?_ h
      exact hdisj
    · rw [if_neg hr] at h
      by_cases h3 : (startsWith (strip (lines.getD i [])) (str "neighbor ") &&
          hasSub (str "peer group") (strip (lines.getD i [])) &&
          startsWith (lines.getD i []) (str "   neighbor ")) = true
      · have hine : i ≠ j := by
          intro heq
          rw [heq, hhsj] at h3
          simp at h3
        rw [if_pos h3] at h
        by_cases h4 : 4 ≤ (words (strip (lines.getD i []))).length ∧
            (words (strip (lines.getD i []))).getD 2 [] = str "peer" ∧
            (words (strip (lines.getD i []))).getD 3 [] = str "group"
        · rw [if_pos h4] at h
          have h41 := h4.1
          by_cases h5 : (!matchIp ((words (strip (lines.getD i []))).getD 1 []))
              = true
          · rw [if_pos h5] at h
            have hii0' : i0 < i := by
              rcases Nat.lt_or_eq_of_le hii0 with hlt | heq
              · exact hlt
              · exfalso
                rw [← heq] at h3
                rcases startsWith_eq_append hi0 with ⟨rr, hrr⟩
                rw [hrr] at h3
                rw [show startsWith (str "router bgp" ++ rr)
                  (str "neighbor ") = false from rfl] at h3
                simp at h3
            have hng : startsWith (strip (lines.getD j []))
                (nbKey ((words (strip (lines.getD i []))).getD 1 [])) = false := by
              cases hcc : startsWith (strip (lines.getD j []))
                  (nbKey ((words (strip (lines.getD i []))).getD 1 [])) with
              | false => rfl
              | true =>
                exfalso
                have hXs : ∀ c ∈ X, isSpaceC c = false := by
                  rw [← hXj]
                  exact words_mem_nonspace (getD_mem_of_lt (by omega))
                have hgs : ∀ c ∈ (words (strip (lines.getD i []))).getD 1 [],
                    isSpaceC c = false :=
                  words_mem_nonspace (getD_mem_of_lt (by omega))
                have heq2 := nbKey_prefix_unique hnkj hcc hXs hgs
                rw [← heq2] at h5
                rw [hmX] at h5
                exact Bool.noConfusion h5
            have hstop := pgGoF_stop_le_j hj hsw3j hswj hhsj hng
              (lines.length + 1) i
              (initPg ((words (strip (lines.getD i []))).getD 1 [])) hij
              (by omega)
            have hge := @pgGoF_ge lines
              ((words (strip (lines.getD i []))).getD 1 [])
              (lines.length + 1) i
              (initPg ((words (strip (lines.getD i []))).getD 1 []))
            cases hpg : (parse_peer_group lines i
                ((words (strip (lines.getD i []))).getD 1 [])).1 with
            | some g =>
              rw [hpg] at h
              refine ih (parse_peer_group lines i
                ((words (strip (lines.getD i []))).getD 1 [])).2 _ processed r
                ?_ ?_ ?_ h
              · show i0 ≤ (pgGoF lines
                  ((words (strip (lines.getD i []))).getD 1 [])
                  (lines.length + 1) i
                  (initPg ((words (strip (lines.getD i []))).getD 1 []))).2 - 1
                omega
              · show (pgGoF lines
                  ((words (strip (lines.getD i []))).getD 1 [])
                  (lines.length + 1) i
                  (initPg ((words (strip (lines.getD i []))).getD 1 []))).2 - 1
                  ≤ j
                omega
              · exact hdisj
            | none =>
              rw [hpg] at h
              refine ih (parse_peer_group lines i
                ((words (strip (lines.getD i []))).getD 1 [])).2 _ processed r
                ?_ ?_ ?_ h
              · show i0 ≤ (pgGoF lines
                  ((words (strip (lines.getD i []))).getD 1 [])
                  (lines.length + 1) i
                  (initPg ((words (strip (lines.getD i []))).getD 1 []))).2 - 1
                omega
              · show (pgGoF lines
                  ((words (strip (lines.getD i []))).getD 1 [])
                  (lines.length + 1) i
                  (initPg ((words (strip (lines.getD i []))).getD 1 []))).2 - 1
                  ≤ j
                omega
              · exact hdisj
          · rw [if_neg h5] at h
            exact ih (i + 1) cfg processed r (by omega) (by omega) hdisj h
        · rw [if_neg h4] at h
          exact ih (i + 1) cfg processed r (by omega) (by omega) hdisj h
      · rw [if_neg h3] at h
        rw [if_neg (show ¬(startsWith (strip (lines.getD i [])) (str "vrf ") &&
            startsWith (lines.getD i []) (str "   vrf ")) = true by
          rw [hk2]; simp)] at h
        by_cases h7 : (startsWith (strip (lines.getD i [])) (str "neighbor ") &&
            startsWith (lines.getD i []) (str "   neighbor ") &&
            !hasSub (str "peer group") (strip (lines.getD i []))) = true
        · rw [if_pos h7] at h
          by_cases h8 : 2 ≤ (words (strip (lines.getD i []))).length
          · rw [if_pos h8] at h
            by_cases h9 : matchIp ((words (strip (lines.getD i []))).getD 1 [])
                = true
            · rw [if_pos h9] at h
              by_cases h10 : (words (strip (lines.getD i []))).getD 1 []
                  ∈ processed
              · rw [if_pos h10] at h
                by_cases hine : i = j
                · subst hine
                  rw [hXj] at h10
                  rcases hdisj with ⟨hXnp, _⟩ | ⟨nb, hnbm, hnbip⟩
                  · exact absurd h10 hXnp
                  · exact ⟨nb, bgpBlockGo_gn_mono fuel hnbm h, hnbip⟩
                · exact ih (i + 1) cfg processed r (by omega) (by omega)
                    hdisj h
              · rw [if_neg h10] at h
                by_cases hpx : (words (strip (lines.getD i []))).getD 1 [] = X
                · rw [hpx] at h
                  rw [if_pos hguard] at h
                  refine ih i _ _ r hii0 hij ?_ h
                  refine Or.inr ⟨parse_neighbor_block_global lines
                    (initNbGlobal X), ?_, parse_neighbor_block_global_ip⟩
                  exact List.mem_append_right _ (List.mem_singleton.mpr rfl)
                · refine ih i _ _ r hii0 hij ?_ h
                  rcases hdisj with ⟨hXnp, hno⟩ | hrec
                  · refine Or.inl ⟨?_, ?_⟩
                    · intro hmem
                      rcases List.mem_cons.mp hmem with heq | hmem2
                      · exact hpx heq.symm
                      · exact hXnp hmem2
                    · by_cases hg : (!(parse_neighbor_block_global lines
                          (initNbGlobal ((words (strip (lines.getD i []))).getD
                            1 []))).remoteAs.isEmpty ||
                          !(parse_neighbor_block_global lines
                            (initNbGlobal ((words (strip (lines.getD i []))).getD
                              1 []))).description.isEmpty) = true
                      · rw [if_pos hg]
                        intro nb hnb
                        rcases List.mem_append.mp hnb with hx | hx
                        · exact hno nb hx
                        · rcases List.mem_singleton.mp hx with rfl
                          rw [parse_neighbor_block_global_ip]
                          exact hpx
                      · rw [if_neg hg]
                        exact hno
                  · refine Or.inr ?_
                    by_cases hg : (!(parse_neighbor_block_global lines
                          (initNbGlobal ((words (strip (lines.getD i []))).getD
                            1 []))).remoteAs.isEmpty ||
                          !(parse_neighbor_block_global lines
                            (initNbGlobal ((words (strip (lines.getD i []))).getD
                              1 []))).description.isEmpty) = true
                    · rw [if_pos hg]
                      rcases hrec with ⟨nb, hnbm, hnbip⟩
                      exact ⟨nb, List.mem_append_left _ hnbm, hnbip⟩
                    · rw [if_neg hg]
                      exact hrec
            · rw [if_neg h9] at h
              have hine : i ≠ j := by
                intro heq
                rw [heq, hXj, hmX] at h9
                exact h9 rfl
              exact ih (i + 1) cfg processed r (by omega) (by omega) hdisj h
          · rw [if_neg h8] at h
            have hine : i ≠ j := by
              intro heq
              rw [heq] at h8
              exact h8 h2j
            exact ih (i + 1) cfg processed r (by omega) (by omega) hdisj h
        · rw [if_neg h7] at h
          have hine : i ≠ j := by
            intro heq
            rw [heq, hswj, hsw3j, hhsj] at h7
            simp at h7
          exact ih (i + 1) cfg processed r (by omega) (by omega) hdisj h



theorem bgpSectionGoF_reach {lines : List Str} {X : Str} {j i0 : Nat}
    {blockFuel : Nat}
    (hj : j < lines.length)
    (hsw3j : startsWith (lines.getD j []) (str "   neighbor ") = true)
    (hswj : startsWith (strip (lines.getD j [])) (str "neighbor ") = true)
    (hhsj : hasSub (str "peer group") (strip (lines.getD j [])) = false)
    (h2j : 2 ≤ (words (strip (lines.getD j []))).length)
    (hXj : (words (strip (lines.getD j []))).getD 1 [] = X)
    (hnkj : startsWith (strip (lines.getD j [])) (nbKey X) = true)
    (hmX : matchIp X = true)
    (hhd : startsWith (strip (lines.getD i0 [])) (str "router bgp ") = true)
    (hfirst : ∀ k, k < i0 →
      startsWith (strip (lines.getD k [])) (str "router bgp ") = false)
    (hi0j : i0 < j)
    (hk : ∀ k, k ≤ j → i0 ≤ k →
      ¬(isTermLine (lines.getD k []) = true ∧
        startsWith (strip (lines.getD k [])) (str "router bgp") = false) ∧
      startsWith (lines.getD k []) (str "   vrf ") = false)
    (hguard : (!(parse_neighbor_block_global lines
        (initNbGlobal X)).remoteAs.isEmpty ||
      !(parse_neighbor_block_global lines
        (initNbGlobal X)).description.isEmpty) = true) :
    ∀ (fuel i : Nat) {cfg cfgOut : Config}, i ≤ i0 → i0 - i < fuel →
    cfg.globalNeighbors = [] →
    bgpSectionGoF lines blockFuel fuel i cfg = some cfgOut →
    ∃ nb ∈ cfgOut.globalNeighbors, nb.ip = X := by
  intro fuel
  induction fuel with
  | zero =>
    intro i cfg cfgOut hi hf hgn h
    omega
  | succ fuel ih =>
    intro i cfg cfgOut hi hf hgn h
    have hilen : i < lines.length := by omega
    rw [bgpSectionGoF, if_pos hilen] at h
    simp only [] at h
    rcases Nat.lt_or_eq_of_le hi with hlt | heq
    · rw [if_neg (by rw [hfirst i hlt]; exact Bool.false_ne_true)] at h
      exact ih (i + 1) (by omega) (by omega) hgn h
    · subst heq
      rw [if_pos hhd] at h
      cases hb : bgpBlockGo lines blockFuel (i + 1)
          { cfg with asNumber := (words (strip (lines.getD i []))).getD 2 [] }
          [] with
      | none =>
        rw [hb] at h
        exact Option.noConfusion h
      | some rblk =>
        rw [hb] at h
        injection h with h2
        rw [← h2]
        refine bgpBlockGo_reach hj hsw3j hswj hhsj h2j hXj hnkj hmX
          (startsWith_rb_of_rbsp hhd)
          (fun k hik hkj => hk k hkj hik) hguard blockFuel (i + 1) _ [] rblk
          (by omega) (by omega) ?_ hb
        refine Or.inl ⟨List.not_mem_nil X, ?_⟩
        rw [show ({ cfg with asNumber :=
            (words (strip (lines.getD i []))).getD 2 [] } :
            Config).globalNeighbors = cfg.globalNeighbors from rfl, hgn]
        exact fun nb hnb => absurd hnb (List.not_mem_nil nb)



/-- C2 (amended): in the global scope, (1) the result never holds two
records with the same IP — at most one per IP; (2) every global record is
the single full-rescan merged record for its IP and passed the retention
guard (a non-empty remote AS or description) — so an IP whose lines set
neither field yields no record at all, not one; (3) when a qualifying
3-space `neighbor <ip> ...` line (no `peer group` text) lies after the
`router bgp` header with no terminator or VRF marker up to it, and the
merged record passes the guard, the record for that IP is present; (4) the
merged record's configs contains the fragment of every `neighbor <ip>
<config>` line reachable by the rescan — those between the first
`router bgp` line and the first terminator that are not beyond a VRF
marker. Fragments on top-level lines after a VRF sub-section are skipped by
the rescan (see the counterexample). -/
theorem C2_dedup_merge_amended {content : Str} {cfg : Config} {X : Str}
    {j i0 : Nat}
    (hp : parse_config content = some cfg)
    (hj : j < (normalizeLines content).length)
    (hsw3j : startsWith ((normalizeLines content).getD j [])
      (str "   neighbor ") = true)
    (hswj : startsWith (strip ((normalizeLines content).getD j []))
      (str "neighbor ") = true)
    (hhsj : hasSub (str "peer group")
      (strip ((normalizeLines content).getD j [])) = false)
    (h2j : 2 ≤ (words (strip ((normalizeLines content).getD j []))).length)
    (hXj : (words (strip ((normalizeLines content).getD j []))).getD 1 [] = X)
    (hnkj : startsWith (strip ((normalizeLines content).getD j [])) (nbKey X)
      = true)
    (hmX : matchIp X = true)
    (hhd : startsWith (strip ((normalizeLines content).getD i0 []))
      (str "router bgp ") = true)
    (hfirst : ∀ k, k < i0 →
      startsWith (strip ((normalizeLines content).getD k []))
        (str "router bgp ") = false)
    (hi0j : i0 < j)
    (hk : ∀ k, k ≤ j → i0 ≤ k →
      ¬(isTermLine ((normalizeLines content).getD k []) = true ∧
        startsWith (strip ((normalizeLines content).getD k []))
          (str "router bgp") = false) ∧
      startsWith ((normalizeLines content).getD k []) (str "   vrf ")
        = false) :
    (cfg.globalNeighbors.filter (fun nb => nb.ip = X)).length ≤ 1 ∧
    (∀ nb ∈ cfg.globalNeighbors,
      nb = parse_neighbor_block_global (normalizeLines content)
        (initNbGlobal nb.ip) ∧
      (!nb.remoteAs.isEmpty || !nb.description.isEmpty) = true) ∧
    ((!(parse_neighbor_block_global (normalizeLines content)
        (initNbGlobal X)).remoteAs.isEmpty ||
      !(parse_neighbor_block_global (normalizeLines content)
        (initNbGlobal X)).description.isEmpty) = true →
      ∃ nb ∈ cfg.globalNeighbors, nb.ip = X) ∧
    (∀ j2, findRouterBgpIdx (normalizeLines content) 0 ≤ j2 →
      j2 < (normalizeLines content).length →
      (∀ k, k ≤ j2 → findRouterBgpIdx (normalizeLines content) 0 ≤ k →
        ¬(isTermLine ((normalizeLines content).getD k []) = true ∧
          startsWith (strip ((normalizeLines content).getD k []))
            (str "router bgp") = false) ∧
        startsWith ((normalizeLines content).getD k []) (str "   vrf ")
          = false) →
      startsWith (strip ((normalizeLines content).getD j2 [])) (nbKey X)
        = true →
      strip ((strip ((normalizeLines content).getD j2 [])).drop
        (nbKey X).length) ∈
        (parse_neighbor_block_global (normalizeLines content)
          (initNbGlobal X)).configs) := by
  rw [parse_config, parseLines, parse_bgp_section] at hp
  have hgn0 : (parse_route_maps (normalizeLines content)
      (parse_as_path_sets (normalizeLines content)
        (parse_access_lists (normalizeLines content)
          (parse_community_lists (normalizeLines content)
            (parse_prefix_lists (normalizeLines content)
              resetConfig))))).globalNeighbors = [] := rfl
  rcases bgpSectionGoF_gnForm ((normalizeLines content).length + 1) 0 hgn0 hp
    with ⟨hform, hpw⟩
  refine ⟨pairwise_ip_filter_le_one _ hpw, hform, ?_, ?_⟩
  · intro hguard
    exact bgpSectionGoF_reach hj hsw3j hswj hhsj h2j hXj hnkj hmX hhd hfirst
      hi0j hk hguard ((normalizeLines content).length + 1) 0 (by omega)
      (by omega) hgn0 hp
  · intro j2 h1 h2 h3 h4
    exact parse_neighbor_block_global_collects h2 h4 h1
      (fun k hk1 hk2 => h3 k hk2 hk1)

theorem C2_dedup_merge_amended_witness :
    (({ resetConfig with asNumber := str "1", globalNeighbors :=
        [⟨str "10.0.0.1", str "11", str "D",
          [str "remote-as 11", str "description \"D\""],
          none, none, none, none, none, none⟩] } :
        Config).globalNeighbors.filter
      (fun nb => nb.ip = str "10.0.0.1")).length ≤ 1 ∧
    (∀ nb ∈ ({ resetConfig with asNumber := str "1", globalNeighbors :=
        [⟨str "10.0.0.1", str "11", str "D",
          [str "remote-as 11", str "description \"D\""],
          none, none, none, none, none, none⟩] } :
        Config).globalNeighbors,
      nb = parse_neighbor_block_global
        (normalizeLines (str "router bgp 1\n   neighbor 10.0.0.1 remote-as 11\n   neighbor 10.0.0.1 description \"D\"\n"))
        (initNbGlobal nb.ip) ∧
      (!nb.remoteAs.isEmpty || !nb.description.isEmpty) = true) ∧
    ((!(parse_neighbor_block_global
        (normalizeLines (str "router bgp 1\n   neighbor 10.0.0.1 remote-as 11\n   neighbor 10.0.0.1 description \"D\"\n"))
        (initNbGlobal (str "10.0.0.1"))).remoteAs.isEmpty ||
      !(parse_neighbor_block_global
        (normalizeLines (str "router bgp 1\n   neighbor 10.0.0.1 remote-as 11\n   neighbor 10.0.0.1 description \"D\"\n"))
        (initNbGlobal (str "10.0.0.1"))).description.isEmpty) = true →
      ∃ nb ∈ ({ resetConfig with asNumber := str "1", globalNeighbors :=
        [⟨str "10.0.0.1", str "11", str "D",
          [str "remote-as 11", str "description \"D\""],
          none, none, none, none, none, none⟩] } :
        Config).globalNeighbors, nb.ip = str "10.0.0.1") ∧
    (∀ j2, findRouterBgpIdx
        (normalizeLines (str "router bgp 1\n   neighbor 10.0.0.1 remote-as 11\n   neighbor 10.0.0.1 description \"D\"\n")) 0 ≤ j2 →
      j2 < (normalizeLines (str "router bgp 1\n   neighbor 10.0.0.1 remote-as 11\n   neighbor 10.0.0.1 description \"D\"\n")).length →
      (∀ k, k ≤ j2 → findRouterBgpIdx
          (normalizeLines (str "router bgp 1\n   neighbor 10.0.0.1 remote-as 11\n   neighbor 10.0.0.1 description \"D\"\n")) 0 ≤ k →
        ¬(isTermLine ((normalizeLines (str "router bgp 1\n   neighbor 10.0.0.1 remote-as 11\n   neighbor 10.0.0.1 description \"D\"\n")).getD k []) = true ∧
          startsWith (strip ((normalizeLines (str "router bgp 1\n   neighbor 10.0.0.1 remote-as 11\n   neighbor 10.0.0.1 description \"D\"\n")).getD k []))
            (str "router bgp") = false) ∧
        startsWith ((normalizeLines (str "router bgp 1\n   neighbor 10.0.0.1 remote-as 11\n   neighbor 10.0.0.1 description \"D\"\n")).getD k []) (str "   vrf ")
          = false) →
      startsWith (strip ((normalizeLines (str "router bgp 1\n   neighbor 10.0.0.1 remote-as 11\n   neighbor 10.0.0.1 description \"D\"\n")).getD j2 []))
        (nbKey (str "10.0.0.1")) = true →
      strip ((strip ((normalizeLines (str "router bgp 1\n   neighbor 10.0.0.1 remote-as 11\n   neighbor 10.0.0.1 description \"D\"\n")).getD j2 [])).drop
        (nbKey (str "10.0.0.1")).length) ∈
        (parse_neighbor_block_global
          (normalizeLines (str "router bgp 1\n   neighbor 10.0.0.1 remote-as 11\n   neighbor 10.0.0.1 description \"D\"\n"))
          (initNbGlobal (str "10.0.0.1"))).configs) :=
  @C2_dedup_merge_amended
    (str "router bgp 1\n   neighbor 10.0.0.1 remote-as 11\n   neighbor 10.0.0.1 description \"D\"\n")
    { resetConfig with asNumber := str "1", globalNeighbors :=
        [⟨str "10.0.0.1", str "11", str "D",
          [str "remote-as 11", str "description \"D\""],
          none, none, none, none, none, none⟩] }
    (str "10.0.0.1") 2 0
    (by decide) (by decide) (by decide) (by decide) (by decide) (by decide)
    (by decide) (by decide) (by decide) (by decide) (by decide) (by decide)
    (by decide)


end BgpArista
